import Mathlib

/-!
# Tic-tac-toe engine (`game/types.go`, `game/engine.go`, `server/handlers.go`)

A shallow embedding of the game package (the position codec, the board, the
game record and the engine's registry operations) and of the `make_move`
adapter, followed by the properties proved about them.

Conventions of the embedding:

* a Go `string` is its sequence of bytes (`GoString`); `len` is `List.length`
  and `s[i]` is the `i`-th byte;
* Go `int` is 64 bits wide; it is embedded in `Int`, and the one arithmetic
  operation that is not guarded by a range check (`MoveCount++`) wraps
  explicitly through `wrapInt64`;
* byte subtraction wraps modulo `2^8`, written out with `% 256`;
* a run-time panic (array index out of range) is the value `Run.panic`;
* the registry `map[string]*GameState` is an association list with unique
  keys; a record mutated through its pointer is stored back under its key;
* in the methods of the engine every call is one atomic step; the use the
  methods make of the mutex is embedded apart, as the sequence of lock
  operations of each call run on a state machine of `sync.RWMutex`.
-/

namespace TicTacToe

/-! ## Strings, formatting, panics -/

/-- One byte of a Go string. -/
abbrev Byte := Fin 256

/-- A Go `string`: an immutable sequence of bytes. -/
abbrev GoString := List Byte

/-- The bytes of a source literal made of ASCII characters only (for these the
UTF-8 encoding is the sequence of code points). -/
def ascii (s : String) : GoString := s.toList.map (fun c => Fin.ofNat c.toNat)

/-- The result of running code that may panic. -/
inductive Run (α : Type) where
  | done (val : α)
  | panic
deriving DecidableEq, Repr

/-- A Go `error` value: `none` is `nil`, `some msg` an error built by
`fmt.Errorf` whose `Error()` text is `msg`. -/
abbrev GoError := Option GoString

/-- The `%c` verb of `fmt` applied to an `int`: the UTF-8 encoding of the code
point, or of U+FFFD when the value is not a valid code point. -/
def fmtRune (r : Int) : GoString :=
  if r < 0 ∨ r > 0x10FFFF ∨ (0xD800 ≤ r ∧ r ≤ 0xDFFF) then [0xEF, 0xBF, 0xBD]
  else
    let n := r.toNat
    if n < 0x80 then [Fin.ofNat n]
    else if n < 0x800 then [Fin.ofNat (0xC0 + n / 64), Fin.ofNat (0x80 + n % 64)]
    else if n < 0x10000 then
      [Fin.ofNat (0xE0 + n / 4096), Fin.ofNat (0x80 + n / 64 % 64), Fin.ofNat (0x80 + n % 64)]
    else
      [Fin.ofNat (0xF0 + n / 262144), Fin.ofNat (0x80 + n / 4096 % 64),
        Fin.ofNat (0x80 + n / 64 % 64), Fin.ofNat (0x80 + n % 64)]

/-- The `%d` verb of `fmt` applied to an `int`: decimal digits with a leading
minus sign for negative values. -/
def fmtInt (i : Int) : GoString :=
  let digits (n : Nat) : GoString := (Nat.toDigits 10 n).map (fun c => Fin.ofNat c.toNat)
  if i < 0 then 0x2D :: digits (-i).toNat else digits i.toNat

/-- Two's-complement wrap-around of a 64-bit Go `int`. -/
def wrapInt64 (i : Int) : Int := (i + 2 ^ 63) % 2 ^ 64 - 2 ^ 63

/-! ## `types.go` -/

/-- A player: `type Player string`. -/
abbrev Player := GoString

/-- The constant `PlayerX`. -/
def PlayerX : Player := ascii "X"

/-- The constant `PlayerO`. -/
def PlayerO : Player := ascii "O"

/-- The constant `Empty`: the empty string. -/
def Empty : Player := ascii ""

/-- A board position: `Row` and `Col` are Go `int`s. -/
structure Position where
  Row : Int
  Col : Int
deriving DecidableEq, Repr

/-- The method `Position.String`. -/
def Position.String (p : Position) : GoString :=
  if p.Row < 0 ∨ p.Row > 2 ∨ p.Col < 0 ∨ p.Col > 2 then ascii "Invalid"
  else fmtRune (65 + p.Col) ++ fmtInt (p.Row + 1)

/-- The function `ParsePosition`. The match on the two-element shape is the
check `len(pos) != 2` followed by the indexings `pos[0]` and `pos[1]`; the two
subtractions are done on bytes and wrap modulo 256 before the conversion to
`int`. -/
def ParsePosition (pos : GoString) : Except GoString Position :=
  match pos with
  | [b0, b1] =>
    let col : Int := ((b0.val + 256 - 65) % 256 : Nat)
    let row : Int := ((b1.val + 256 - 49) % 256 : Nat)
    if col < 0 ∨ col > 2 ∨ row < 0 ∨ row > 2 then
      .error (ascii "position must be A1-C3")
    else
      .ok { Row := row, Col := col }
  | _ => .error (ascii "position must be 2 characters (e.g., A1)")

/-- A game status: `type GameStatus string`. -/
abbrev GameStatus := GoString

/-- The constant `StatusOngoing`. -/
def StatusOngoing : GameStatus := ascii "ongoing"

/-- The constant `StatusWon`. -/
def StatusWon : GameStatus := ascii "won"

/-- The constant `StatusDraw`. -/
def StatusDraw : GameStatus := ascii "draw"

/-- The board `[3][3]Player`, indexed by row then column. -/
abbrev Board := Fin 3 → Fin 3 → Player

/-- The function `NewBoard`: the zero value, every cell the empty string. -/
def NewBoard : Board := fun _ _ => Empty

/-- Indexing an array of length 3 with an `int`: panics out of range. -/
def index3 (i : Int) : Run (Fin 3) :=
  if h : 0 ≤ i ∧ i < 3 then .done ⟨i.toNat, by omega⟩ else .panic

/-- The method `Board.Get`. -/
def Board.Get (b : Board) (pos : Position) : Run Player :=
  match index3 pos.Row with
  | .panic => .panic
  | .done r =>
    match index3 pos.Col with
    | .panic => .panic
    | .done c => .done (b r c)

/-- The method `Board.Set`; the updated board is returned. -/
def Board.Set (b : Board) (pos : Position) (player : Player) : Run Board :=
  match index3 pos.Row with
  | .panic => .panic
  | .done r =>
    match index3 pos.Col with
    | .panic => .panic
    | .done c => .done (fun r' c' => if r' = r ∧ c' = c then player else b r' c')

/-- The method `Board.IsEmpty`. -/
def Board.IsEmpty (b : Board) (pos : Position) : Run Bool :=
  match index3 pos.Row with
  | .panic => .panic
  | .done r =>
    match index3 pos.Col with
    | .panic => .panic
    | .done c => .done (decide (b r c = Empty))

/-- The values taken by the loop variable of `for i := 0; i < 3; i++`. -/
def loop3 : List (Fin 3) := [0, 1, 2]

/-- The method `Board.IsFull`: the two nested loops return `false` at the first
empty cell. -/
def Board.IsFull (b : Board) : Bool :=
  loop3.all fun row => loop3.all fun col => !decide (b row col = Empty)

/-- The record `GameState`. -/
structure GameState where
  Board : Board
  CurrentPlayer : Player
  Status : GameStatus
  Winner : Player
  MoveCount : Int
  GameID : GoString
deriving DecidableEq

/-- The function `NewGame`. -/
def NewGame (gameID : GoString) : GameState :=
  { Board := NewBoard
    CurrentPlayer := PlayerX
    Status := StatusOngoing
    Winner := Empty
    MoveCount := 0
    GameID := gameID }

/-- The method `GameState.NextPlayer`. -/
def GameState.NextPlayer (g : GameState) : Player :=
  if g.CurrentPlayer = PlayerX then PlayerO else PlayerX

/-- The method `GameState.IsGameOver`. -/
def GameState.IsGameOver (g : GameState) : Bool :=
  decide (g.Status ≠ StatusOngoing)

/-! ## `engine.go` -/

/-- The engine: the registry of games keyed by identifier. -/
structure Engine where
  games : AList (fun _ : GoString => GameState)
deriving DecidableEq

/-- The function `NewEngine`. -/
def NewEngine : Engine := { games := ∅ }

/-- What a call of an engine method yields: the value returned with a `nil`
error, or an error, each together with the registry after the call; or a
panic. -/
inductive Outcome (α : Type) where
  | ok (e : Engine) (val : α)
  | err (e : Engine) (msg : GoString)
  | panic

/-- The message of `fmt.Errorf("game with ID %s not found", gameID)`. -/
def notFound (gameID : GoString) : GoString :=
  ascii "game with ID " ++ gameID ++ ascii " not found"

/-- The method `Engine.CreateGame`. -/
def CreateGame (e : Engine) (gameID : GoString) : Outcome GameState :=
  let game := NewGame gameID
  .ok { e with games := e.games.insert gameID game } game

/-- The method `Engine.GetGame`. -/
def GetGame (e : Engine) (gameID : GoString) : Outcome GameState :=
  match e.games.lookup gameID with
  | none => .err e (notFound gameID)
  | some game => .ok e game

/-- The method `Engine.validateMove`. -/
def validateMove (game : GameState) (pos : Position) (player : Player) : Run GoError :=
  if game.IsGameOver then
    .done (some (ascii "game is already over"))
  else if player ≠ game.CurrentPlayer then
    .done (some (ascii "it\x27s not " ++ player ++ ascii "\x27s turn"))
  else if pos.Row < 0 ∨ pos.Row > 2 ∨ pos.Col < 0 ∨ pos.Col > 2 then
    .done (some (ascii "position " ++ pos.String ++ ascii " is out of bounds"))
  else
    match Board.IsEmpty game.Board pos with
    | .panic => .panic
    | .done false =>
      .done (some (ascii "position " ++ pos.String ++ ascii " is already occupied"))
    | .done true => .done none

/-- The method `Engine.checkWin`: three rows, three columns, two diagonals. -/
def checkWin (board : Board) (player : Player) : Bool :=
  if loop3.any fun row =>
      decide (board row 0 = player ∧ board row 1 = player ∧ board row 2 = player) then true
  else if loop3.any fun col =>
      decide (board 0 col = player ∧ board 1 col = player ∧ board 2 col = player) then true
  else if board 0 0 = player ∧ board 1 1 = player ∧ board 2 2 = player then true
  else if board 0 2 = player ∧ board 1 1 = player ∧ board 2 0 = player then true
  else false

/-- The method `Engine.MakeMove`. -/
def MakeMove (e : Engine) (gameID : GoString) (pos : Position) (player : Player) :
    Outcome GameState :=
  match e.games.lookup gameID with
  | none => .err e (notFound gameID)
  | some game =>
    match validateMove game pos player with
    | .panic => .panic
    | .done (some err) => .err e err
    | .done none =>
      match Board.Set game.Board pos player with
      | .panic => .panic
      | .done board =>
        let game := { game with Board := board }
        let game := { game with MoveCount := wrapInt64 (game.MoveCount + 1) }
        let game :=
          if checkWin game.Board player then
            { game with Status := StatusWon, Winner := player }
          else if Board.IsFull game.Board then
            { game with Status := StatusDraw }
          else
            { game with CurrentPlayer := game.NextPlayer }
        .ok { e with games := e.games.insert gameID game } game

/-- The method `Engine.ResetGame`. -/
def ResetGame (e : Engine) (gameID : GoString) : Outcome GameState :=
  match e.games.lookup gameID with
  | none => .err e (notFound gameID)
  | some game =>
    let game :=
      { game with
        Board := NewBoard
        CurrentPlayer := PlayerX
        Status := StatusOngoing
        Winner := Empty
        MoveCount := 0 }
    .ok { e with games := e.games.insert gameID game } game

/-- The method `Engine.DeleteGame`; it returns only an error. -/
def DeleteGame (e : Engine) (gameID : GoString) : Outcome Unit :=
  match e.games.lookup gameID with
  | none => .err e (notFound gameID)
  | some _ => .ok { e with games := e.games.erase gameID } ()

/-- The method `Engine.ListGames`. The iteration order of a Go map is not
specified; the identifiers come in the order of the association list. -/
def ListGames (e : Engine) : Outcome (List GoString) :=
  .ok e e.games.keys

/-- The values taken by an `int` loop variable of `for i := 0; i < 3; i++`. -/
def loopInt3 : List Int := [0, 1, 2]

/-- The body of the inner loop of `GetAvailableMoves`: the position is appended
to the moves found so far when its cell is empty. -/
def appendIfEmpty (b : Board) (acc : Run (List Position)) (pos : Position) :
    Run (List Position) :=
  match acc with
  | .panic => .panic
  | .done moves =>
    match Board.IsEmpty b pos with
    | .panic => .panic
    | .done true => .done (moves ++ [pos])
    | .done false => .done moves

/-- The method `Engine.GetAvailableMoves`. The two nested loops visit the
positions row by row and append the empty ones; a `nil` slice and an empty
slice are both the empty list. -/
def GetAvailableMoves (e : Engine) (gameID : GoString) : Outcome (List Position) :=
  match e.games.lookup gameID with
  | none => .err e (notFound gameID)
  | some game =>
    if game.IsGameOver then .ok e []
    else
      match (loopInt3.flatMap fun row => loopInt3.map fun col => Position.mk row col).foldl
          (appendIfEmpty game.Board) (.done []) with
      | .panic => .panic
      | .done moves => .ok e moves

/-- The method `Engine.AnalyzePosition`, without its lock operations (see
`lockOps`); the error of the inner `GetAvailableMoves` call is discarded as in
the source, leaving a `nil` slice. -/
def AnalyzePosition (e : Engine) (gameID : GoString) : Outcome GoString :=
  match e.games.lookup gameID with
  | none => .err e (notFound gameID)
  | some game =>
    if game.IsGameOver ∧ game.Status = StatusWon then
      .ok e (ascii "Game over: " ++ game.Winner ++ ascii " wins!")
    else if game.IsGameOver ∧ game.Status = StatusDraw then
      .ok e (ascii "Game over: It\x27s a draw!")
    else
      match GetAvailableMoves e gameID with
      | .panic => .panic
      | .err _ _ =>
        .ok e (ascii "Current player: " ++ game.CurrentPlayer ++ ascii ", Available moves: " ++
          fmtInt 0 ++ ascii ", Move count: " ++ fmtInt game.MoveCount)
      | .ok _ availableMoves =>
        .ok e (ascii "Current player: " ++ game.CurrentPlayer ++ ascii ", Available moves: " ++
          fmtInt availableMoves.length ++ ascii ", Move count: " ++ fmtInt game.MoveCount)

/-! ## Executions of the engine -/

/-- One call of a mutating engine method. -/
inductive Op where
  | create (gameID : GoString)
  | move (gameID : GoString) (pos : Position) (player : Player)
  | reset (gameID : GoString)
  | delete (gameID : GoString)

/-- The registry after a call, when the call did not panic. -/
def Outcome.engine {α : Type} : Outcome α → Option Engine
  | .ok e _ => some e
  | .err e _ => some e
  | .panic => none

/-- The registry after one call, successful or failing. -/
def step (e : Engine) : Op → Option Engine
  | .create gameID => (CreateGame e gameID).engine
  | .move gameID pos player => (MakeMove e gameID pos player).engine
  | .reset gameID => (ResetGame e gameID).engine
  | .delete gameID => (DeleteGame e gameID).engine

/-- The registry after a sequence of calls, started on `e`. -/
def runFrom (e : Engine) : List Op → Option Engine
  | [] => some e
  | op :: ops =>
    match step e op with
    | none => none
    | some e' => runFrom e' ops

/-- The states the engine can be in: those a sequence of calls produces from
`NewEngine()`. -/
def Reachable (e : Engine) : Prop := ∃ ops, runFrom NewEngine ops = some e

/-! ## Vocabulary of the specification -/

/-- A position on the board: both coordinates in `0..2`. -/
def Position.InRange (p : Position) : Prop :=
  0 ≤ p.Row ∧ p.Row ≤ 2 ∧ 0 ≤ p.Col ∧ p.Col ≤ 2

instance (p : Position) : Decidable p.InRange := by
  unfold Position.InRange; infer_instance

/-- The nine texts `A1` .. `C3`. -/
def nineTexts : List GoString :=
  [ascii "A1", ascii "B1", ascii "C1", ascii "A2", ascii "B2", ascii "C2",
   ascii "A3", ascii "B3", ascii "C3"]

/-- The eight lines of the board as the specification lists them: rows 0-2,
columns 0-2, the main diagonal and the anti-diagonal, each a list of
(row, column) cells. -/
def lines : List (List (Fin 3 × Fin 3)) :=
  [ [(0, 0), (0, 1), (0, 2)], [(1, 0), (1, 1), (1, 2)], [(2, 0), (2, 1), (2, 2)],
    [(0, 0), (1, 0), (2, 0)], [(0, 1), (1, 1), (2, 1)], [(0, 2), (1, 2), (2, 2)],
    [(0, 0), (1, 1), (2, 2)], [(0, 2), (1, 1), (2, 0)] ]

/-- Mark `m` fills a line of board `b`: all three cells of one of the eight
lines hold `m`. -/
def FillsLine (b : Board) (m : Player) : Prop :=
  ∃ l ∈ lines, ∀ rc ∈ l, b rc.1 rc.2 = m

instance (b : Board) (m : Player) : Decidable (FillsLine b m) := by
  unfold FillsLine; infer_instance

/-- The number of non-empty cells of a board. -/
def occupied (b : Board) : Nat :=
  (Finset.univ.filter fun rc : Fin 3 × Fin 3 => b rc.1 rc.2 ≠ Empty).card

/-! ## Auxiliary definitions for the proofs -/

/-- The board with `player` written at cell `(r, c)`: what `Board.Set` yields
for an in-range position. -/
def Board.put (b : Board) (r c : Fin 3) (player : Player) : Board :=
  fun r' c' => if r' = r ∧ c' = c then player else b r' c'

/-- The record `MakeMove` stores after placing `player` at cell `(r, c)`. -/
def GameState.moved (g : GameState) (r c : Fin 3) (player : Player) : GameState :=
  let b := Board.put g.Board r c player
  let g1 := { g with Board := b, MoveCount := wrapInt64 (g.MoveCount + 1) }
  if checkWin b player then { g1 with Status := StatusWon, Winner := player }
  else if Board.IsFull b then { g1 with Status := StatusDraw }
  else { g1 with CurrentPlayer := g.NextPlayer }



/-- The text of the wrong-turn error. -/
def msgWrongTurn (player : Player) : GoString :=
  ascii "it\x27s not " ++ player ++ ascii "\x27s turn"

/-- The record `ResetGame` stores: every field but `GameID` as at creation. -/
def GameState.cleared (g : GameState) : GameState :=
  { g with
    Board := NewBoard
    CurrentPlayer := PlayerX
    Status := StatusOngoing
    Winner := Empty
    MoveCount := 0 }

/-- For each game, the player of the last successful move since the game was
created or last reset, if any. -/
abbrev History := GoString → Option Player

/-- One call, keeping track of who moved last on each game. -/
def stepTrace (e : Engine) (last : History) : Op → Option (Engine × History)
  | .create gameID =>
    match CreateGame e gameID with
    | .ok e' _ => some (e', Function.update last gameID none)
    | .err e' _ => some (e', last)
    | .panic => none
  | .move gameID pos player =>
    match MakeMove e gameID pos player with
    | .ok e' _ => some (e', Function.update last gameID (some player))
    | .err e' _ => some (e', last)
    | .panic => none
  | .reset gameID =>
    match ResetGame e gameID with
    | .ok e' _ => some (e', Function.update last gameID none)
    | .err e' _ => some (e', last)
    | .panic => none
  | .delete gameID =>
    match DeleteGame e gameID with
    | .ok e' _ => some (e', Function.update last gameID none)
    | .err e' _ => some (e', last)
    | .panic => none

/-- A sequence of calls, keeping track of who moved last on each game. -/
def runTrace (e : Engine) (last : History) : List Op → Option (Engine × History)
  | [] => some (e, last)
  | op :: ops =>
    match stepTrace e last op with
    | none => none
    | some (e', last') => runTrace e' last' ops

/-- What holds of every record of every execution, together with the player
who moved last on it. -/
structure GameInv (g : GameState) (last : Option Player) : Prop where
  status : g.Status = StatusOngoing ∨ g.Status = StatusWon ∨ g.Status = StatusDraw
  current : g.CurrentPlayer = PlayerX ∨ g.CurrentPlayer = PlayerO
  cells : ∀ r c, g.Board r c = Empty ∨ g.Board r c = PlayerX ∨ g.Board r c = PlayerO
  count : g.MoveCount = occupied g.Board
  won : g.Status = StatusWon →
    g.Winner = g.CurrentPlayer ∧ FillsLine g.Board g.Winner ∧ last = some g.Winner
  notWon : g.Status ≠ StatusWon →
    g.Winner = Empty ∧ ¬ FillsLine g.Board PlayerX ∧ ¬ FillsLine g.Board PlayerO
  oneWinner : ¬ (FillsLine g.Board PlayerX ∧ FillsLine g.Board PlayerO)
  draw : g.Status = StatusDraw → Board.IsFull g.Board = true
  ongoing : g.Status = StatusOngoing → Board.IsFull g.Board = false

/-! ## Example executions -/

/-- The identifier of the game of `TestWinConditions`. -/
def demoID : GoString := ascii "row-win"

/-- The calls of `TestWinConditions` before the winning move: the creation,
then X:A1, O:A2, X:B1, O:B2. -/
def rowWinOps : List Op :=
  [.create demoID, .move demoID ⟨0, 0⟩ PlayerX, .move demoID ⟨1, 0⟩ PlayerO,
    .move demoID ⟨0, 1⟩ PlayerX, .move demoID ⟨1, 1⟩ PlayerO]

/-- The calls of `TestWinConditions`, the winning move X:C1 included. -/
def rowWinAll : List Op := rowWinOps ++ [Op.move demoID ⟨0, 2⟩ PlayerX]

/-- The registry a sequence of calls leaves, started from `NewEngine()`. -/
def engineAfter (ops : List Op) : Engine := (runFrom NewEngine ops).getD NewEngine

/-- The record a sequence of calls leaves under an identifier. -/
def gameAfter (ops : List Op) (gameID : GoString) : GameState :=
  ((engineAfter ops).games.lookup gameID).getD (NewGame gameID)

/-- The last movers a sequence of calls leaves. -/
def historyAfter (ops : List Op) : History :=
  ((runTrace NewEngine (fun _ => none) ops).getD (NewEngine, fun _ => none)).2

/-- The nine positions of the board in row-major order: row ascending, then
column ascending. -/
def allPositions : List Position :=
  [⟨0, 0⟩, ⟨0, 1⟩, ⟨0, 2⟩, ⟨1, 0⟩, ⟨1, 1⟩, ⟨1, 2⟩, ⟨2, 0⟩, ⟨2, 1⟩, ⟨2, 2⟩]

/-- The cell of a position is empty. -/
def cellEmpty (b : Board) (p : Position) : Bool := decide (Board.Get b p = .done Empty)

/-- The text `AnalyzePosition` returns for a game that is not reported as over. -/
def msgAnalysis (g : GameState) (k : Nat) : GoString :=
  ascii "Current player: " ++ g.CurrentPlayer ++ ascii ", Available moves: " ++
    fmtInt k ++ ascii ", Move count: " ++ fmtInt g.MoveCount

/-- The number of empty cells of a board. -/
def emptyCells (b : Board) : Nat :=
  (Finset.univ.filter fun rc : Fin 3 × Fin 3 => b rc.1 rc.2 = Empty).card

/-- The nine cells of the board in row-major order. -/
def allCells : List (Fin 3 × Fin 3) :=
  [(0, 0), (0, 1), (0, 2), (1, 0), (1, 1), (1, 2), (2, 0), (2, 1), (2, 2)]

/-- The position of a cell. -/
def positionOf (rc : Fin 3 × Fin 3) : Position := ⟨(rc.1.val : Int), (rc.2.val : Int)⟩

/-- The results of a sequence of `MakeMove` calls on one game, each call
running on the registry the previous one left. -/
def playMoves (e : Engine) (gameID : GoString) :
    List (Position × Player) → List (Outcome GameState)
  | [] => []
  | (pos, player) :: rest =>
    (MakeMove e gameID pos player) ::
      playMoves ((MakeMove e gameID pos player).engine.getD e) gameID rest

/-- The player of the `i`-th move of a game, counted from 0: X, O, X, ... -/
def altPlayer (i : Nat) : Player := if i % 2 = 0 then PlayerX else PlayerO

/-- The moves that place alternating marks on the given positions, the first
of them being move number `i`. -/
def alternating : Nat → List Position → List (Position × Player)
  | _, [] => []
  | i, pos :: rest => (pos, altPlayer i) :: alternating (i + 1) rest

/-- The cell of the board an in-range position denotes. -/
def Position.cell (p : Position) : Fin 3 × Fin 3 :=
  (⟨p.Row.toNat % 3, Nat.mod_lt _ (by decide)⟩, ⟨p.Col.toNat % 3, Nat.mod_lt _ (by decide)⟩)

/-- The board obtained from `b` by writing alternating marks on the given
positions, the first of them being move number `i`. -/
def placeAll (b : Board) : Nat → List Position → Board
  | _, [] => b
  | i, pos :: rest => placeAll (Board.put b pos.cell.1 pos.cell.2 (altPlayer i)) (i + 1) rest

/-- The positions of `TestDraw` in the order they are played: A1, A2, A3, B1,
C1, B2, B3, C3, C2. -/
def drawPositions : List Position :=
  [⟨0, 0⟩, ⟨1, 0⟩, ⟨2, 0⟩, ⟨0, 1⟩, ⟨0, 2⟩, ⟨1, 1⟩, ⟨2, 1⟩, ⟨2, 2⟩, ⟨1, 2⟩]

/-- The identifier of the game of `TestDraw`. -/
def drawID : GoString := ascii "draw-game"

/-- The status an outcome reports, when it is a success. -/
def Outcome.status : Outcome GameState → Option GameStatus
  | .ok _ g => some g.Status
  | .err _ _ => none
  | .panic => none





/-- The number of cells of a board that hold the mark `m`. -/
def countMark (b : Board) (m : Player) : Nat :=
  (Finset.univ.filter fun rc : Fin 3 × Fin 3 => b rc.1 rc.2 = m).card

/-- What holds of every record of every execution about the alternation of the
turns, together with the player who moved last on it. -/
structure TurnInv (g : GameState) (last : Option Player) : Prop where
  base : GameInv g last
  xs : countMark g.Board PlayerX = (occupied g.Board + 1) / 2
  os : countMark g.Board PlayerO = occupied g.Board / 2
  turn : g.Status = StatusOngoing → g.CurrentPlayer = altPlayer (occupied g.Board)
  lastMove : g.Status ≠ StatusOngoing → last = some g.CurrentPlayer

/-! ## `server/handlers.go`: the `make_move` adapter -/

/-- The text written for an empty cell by `Board.String`: the non-ASCII literal
of the source file, byte for byte. -/
def emptyCellText : GoString := [0xC3, 0x82, 0xC2, 0xB7]

/-- The method `Board.String`. -/
def Board.String (b : Board) : GoString :=
  loop3.foldl (fun result row =>
    let result := result ++ fmtInt ((row.val : Int) + 1) ++ ascii " "
    let result := loop3.foldl (fun result col =>
      let cell := if b row col = ascii "" then emptyCellText else b row col
      let result := result ++ cell
      if col.val < 2 then result ++ ascii " " else result) result
    result ++ ascii "\n") (ascii "  A B C\n")

/-- An argument of a tool call: a JSON string, or a value of another kind. -/
inductive ArgValue where
  | str (s : GoString)
  | other

/-- The request of a tool call (`mcp.CallToolRequest`), reduced to its
arguments by name. -/
structure CallToolRequest where
  arguments : GoString → Option ArgValue

/-- The library method `CallToolRequest.RequireString` of mcp-go: the string
argument of that name, or an error when the argument is missing or is not a
string. The handlers discard the error value, so an error is `none`. -/
def CallToolRequest.RequireString (request : CallToolRequest) (key : GoString) :
    Option GoString :=
  match request.arguments key with
  | some (.str s) => some s
  | some .other => none
  | none => none

/-- The result of a tool call (`mcp.CallToolResult`), reduced to its error flag
and its text content. -/
structure CallToolResult where
  IsError : Bool
  Text : GoString
deriving DecidableEq

/-- The library function `mcp.NewToolResultError`. -/
def NewToolResultError (text : GoString) : CallToolResult := { IsError := true, Text := text }

/-- The library function `mcp.NewToolResultText`. -/
def NewToolResultText (text : GoString) : CallToolResult := { IsError := false, Text := text }

/-- What a handler returns, with the registry it leaves: the result and the Go
error. -/
structure HandlerReturn where
  engine : Engine
  result : CallToolResult
  err : GoError

/-- The non-ASCII characters that open the won message of `handleMakeMove`, as
the bytes of the source file. -/
def wonPrefix : GoString := [0xC3, 0xB0, 0xC5, 0xB8, 0xC5, 0xBD, 0xE2, 0x80, 0xB0]

/-- The part of `handleMakeMove` that follows the parsing of the player: the
call of the engine and the building of the response. -/
def makeMoveAs (e : Engine) (gameID positionStr : GoString) (position : Position)
    (player : Player) : Run HandlerReturn :=
  match MakeMove e gameID position player with
  | .panic => .panic
  | .err e' err => .done ⟨e', NewToolResultError (ascii "Move failed: " ++ err), none⟩
  | .ok e' gameState =>
    let response := ascii "Move successful: " ++ player ++ ascii " placed " ++ player ++
      ascii " at " ++ positionStr ++ ascii "\n\nUpdated board:\n" ++
      Board.String gameState.Board
    let response :=
      if gameState.IsGameOver then
        if gameState.Status = StatusWon then
          response ++ ascii "\n" ++ wonPrefix ++ ascii " Game Over! " ++
            gameState.Winner ++ ascii " wins!"
        else if gameState.Status = StatusDraw then
          response ++ ascii "\nGame Over! It\x27s a draw!"
        else response
      else response ++ ascii "\nNext player: " ++ gameState.CurrentPlayer
    .done ⟨e', NewToolResultText response, none⟩

/-- The method `TicTacToeServer.handleMakeMove`. The library function
`strings.ToUpper` is the parameter `upper`; `%v` of an error is its text. -/
def handleMakeMove (upper : GoString → GoString) (e : Engine) (request : CallToolRequest) :
    Run HandlerReturn :=
  match request.RequireString (ascii "game_id") with
  | none => .done ⟨e, NewToolResultError (ascii "game_id is required"), none⟩
  | some gameID =>
    match request.RequireString (ascii "position") with
    | none => .done ⟨e, NewToolResultError (ascii "position is required"), none⟩
    | some positionStr =>
      match request.RequireString (ascii "player") with
      | none => .done ⟨e, NewToolResultError (ascii "player is required"), none⟩
      | some playerStr =>
        match ParsePosition positionStr with
        | .error err =>
          .done ⟨e, NewToolResultError (ascii "Invalid position: " ++ err), none⟩
        | .ok position =>
          if upper playerStr = ascii "X" then makeMoveAs e gameID positionStr position PlayerX
          else if upper playerStr = ascii "O" then
            makeMoveAs e gameID positionStr position PlayerO
          else
            .done ⟨e, NewToolResultError (ascii "Player must be \x27X\x27 or \x27O\x27"), none⟩

/-- The function `strings.ToUpper` on strings of ASCII characters: the letters
`a`..`z` become `A`..`Z`. -/
def asciiUpper (s : GoString) : GoString :=
  s.map fun b => if 97 ≤ b.val ∧ b.val ≤ 122 then Fin.ofNat (b.val - 32) else b

/-- The request of `TestMakeMoveTool`: game `test-game`, a position, a
player. -/
def moveRequest (position player : GoString) : CallToolRequest where
  arguments := fun key =>
    if key = ascii "game_id" then some (.str (ascii "test-game"))
    else if key = ascii "position" then some (.str position)
    else if key = ascii "player" then some (.str player)
    else none

/-- The engine of `TestMakeMoveTool` after the creation of `test-game`. -/
def testEngine : Engine := engineAfter [.create (ascii "test-game")]

/-- The engine of `TestMakeMoveTool` after the move X:A1. -/
def testEngineMoved : Engine :=
  engineAfter [.create (ascii "test-game"), .move (ascii "test-game") ⟨0, 0⟩ PlayerX]

/-! ## The lock of the registry (`sync.RWMutex`) -/

/-- The state of the `sync.RWMutex` of the engine, as far as blocking goes: the
number of read locks held, whether the write lock is held, and the number of
goroutines waiting inside `Lock`. -/
structure RWMutex where
  readers : Nat
  writer : Bool
  pending : Nat
deriving DecidableEq, Repr

/-- The operations of a goroutine on the mutex. -/
inductive LockOp where
  | RLock
  | RUnlock
  | Lock
  | Unlock
deriving DecidableEq, Repr

/-- A call of a method of the engine by a goroutine. -/
inductive Call where
  | createGame (gameID : GoString)
  | getGame (gameID : GoString)
  | makeMove (gameID : GoString) (pos : Position) (player : Player)
  | resetGame (gameID : GoString)
  | deleteGame (gameID : GoString)
  | listGames
  | getAvailableMoves (gameID : GoString)
  | analyzePosition (gameID : GoString)

/-- Whether `AnalyzePosition` reaches its call of `GetAvailableMoves`: the game
is registered and the method has not returned one of the two game-over
texts. -/
def reachesInnerCall (e : Engine) (gameID : GoString) : Bool :=
  match e.games.lookup gameID with
  | none => false
  | some game =>
    !(game.IsGameOver && (decide (game.Status = StatusWon) || decide (game.Status = StatusDraw)))

/-- The operations on the mutex a call performs, in order: each method locks
on entry and unlocks by `defer` on return; `AnalyzePosition` calls
`GetAvailableMoves`, which locks for reading again, while it holds its own
read lock. -/
def lockOps (e : Engine) : Call → List LockOp
  | .createGame _ => [.Lock, .Unlock]
  | .getGame _ => [.RLock, .RUnlock]
  | .makeMove _ _ _ => [.Lock, .Unlock]
  | .resetGame _ => [.Lock, .Unlock]
  | .deleteGame _ => [.Lock, .Unlock]
  | .listGames => [.RLock, .RUnlock]
  | .getAvailableMoves _ => [.RLock, .RUnlock]
  | .analyzePosition gameID =>
    if reachesInnerCall e gameID then [.RLock, .RLock, .RUnlock, .RUnlock]
    else [.RLock, .RUnlock]

/-- A goroutine inside a call: the operations on the mutex it has still to do,
and whether it is waiting inside `Lock`. -/
structure Goroutine where
  todo : List LockOp
  waiting : Bool
deriving DecidableEq, Repr

/-- The mutex and the goroutines that use it. -/
structure Sched where
  mutex : RWMutex
  routines : List Goroutine
deriving DecidableEq, Repr

/-- One step of a goroutine on the mutex, following the documentation of
`sync.RWMutex`; `none` when the goroutine is blocked or has returned.
`RLock` blocks while the write lock is held or a goroutine waits in `Lock` (a
blocked `Lock` call excludes new readers); `Lock` takes the lock when no lock
is held, otherwise it starts to wait and then blocks until no lock is held. -/
def stepGoroutine (m : RWMutex) (g : Goroutine) : Option (RWMutex × Goroutine) :=
  match g.todo with
  | [] => none
  | .RLock :: rest =>
    if m.writer = false ∧ m.pending = 0 then
      some ({ m with readers := m.readers + 1 }, { todo := rest, waiting := false })
    else none
  | .RUnlock :: rest =>
    some ({ m with readers := m.readers - 1 }, { todo := rest, waiting := false })
  | .Lock :: rest =>
    if m.writer = false ∧ m.readers = 0 then
      some ({ m with writer := true, pending := if g.waiting then m.pending - 1 else m.pending },
        { todo := rest, waiting := false })
    else if g.waiting then none
    else some ({ m with pending := m.pending + 1 }, { g with waiting := true })
  | .Unlock :: rest =>
    some ({ m with writer := false }, { todo := rest, waiting := false })

/-- One step of the goroutine number `i`. -/
def Sched.step (s : Sched) (i : Nat) : Option Sched :=
  match s.routines[i]? with
  | none => none
  | some g =>
    match stepGoroutine s.mutex g with
    | none => none
    | some (m, g') => some { mutex := m, routines := s.routines.set i g' }

/-- The steps of a schedule: the numbers of the goroutines that step, in
order. -/
def Sched.run (s : Sched) : List Nat → Option Sched
  | [] => some s
  | i :: rest =>
    match s.step i with
    | none => none
    | some s' => s'.run rest

/-- The goroutines of concurrent calls on an engine, none of them started, and
the mutex unlocked. -/
def Sched.start (e : Engine) (calls : List Call) : Sched :=
  { mutex := { readers := 0, writer := false, pending := 0 }
    routines := calls.map fun c => { todo := lockOps e c, waiting := false } }

/-- No goroutine can step, and some goroutine has not returned. -/
def Sched.Deadlocked (s : Sched) : Prop :=
  (∀ i, i < s.routines.length → s.step i = none) ∧ ∃ g ∈ s.routines, g.todo ≠ []

instance (s : Sched) : Decidable s.Deadlocked := by
  unfold Sched.Deadlocked; infer_instance

/-- Every goroutine has returned. -/
def Sched.Finished (s : Sched) : Prop := ∀ g ∈ s.routines, g.todo = []

instance (s : Sched) : Decidable s.Finished := by
  unfold Sched.Finished; infer_instance

/-- The state in which `AnalyzePosition` holds its read lock and waits for the
second one, while `MakeMove` waits for the write lock. -/
def stuckState : Sched :=
  { mutex := { readers := 1, writer := false, pending := 1 }
    routines := [{ todo := [.RLock, .RUnlock, .RUnlock], waiting := false },
      { todo := [.Lock, .Unlock], waiting := true }] }

/-! ## Properties -/

/-! ### Win and draw detection -/

theorem fillsLine_iff (b : Board) (m : Player) :
    FillsLine b m ↔
      (b 0 0 = m ∧ b 0 1 = m ∧ b 0 2 = m) ∨ (b 1 0 = m ∧ b 1 1 = m ∧ b 1 2 = m) ∨
      (b 2 0 = m ∧ b 2 1 = m ∧ b 2 2 = m) ∨ (b 0 0 = m ∧ b 1 0 = m ∧ b 2 0 = m) ∨
      (b 0 1 = m ∧ b 1 1 = m ∧ b 2 1 = m) ∨ (b 0 2 = m ∧ b 1 2 = m ∧ b 2 2 = m) ∨
      (b 0 0 = m ∧ b 1 1 = m ∧ b 2 2 = m) ∨ (b 0 2 = m ∧ b 1 1 = m ∧ b 2 0 = m) := by
  simp only [FillsLine, lines, List.mem_cons, List.mem_singleton, exists_eq_or_imp,
    forall_eq_or_imp, forall_eq, List.not_mem_nil, false_and, exists_false, or_false,
    exists_eq_left]

theorem ite_true_iff (c : Prop) [Decidable c] (x : Bool) :
    (if c then true else x) = true ↔ c ∨ x = true := by
  by_cases h : c <;> simp [h]

theorem checkWin_iff (b : Board) (m : Player) :
    checkWin b m = true ↔
      (b 0 0 = m ∧ b 0 1 = m ∧ b 0 2 = m) ∨ (b 1 0 = m ∧ b 1 1 = m ∧ b 1 2 = m) ∨
      (b 2 0 = m ∧ b 2 1 = m ∧ b 2 2 = m) ∨ (b 0 0 = m ∧ b 1 0 = m ∧ b 2 0 = m) ∨
      (b 0 1 = m ∧ b 1 1 = m ∧ b 2 1 = m) ∨ (b 0 2 = m ∧ b 1 2 = m ∧ b 2 2 = m) ∨
      (b 0 0 = m ∧ b 1 1 = m ∧ b 2 2 = m) ∨ (b 0 2 = m ∧ b 1 1 = m ∧ b 2 0 = m) := by
  simp only [checkWin, loop3, List.any_cons, List.any_nil, Bool.or_false, Bool.or_eq_true,
    decide_eq_true_eq, ite_true_iff, Bool.false_eq_true, or_false, or_assoc]

theorem checkWin_iff_fillsLine (b : Board) (m : Player) :
    checkWin b m = true ↔ FillsLine b m :=
  (checkWin_iff b m).trans (fillsLine_iff b m).symm

theorem forall_fin3 (P : Fin 3 → Prop) : (∀ i, P i) ↔ P 0 ∧ P 1 ∧ P 2 := by
  constructor
  · intro h; exact ⟨h 0, h 1, h 2⟩
  · rintro ⟨h0, h1, h2⟩ i
    fin_cases i <;> assumption

theorem isFull_iff (b : Board) : Board.IsFull b = true ↔ ∀ r c, b r c ≠ Empty := by
  simp [Board.IsFull, loop3, forall_fin3]

/-- C5: for every board and every mark, `checkWin` is true iff at least one of
the eight lines has all three of its cells equal to that mark, and
`Board.IsFull` is true iff none of the nine cells is `Empty`. -/
theorem checkWin_isFull_spec (b : Board) (m : Player) :
    (checkWin b m = true ↔ FillsLine b m) ∧
    (Board.IsFull b = true ↔ ∀ r c, b r c ≠ Empty) ∧
    lines.length = 8 :=
  ⟨checkWin_iff_fillsLine b m, isFull_iff b, rfl⟩

/-! ### The position codec -/

theorem byte_cases (b : Byte) (lo : Nat) (h1 : lo ≤ b.val) (h2 : b.val ≤ lo + 2)
    (hlo : lo + 2 < 256) :
    b = Fin.ofNat lo ∨ b = Fin.ofNat (lo + 1) ∨ b = Fin.ofNat (lo + 2) := by
  have hb := b.isLt
  simp only [Fin.ext_iff, Fin.ofNat, Fin.val_mk]
  omega

theorem parsePosition_ok_iff (t : GoString) (p : Position) :
    ParsePosition t = .ok p ↔
      ∃ b0 b1 : Byte, t = [b0, b1] ∧ 65 ≤ b0.val ∧ b0.val ≤ 67 ∧ 49 ≤ b1.val ∧ b1.val ≤ 51 ∧
        p = ⟨(b1.val : Int) - 49, (b0.val : Int) - 65⟩ := by
  unfold ParsePosition
  split
  · rename_i b0 b1
    have h0 := b0.isLt
    have h1 := b1.isLt
    constructor
    · intro h
      refine ⟨b0, b1, rfl, ?_⟩
      dsimp only at h
      split_ifs at h with hc
      simp only [Except.ok.injEq] at h
      subst h
      simp only [Position.mk.injEq]
      omega
    · rintro ⟨c0, c1, hc, h65, h67, h49, h51, hp⟩
      simp only [List.cons.injEq, and_true] at hc
      obtain ⟨rfl, rfl⟩ := hc
      dsimp only
      rw [if_neg (by omega)]
      subst hp
      simp only [Except.ok.injEq, Position.mk.injEq]
      omega
  · rename_i hne
    constructor
    · intro h; cases h
    · rintro ⟨b0, b1, rfl, _⟩
      exact absurd rfl (hne b0 b1)

theorem parsePosition_mem_nineTexts (t : GoString) :
    (∃ p, ParsePosition t = .ok p) ↔ t ∈ nineTexts := by
  constructor
  · rintro ⟨p, hp⟩
    obtain ⟨b0, b1, rfl, h65, h67, h49, h51, -⟩ := (parsePosition_ok_iff t p).1 hp
    rcases byte_cases b0 65 h65 h67 (by norm_num) with rfl | rfl | rfl <;>
      rcases byte_cases b1 49 h49 h51 (by norm_num) with rfl | rfl | rfl <;> decide
  · intro h
    simp only [nineTexts, List.mem_cons, List.mem_singleton, List.not_mem_nil, or_false] at h
    rcases h with rfl | rfl | rfl | rfl | rfl | rfl | rfl | rfl | rfl <;> exact ⟨_, rfl⟩

theorem inRange_cases (p : Position) (h : p.InRange) :
    p = ⟨0, 0⟩ ∨ p = ⟨0, 1⟩ ∨ p = ⟨0, 2⟩ ∨ p = ⟨1, 0⟩ ∨ p = ⟨1, 1⟩ ∨ p = ⟨1, 2⟩ ∨
      p = ⟨2, 0⟩ ∨ p = ⟨2, 1⟩ ∨ p = ⟨2, 2⟩ := by
  obtain ⟨r, c⟩ := p
  simp only [Position.InRange] at h
  simp only [Position.mk.injEq]
  omega

theorem string_parse (p : Position) (h : p.InRange) : ParsePosition p.String = .ok p := by
  rcases inRange_cases p h with rfl | rfl | rfl | rfl | rfl | rfl | rfl | rfl | rfl <;> rfl

theorem parse_string (t : GoString) (p : Position) (h : ParsePosition t = .ok p) :
    p.String = t := by
  obtain ⟨b0, b1, rfl, h65, h67, h49, h51, rfl⟩ := (parsePosition_ok_iff t p).1 h
  rcases byte_cases b0 65 h65 h67 (by norm_num) with rfl | rfl | rfl <;>
    rcases byte_cases b1 49 h49 h51 (by norm_num) with rfl | rfl | rfl <;> rfl

theorem parse_inRange (t : GoString) (p : Position) (h : ParsePosition t = .ok p) :
    p.InRange := by
  obtain ⟨b0, b1, rfl, h65, h67, h49, h51, rfl⟩ := (parsePosition_ok_iff t p).1 h
  simp only [Position.InRange]
  omega

theorem parsePosition_error_of_not_ok (t : GoString) (h : ¬ ∃ p, ParsePosition t = .ok p) :
    ∃ msg, ParsePosition t = .error msg := by
  cases hp : ParsePosition t with
  | error msg => exact ⟨msg, rfl⟩
  | ok p => exact absurd ⟨p, hp⟩ h

/-- C7: the position codec round-trips in both directions. Every text accepted
by `ParsePosition` is given back by `Position.String` on the parsed position;
every position with `Row` and `Col` in `0..2` is given back by `ParsePosition`
on its text; `Position.String` is a bijection from the in-range positions onto
the nine texts `A1` .. `C3`, which are exactly the accepted texts. -/
theorem codec_roundtrip :
    (∀ t p, ParsePosition t = .ok p → p.String = t) ∧
    (∀ p : Position, p.InRange → ParsePosition p.String = .ok p) ∧
    Set.BijOn Position.String {p | p.InRange} {t | t ∈ nineTexts} ∧
    (∀ t, t ∈ nineTexts ↔ ∃ p, p.InRange ∧ ParsePosition t = .ok p) ∧
    nineTexts.length = 9 ∧ nineTexts.Nodup := by
  refine ⟨parse_string, string_parse, ⟨?_, ?_, ?_⟩, ?_, rfl, by decide⟩
  · intro p hp
    exact (parsePosition_mem_nineTexts _).1 ⟨p, string_parse p hp⟩
  · intro p hp q hq hpq
    have h1 := string_parse p hp
    have h2 := string_parse q hq
    rw [hpq, h2] at h1
    exact (Except.ok.inj h1).symm
  · intro t ht
    obtain ⟨p, hp⟩ := (parsePosition_mem_nineTexts t).2 ht
    exact ⟨p, parse_inRange t p hp, parse_string t p hp⟩
  · intro t
    constructor
    · intro ht
      obtain ⟨p, hp⟩ := (parsePosition_mem_nineTexts t).2 ht
      exact ⟨p, parse_inRange t p hp, hp⟩
    · rintro ⟨p, -, hp⟩
      exact (parsePosition_mem_nineTexts t).1 ⟨p, hp⟩

/-- C8: `ParsePosition` succeeds exactly on the two-byte strings whose first
byte is `A`..`C` (65..67) and whose second byte is `1`..`3` (49..51), returning
`Row` = digit - 1 and `Col` = letter index; these are the nine texts `A1` ..
`C3`. Every other string is rejected with an error: any other length,
lowercase letters, letters past `C`, digits outside `1..3`, and bytes below
`A` or `1` (the byte subtraction does not wrap into the accepted range). -/
theorem parsePosition_accepts_exactly (t : GoString) :
    (∀ p, ParsePosition t = .ok p ↔
      ∃ b0 b1 : Byte, t = [b0, b1] ∧ 65 ≤ b0.val ∧ b0.val ≤ 67 ∧ 49 ≤ b1.val ∧ b1.val ≤ 51 ∧
        p = ⟨(b1.val : Int) - 49, (b0.val : Int) - 65⟩) ∧
    ((∃ p, ParsePosition t = .ok p) ↔ t ∈ nineTexts) ∧
    (nineTexts.length = 9 ∧ nineTexts.Nodup) ∧
    ((¬ ∃ b0 b1 : Byte, t = [b0, b1] ∧ 65 ≤ b0.val ∧ b0.val ≤ 67 ∧ 49 ≤ b1.val ∧ b1.val ≤ 51) →
      ∃ msg, ParsePosition t = .error msg) ∧
    (t.length ≠ 2 →
      ParsePosition t = .error (ascii "position must be 2 characters (e.g., A1)")) ∧
    (ParsePosition (ascii "A1") = .ok ⟨0, 0⟩ ∧ ParsePosition (ascii "B2") = .ok ⟨1, 1⟩ ∧
      ParsePosition (ascii "C3") = .ok ⟨2, 2⟩ ∧ ParsePosition (ascii "C1") = .ok ⟨0, 2⟩) ∧
    (ParsePosition (ascii "") = .error (ascii "position must be 2 characters (e.g., A1)") ∧
      ParsePosition (ascii "A") = .error (ascii "position must be 2 characters (e.g., A1)") ∧
      ParsePosition (ascii "A10") = .error (ascii "position must be 2 characters (e.g., A1)") ∧
      ParsePosition (ascii "a1") = .error (ascii "position must be A1-C3") ∧
      ParsePosition (ascii "D1") = .error (ascii "position must be A1-C3") ∧
      ParsePosition (ascii "A0") = .error (ascii "position must be A1-C3") ∧
      ParsePosition (ascii "A4") = .error (ascii "position must be A1-C3") ∧
      ParsePosition (ascii "@1") = .error (ascii "position must be A1-C3") ∧
      ParsePosition [0, 49] = .error (ascii "position must be A1-C3") ∧
      ParsePosition [65, 0] = .error (ascii "position must be A1-C3")) := by
  refine ⟨parsePosition_ok_iff t, parsePosition_mem_nineTexts t, ⟨rfl, by decide⟩, ?_, ?_,
    ⟨rfl, rfl, rfl, rfl⟩, ⟨rfl, rfl, rfl, rfl, rfl, rfl, rfl, rfl, rfl, rfl⟩⟩
  · intro h
    apply parsePosition_error_of_not_ok
    rintro ⟨p, hp⟩
    obtain ⟨b0, b1, ht, h1, h2, h3, h4, -⟩ := (parsePosition_ok_iff t p).1 hp
    exact h ⟨b0, b1, ht, h1, h2, h3, h4⟩
  · intro hlen
    unfold ParsePosition
    split
    · exact absurd rfl hlen
    · rfl

/-! ### Creating a game -/

/-- C9: for every engine state and every id, registered or not, `CreateGame`
returns and registers under the id the fresh record `NewGame id`: status
ongoing, X to move, no winner, move count 0, all nine cells empty, `GameID`
the id; a following `GetGame` returns that record; a record registered under
the id before is overwritten. -/
theorem createGame_fresh (e : Engine) (gameID : GoString) :
    ∃ e', CreateGame e gameID = .ok e' (NewGame gameID) ∧
      e'.games.lookup gameID = some (NewGame gameID) ∧
      GetGame e' gameID = .ok e' (NewGame gameID) ∧
      (NewGame gameID).Status = StatusOngoing ∧
      (NewGame gameID).CurrentPlayer = PlayerX ∧
      (NewGame gameID).Winner = Empty ∧
      (NewGame gameID).MoveCount = 0 ∧
      (∀ r c, (NewGame gameID).Board r c = Empty) ∧
      (NewGame gameID).GameID = gameID ∧
      (∀ old, e.games.lookup gameID = some old → e'.games.lookup gameID = some (NewGame gameID)) := by
  refine ⟨{ e with games := e.games.insert gameID (NewGame gameID) }, rfl, ?_, ?_, rfl, rfl, rfl,
    rfl, fun _ _ => rfl, rfl, fun _ _ => ?_⟩
  · exact AList.lookup_insert _
  · simp only [GetGame, AList.lookup_insert]
  · exact AList.lookup_insert _

/-! ### Executions and the invariant of a record -/

theorem index3_done_iff (i : Int) (r : Fin 3) : index3 i = .done r ↔ (r.val : Int) = i := by
  have hr := r.isLt
  unfold index3
  split_ifs with h
  · simp only [Run.done.injEq, Fin.ext_iff]
    omega
  · simp only [false_iff]
    omega

theorem index3_panic_iff (i : Int) : index3 i = .panic ↔ ¬ (0 ≤ i ∧ i ≤ 2) := by
  unfold index3
  split_ifs with h
  · simp only [false_iff, not_not]
    omega
  · simp only [true_iff]
    omega

theorem index3_of_inRange (pos : Position) (h : pos.InRange) :
    ∃ r c : Fin 3, index3 pos.Row = .done r ∧ index3 pos.Col = .done c := by
  obtain ⟨h1, h2, h3, h4⟩ := h
  refine ⟨⟨pos.Row.toNat, by omega⟩, ⟨pos.Col.toNat, by omega⟩, ?_, ?_⟩ <;>
    · rw [index3_done_iff]
      simp only
      omega

theorem inRange_of_index3 (pos : Position) (r c : Fin 3) (hr : index3 pos.Row = .done r)
    (hc : index3 pos.Col = .done c) : pos.InRange := by
  rw [index3_done_iff] at hr hc
  have := r.isLt
  have := c.isLt
  simp only [Position.InRange]
  omega

theorem get_of_index3 (b : Board) (pos : Position) (r c : Fin 3)
    (hr : index3 pos.Row = .done r) (hc : index3 pos.Col = .done c) :
    Board.Get b pos = .done (b r c) := by
  simp only [Board.Get, hr, hc]

theorem set_of_index3 (b : Board) (pos : Position) (player : Player) (r c : Fin 3)
    (hr : index3 pos.Row = .done r) (hc : index3 pos.Col = .done c) :
    Board.Set b pos player = .done (Board.put b r c player) := by
  simp only [Board.Set, hr, hc]
  rfl

theorem isEmpty_of_index3 (b : Board) (pos : Position) (r c : Fin 3)
    (hr : index3 pos.Row = .done r) (hc : index3 pos.Col = .done c) :
    Board.IsEmpty b pos = .done (decide (b r c = Empty)) := by
  simp only [Board.IsEmpty, hr, hc]

/-- Every call of `MakeMove` falls in exactly one of six cases, in the order of
the checks of the source. -/
theorem makeMove_cases (e : Engine) (gameID : GoString) (pos : Position) (player : Player) :
    (e.games.lookup gameID = none ∧ MakeMove e gameID pos player = .err e (notFound gameID)) ∨
    (∃ g, e.games.lookup gameID = some g ∧ g.Status ≠ StatusOngoing ∧
      MakeMove e gameID pos player = .err e (ascii "game is already over")) ∨
    (∃ g, e.games.lookup gameID = some g ∧ g.Status = StatusOngoing ∧ player ≠ g.CurrentPlayer ∧
      MakeMove e gameID pos player = .err e (msgWrongTurn player)) ∨
    (∃ g, e.games.lookup gameID = some g ∧ g.Status = StatusOngoing ∧ player = g.CurrentPlayer ∧
      ¬ pos.InRange ∧
      MakeMove e gameID pos player =
        .err e (ascii "position " ++ ascii "Invalid" ++ ascii " is out of bounds")) ∨
    (∃ g r c, e.games.lookup gameID = some g ∧ g.Status = StatusOngoing ∧
      player = g.CurrentPlayer ∧ index3 pos.Row = .done r ∧ index3 pos.Col = .done c ∧
      g.Board r c ≠ Empty ∧
      MakeMove e gameID pos player =
        .err e (ascii "position " ++ pos.String ++ ascii " is already occupied")) ∨
    (∃ g r c, e.games.lookup gameID = some g ∧ g.Status = StatusOngoing ∧
      player = g.CurrentPlayer ∧ index3 pos.Row = .done r ∧ index3 pos.Col = .done c ∧
      g.Board r c = Empty ∧
      MakeMove e gameID pos player =
        .ok { games := e.games.insert gameID (g.moved r c player) } (g.moved r c player)) := by
  cases hl : e.games.lookup gameID with
  | none => left; exact ⟨rfl, by simp only [MakeMove, hl]⟩
  | some g =>
    right
    by_cases hs : g.Status = StatusOngoing
    · right
      by_cases hp : player = g.CurrentPlayer
      · right
        by_cases hr : pos.InRange
        · right
          obtain ⟨r, c, hr', hc'⟩ := index3_of_inRange pos hr
          have hr2 : ¬ (pos.Row < 0 ∨ pos.Row > 2 ∨ pos.Col < 0 ∨ pos.Col > 2) := by
            simp only [Position.InRange] at hr; omega
          by_cases hcell : g.Board r c = Empty
          · right
            refine ⟨g, r, c, rfl, hs, hp, hr', hc', hcell, ?_⟩
            simp only [MakeMove, hl, validateMove, GameState.IsGameOver, hs, hp, hr2,
              isEmpty_of_index3 _ _ _ _ hr' hc', set_of_index3 _ _ _ _ _ hr' hc', hcell,
              GameState.moved, GameState.NextPlayer]
            simp
          · left
            refine ⟨g, r, c, rfl, hs, hp, hr', hc', hcell, ?_⟩
            simp only [MakeMove, hl, validateMove, GameState.IsGameOver, hs, hp, hr2,
              isEmpty_of_index3 _ _ _ _ hr' hc', hcell]
            simp
        · left
          refine ⟨g, rfl, hs, hp, hr, ?_⟩
          have hr2 : (pos.Row < 0 ∨ pos.Row > 2 ∨ pos.Col < 0 ∨ pos.Col > 2) := by
            simp only [Position.InRange] at hr; omega
          simp only [MakeMove, hl, validateMove, GameState.IsGameOver, hs, hp, hr2,
            Position.String]
          simp
      · left
        refine ⟨g, rfl, hs, hp, ?_⟩
        simp [MakeMove, hl, validateMove, GameState.IsGameOver, hs, hp, msgWrongTurn]
    · left
      refine ⟨g, rfl, hs, ?_⟩
      simp [MakeMove, hl, validateMove, GameState.IsGameOver, hs]

theorem resetGame_cases (e : Engine) (gameID : GoString) :
    (e.games.lookup gameID = none ∧ ResetGame e gameID = .err e (notFound gameID)) ∨
    (∃ g, e.games.lookup gameID = some g ∧
      ResetGame e gameID = .ok { games := e.games.insert gameID g.cleared } g.cleared) := by
  cases hl : e.games.lookup gameID with
  | none => left; exact ⟨rfl, by simp only [ResetGame, hl]⟩
  | some g => right; exact ⟨g, rfl, by simp only [ResetGame, hl, GameState.cleared]⟩

theorem deleteGame_cases (e : Engine) (gameID : GoString) :
    (e.games.lookup gameID = none ∧ DeleteGame e gameID = .err e (notFound gameID)) ∨
    (∃ g, e.games.lookup gameID = some g ∧
      DeleteGame e gameID = .ok { games := e.games.erase gameID } ()) := by
  cases hl : e.games.lookup gameID with
  | none => left; exact ⟨rfl, by simp only [DeleteGame, hl]⟩
  | some g => right; exact ⟨g, rfl, by simp only [DeleteGame, hl]⟩

theorem stepTrace_fst (e : Engine) (last : History) (op : Op) :
    (stepTrace e last op).map Prod.fst = step e op := by
  cases op with
  | create gameID => rfl
  | move gameID pos player =>
    simp only [stepTrace, step]
    cases MakeMove e gameID pos player <;> rfl
  | reset gameID =>
    simp only [stepTrace, step]
    cases ResetGame e gameID <;> rfl
  | delete gameID =>
    simp only [stepTrace, step]
    cases DeleteGame e gameID <;> rfl

theorem runTrace_fst (ops : List Op) (e : Engine) (last : History) :
    (runTrace e last ops).map Prod.fst = runFrom e ops := by
  induction ops generalizing e last with
  | nil => rfl
  | cons op ops ih =>
    have h := stepTrace_fst e last op
    simp only [runTrace, runFrom]
    cases hs : stepTrace e last op with
    | none =>
      rw [hs] at h
      simp only [Option.map_none'] at h
      simp only [← h]
      rfl
    | some el =>
      obtain ⟨e', last'⟩ := el
      rw [hs] at h
      simp only [Option.map_some'] at h
      simp only [← h]
      exact ih e' last'

/-- Induction over the executions of the engine: a property of a record and of
the last mover on it that holds at creation, after a reset and after every
successful move holds of every registered record of every execution. -/
theorem trace_induction (P : GameState → Option Player → Prop)
    (hnew : ∀ gameID, P (NewGame gameID) none)
    (hreset : ∀ g l, P g l → P g.cleared none)
    (hmove : ∀ g l r c, P g l → g.Status = StatusOngoing → g.Board r c = Empty →
      P (g.moved r c g.CurrentPlayer) (some g.CurrentPlayer))
    (ops : List Op) (e0 : Engine) (last0 : History)
    (h0 : ∀ gameID g, e0.games.lookup gameID = some g → P g (last0 gameID))
    (e : Engine) (last : History) (hrun : runTrace e0 last0 ops = some (e, last))
    (gameID : GoString) (g : GameState) (hg : e.games.lookup gameID = some g) :
    P g (last gameID) := by
  induction ops generalizing e0 last0 with
  | nil =>
    simp only [runTrace, Option.some.injEq, Prod.mk.injEq] at hrun
    obtain ⟨rfl, rfl⟩ := hrun
    exact h0 gameID g hg
  | cons op ops ih =>
    simp only [runTrace] at hrun
    cases hs : stepTrace e0 last0 op with
    | none => rw [hs] at hrun; cases hrun
    | some el =>
      obtain ⟨e1, last1⟩ := el
      rw [hs] at hrun
      refine ih e1 last1 ?_ hrun
      intro j gj hj
      cases op with
      | create i =>
        simp only [stepTrace, CreateGame, Option.some.injEq, Prod.mk.injEq] at hs
        obtain ⟨rfl, rfl⟩ := hs
        by_cases hji : j = i
        · subst hji
          simp only [AList.lookup_insert, Option.some.injEq] at hj
          subst hj
          simp only [Function.update_same]
          exact hnew j
        · simp only [AList.lookup_insert_ne hji] at hj
          simp only [Function.update_noteq hji]
          exact h0 j gj hj
      | move i pos player =>
        simp only [stepTrace] at hs
        rcases makeMove_cases e0 i pos player with ⟨-, h⟩ | ⟨_, -, -, h⟩ | ⟨_, -, -, -, h⟩ |
          ⟨_, -, -, -, -, h⟩ | ⟨_, _, _, -, -, -, -, -, -, h⟩ | ⟨g0, r, c, hl, hst, hp, -, -, hc, h⟩
        all_goals rw [h] at hs
        all_goals simp only [Option.some.injEq, Prod.mk.injEq] at hs
        all_goals obtain ⟨rfl, rfl⟩ := hs
        · exact h0 j gj hj
        · exact h0 j gj hj
        · exact h0 j gj hj
        · exact h0 j gj hj
        · exact h0 j gj hj
        · by_cases hji : j = i
          · subst hji
            simp only [AList.lookup_insert, Option.some.injEq] at hj
            subst hj
            simp only [Function.update_same]
            subst hp
            exact hmove g0 _ r c (h0 j g0 hl) hst hc
          · simp only [AList.lookup_insert_ne hji] at hj
            simp only [Function.update_noteq hji]
            exact h0 j gj hj
      | reset i =>
        simp only [stepTrace] at hs
        rcases resetGame_cases e0 i with ⟨-, h⟩ | ⟨g0, hl, h⟩
        all_goals rw [h] at hs
        all_goals simp only [Option.some.injEq, Prod.mk.injEq] at hs
        all_goals obtain ⟨rfl, rfl⟩ := hs
        · exact h0 j gj hj
        · by_cases hji : j = i
          · subst hji
            simp only [AList.lookup_insert, Option.some.injEq] at hj
            subst hj
            simp only [Function.update_same]
            exact hreset g0 _ (h0 j g0 hl)
          · simp only [AList.lookup_insert_ne hji] at hj
            simp only [Function.update_noteq hji]
            exact h0 j gj hj
      | delete i =>
        simp only [stepTrace] at hs
        rcases deleteGame_cases e0 i with ⟨-, h⟩ | ⟨g0, hl, h⟩
        all_goals rw [h] at hs
        all_goals simp only [Option.some.injEq, Prod.mk.injEq] at hs
        all_goals obtain ⟨rfl, rfl⟩ := hs
        · exact h0 j gj hj
        · by_cases hji : j = i
          · subst hji
            simp only [AList.lookup_erase] at hj
            cases hj
          · simp only [AList.lookup_erase_ne hji] at hj
            simp only [Function.update_noteq hji]
            exact h0 j gj hj

theorem put_same (b : Board) (r c : Fin 3) (p : Player) : Board.put b r c p r c = p := by
  simp only [Board.put, and_self, if_true]

theorem put_apply (b : Board) (r c r' c' : Fin 3) (p : Player) :
    Board.put b r c p r' c' = if r' = r ∧ c' = c then p else b r' c' := rfl

theorem put_of_ne (b : Board) (r c r' c' : Fin 3) (p m : Player) (hm : m ≠ p)
    (h : Board.put b r c p r' c' = m) : b r' c' = m := by
  rw [put_apply] at h
  split_ifs at h with hrc
  · exact absurd h.symm hm
  · exact h

theorem fillsLine_put_of_ne (b : Board) (r c : Fin 3) (p m : Player) (hm : m ≠ p)
    (h : FillsLine (Board.put b r c p) m) : FillsLine b m := by
  obtain ⟨l, hl, hall⟩ := h
  exact ⟨l, hl, fun rc hrc => put_of_ne b r c rc.1 rc.2 p m hm (hall rc hrc)⟩

theorem occupied_put (b : Board) (r c : Fin 3) (p : Player) (hb : b r c = Empty)
    (hp : p ≠ Empty) : occupied (Board.put b r c p) = occupied b + 1 := by
  unfold occupied
  have hset : (Finset.univ.filter fun rc : Fin 3 × Fin 3 => Board.put b r c p rc.1 rc.2 ≠ Empty) =
      insert (r, c) (Finset.univ.filter fun rc : Fin 3 × Fin 3 => b rc.1 rc.2 ≠ Empty) := by
    ext ⟨r', c'⟩
    simp only [Finset.mem_filter, Finset.mem_univ, true_and, Finset.mem_insert, Prod.mk.injEq,
      put_apply]
    by_cases hrc : r' = r ∧ c' = c
    · simp only [hrc, and_self, if_true, ne_eq, hp, not_false_eq_true, true_or]
    · simp only [hrc, if_false, false_or]
  rw [hset, Finset.card_insert_of_not_mem]
  simp only [Finset.mem_filter, Finset.mem_univ, true_and, hb, ne_eq, not_true_eq_false,
    not_false_eq_true]

theorem occupied_le (b : Board) : occupied b ≤ 9 := by
  unfold occupied
  exact (Finset.card_filter_le _ _).trans (by simp)

theorem occupied_lt_of_empty (b : Board) (r c : Fin 3) (hb : b r c = Empty) : occupied b < 9 := by
  unfold occupied
  have h : (Finset.univ.filter fun rc : Fin 3 × Fin 3 => b rc.1 rc.2 ≠ Empty) ⊂ Finset.univ := by
    rw [Finset.ssubset_iff]
    refine ⟨(r, c), ?_, Finset.subset_univ _⟩
    simp only [Finset.mem_filter, Finset.mem_univ, true_and, hb, ne_eq, not_true_eq_false,
      not_false_eq_true]
  have := Finset.card_lt_card h
  simpa using this

theorem occupied_newBoard : occupied NewBoard = 0 := by
  simp [occupied, NewBoard]

theorem wrapInt64_of_small (i : Int) (h1 : -2 ^ 63 ≤ i) (h2 : i < 2 ^ 63) : wrapInt64 i = i := by
  unfold wrapInt64
  omega

theorem playerX_ne_empty : PlayerX ≠ Empty := by decide

theorem playerO_ne_empty : PlayerO ≠ Empty := by decide

theorem playerX_ne_playerO : PlayerX ≠ PlayerO := by decide

theorem ongoing_ne_won : StatusOngoing ≠ StatusWon := by decide

theorem ongoing_ne_draw : StatusOngoing ≠ StatusDraw := by decide

theorem draw_ne_won : StatusDraw ≠ StatusWon := by decide

theorem not_fillsLine_newBoard_X : ¬ FillsLine NewBoard PlayerX := by decide

theorem not_fillsLine_newBoard_O : ¬ FillsLine NewBoard PlayerO := by decide

theorem not_isFull_newBoard : Board.IsFull NewBoard = false := by decide

theorem gameInv_newGame (gameID : GoString) : GameInv (NewGame gameID) none where
  status := Or.inl rfl
  current := Or.inl rfl
  cells := fun _ _ => Or.inl rfl
  count := by simp [NewGame, occupied_newBoard]
  won := fun h => absurd h ongoing_ne_won
  notWon := fun _ => ⟨rfl, not_fillsLine_newBoard_X, not_fillsLine_newBoard_O⟩
  oneWinner := fun h => not_fillsLine_newBoard_X h.1
  draw := fun h => absurd h ongoing_ne_draw
  ongoing := fun _ => not_isFull_newBoard

theorem gameInv_cleared (g : GameState) : GameInv g.cleared none where
  status := Or.inl rfl
  current := Or.inl rfl
  cells := fun _ _ => Or.inl rfl
  count := by simp [GameState.cleared, occupied_newBoard]
  won := fun h => absurd h ongoing_ne_won
  notWon := fun _ => ⟨rfl, not_fillsLine_newBoard_X, not_fillsLine_newBoard_O⟩
  oneWinner := fun h => not_fillsLine_newBoard_X h.1
  draw := fun h => absurd h ongoing_ne_draw
  ongoing := fun _ => not_isFull_newBoard

theorem gameInv_moved (g : GameState) (l : Option Player) (r c : Fin 3) (h : GameInv g l)
    (hs : g.Status = StatusOngoing) (hc : g.Board r c = Empty) :
    GameInv (g.moved r c g.CurrentPlayer) (some g.CurrentPlayer) := by
  have hpe : g.CurrentPlayer ≠ Empty := by
    rcases h.current with hp | hp <;> rw [hp]
    · exact playerX_ne_empty
    · exact playerO_ne_empty
  have hnw := h.notWon (by rw [hs]; exact ongoing_ne_won)
  have hcount : wrapInt64 (g.MoveCount + 1) =
      occupied (Board.put g.Board r c g.CurrentPlayer) := by
    rw [occupied_put _ _ _ _ hc hpe, h.count]
    have := occupied_le g.Board
    rw [wrapInt64_of_small] <;> push_cast <;> omega
  have hcells : ∀ r' c', Board.put g.Board r c g.CurrentPlayer r' c' = Empty ∨
      Board.put g.Board r c g.CurrentPlayer r' c' = PlayerX ∨
      Board.put g.Board r c g.CurrentPlayer r' c' = PlayerO := by
    intro r' c'
    rw [put_apply]
    split_ifs
    · exact Or.inr h.current
    · exact h.cells r' c'
  have hother : ∀ m, m ≠ g.CurrentPlayer → (m = PlayerX ∨ m = PlayerO) →
      ¬ FillsLine (Board.put g.Board r c g.CurrentPlayer) m := by
    intro m hm hxo hf
    have := fillsLine_put_of_ne _ _ _ _ _ hm hf
    rcases hxo with rfl | rfl
    · exact hnw.2.1 this
    · exact hnw.2.2 this
  unfold GameState.moved
  dsimp only
  split_ifs with hwin hfull
  · have hfl := (checkWin_iff_fillsLine _ _).1 hwin
    refine ⟨Or.inr (Or.inl rfl), h.current, hcells, hcount, fun _ => ⟨rfl, hfl, rfl⟩,
      fun hne => absurd rfl hne, ?_, fun hd => absurd hd.symm draw_ne_won,
      fun ho => absurd ho ongoing_ne_won.symm⟩
    rintro ⟨hx, ho⟩
    rcases h.current with hp | hp
    · exact hother PlayerO (by rw [hp]; exact playerX_ne_playerO.symm) (Or.inr rfl) ho
    · exact hother PlayerX (by rw [hp]; exact playerX_ne_playerO) (Or.inl rfl) hx
  · have hnf : ¬ FillsLine (Board.put g.Board r c g.CurrentPlayer) g.CurrentPlayer :=
      fun hf => hwin ((checkWin_iff_fillsLine _ _).2 hf)
    have hX : ¬ FillsLine (Board.put g.Board r c g.CurrentPlayer) PlayerX := by
      by_cases hp : PlayerX = g.CurrentPlayer
      · rw [hp]; exact hnf
      · exact hother PlayerX hp (Or.inl rfl)
    have hO : ¬ FillsLine (Board.put g.Board r c g.CurrentPlayer) PlayerO := by
      by_cases hp : PlayerO = g.CurrentPlayer
      · rw [hp]; exact hnf
      · exact hother PlayerO hp (Or.inr rfl)
    exact ⟨Or.inr (Or.inr rfl), h.current, hcells, hcount, fun hw => absurd hw draw_ne_won,
      fun _ => ⟨hnw.1, hX, hO⟩, fun hh => hX hh.1, fun _ => hfull,
      fun ho => absurd ho ongoing_ne_draw.symm⟩
  · have hnf : ¬ FillsLine (Board.put g.Board r c g.CurrentPlayer) g.CurrentPlayer :=
      fun hf => hwin ((checkWin_iff_fillsLine _ _).2 hf)
    have hX : ¬ FillsLine (Board.put g.Board r c g.CurrentPlayer) PlayerX := by
      by_cases hp : PlayerX = g.CurrentPlayer
      · rw [hp]; exact hnf
      · exact hother PlayerX hp (Or.inl rfl)
    have hO : ¬ FillsLine (Board.put g.Board r c g.CurrentPlayer) PlayerO := by
      by_cases hp : PlayerO = g.CurrentPlayer
      · rw [hp]; exact hnf
      · exact hother PlayerO hp (Or.inr rfl)
    refine ⟨Or.inl hs, ?_, hcells, hcount, fun hw => absurd (hs.symm.trans hw) ongoing_ne_won,
      fun _ => ⟨hnw.1, hX, hO⟩, fun hh => hX hh.1,
      fun hd => absurd (hs.symm.trans hd) ongoing_ne_draw, fun _ => by simpa using hfull⟩
    unfold GameState.NextPlayer
    split_ifs
    · exact Or.inr rfl
    · exact Or.inl rfl

theorem reachable_trace (e : Engine) (h : Reachable e) :
    ∃ ops last, runTrace NewEngine (fun _ => none) ops = some (e, last) := by
  obtain ⟨ops, hops⟩ := h
  have h1 := runTrace_fst ops NewEngine (fun _ => none)
  rw [hops] at h1
  cases hr : runTrace NewEngine (fun _ => none) ops with
  | none => rw [hr] at h1; cases h1
  | some el =>
    obtain ⟨e', last⟩ := el
    rw [hr] at h1
    simp only [Option.map_some', Option.some.injEq] at h1
    subst h1
    exact ⟨ops, last, hr⟩

theorem gameInv_of_trace (ops : List Op) (e : Engine) (last : History)
    (hrun : runTrace NewEngine (fun _ => none) ops = some (e, last))
    (gameID : GoString) (g : GameState) (hg : e.games.lookup gameID = some g) :
    GameInv g (last gameID) :=
  trace_induction GameInv gameInv_newGame (fun g _ _ => gameInv_cleared g)
    (fun g l r c h hs hc => gameInv_moved g l r c h hs hc) ops NewEngine (fun _ => none)
    (fun j g hj => by simp [NewEngine] at hj) e last hrun gameID g hg

theorem gameInv_of_reachable (e : Engine) (h : Reachable e) (gameID : GoString) (g : GameState)
    (hg : e.games.lookup gameID = some g) : ∃ l, GameInv g l := by
  obtain ⟨ops, last, hrun⟩ := reachable_trace e h
  exact ⟨_, gameInv_of_trace ops e last hrun gameID g hg⟩


/-! ### Applying a move -/

theorem get_put_same (b : Board) (pos : Position) (r c : Fin 3) (p : Player)
    (hr : index3 pos.Row = .done r) (hc : index3 pos.Col = .done c) :
    Board.Get (Board.put b r c p) pos = .done p := by
  rw [get_of_index3 _ _ _ _ hr hc, put_same]

theorem get_put_other (b : Board) (pos q : Position) (r c : Fin 3) (p : Player)
    (hr : index3 pos.Row = .done r) (hc : index3 pos.Col = .done c) (hq : q ≠ pos) :
    Board.Get (Board.put b r c p) q = Board.Get b q := by
  unfold Board.Get
  cases hqr : index3 q.Row with
  | panic => rfl
  | done r' =>
    cases hqc : index3 q.Col with
    | panic => rfl
    | done c' =>
      simp only [Run.done.injEq, put_apply]
      rw [if_neg]
      rintro ⟨rfl, rfl⟩
      rw [index3_done_iff] at hr hc hqr hqc
      apply hq
      cases q; cases pos
      simp only [Position.mk.injEq]
      simp only at hr hc hqr hqc
      omega

theorem moved_board (g : GameState) (r c : Fin 3) (p : Player) :
    (g.moved r c p).Board = Board.put g.Board r c p := by
  unfold GameState.moved
  dsimp only
  split_ifs <;> rfl

theorem moved_moveCount (g : GameState) (r c : Fin 3) (p : Player) :
    (g.moved r c p).MoveCount = wrapInt64 (g.MoveCount + 1) := by
  unfold GameState.moved
  dsimp only
  split_ifs <;> rfl

/-- C1: `MakeMove` succeeds iff the id is registered, the record is ongoing,
the player is the record's current player, the position has `Row` and `Col` in
`0..2` and the target cell is empty. When it fails the error is that of the
first failing check, in the order: game not found, game already over, not this
player's turn, position out of bounds, position already occupied. -/
theorem makeMove_succeeds_iff (e : Engine) (gameID : GoString) (pos : Position)
    (player : Player) :
    ((∃ e' g', MakeMove e gameID pos player = .ok e' g') ↔
      ∃ g, e.games.lookup gameID = some g ∧ g.Status = StatusOngoing ∧
        player = g.CurrentPlayer ∧
        (0 ≤ pos.Row ∧ pos.Row ≤ 2 ∧ 0 ≤ pos.Col ∧ pos.Col ≤ 2) ∧
        Board.Get g.Board pos = .done Empty) ∧
    (e.games.lookup gameID = none →
      MakeMove e gameID pos player = .err e (notFound gameID)) ∧
    (∀ g, e.games.lookup gameID = some g → g.Status ≠ StatusOngoing →
      MakeMove e gameID pos player = .err e (ascii "game is already over")) ∧
    (∀ g, e.games.lookup gameID = some g → g.Status = StatusOngoing →
      player ≠ g.CurrentPlayer →
      MakeMove e gameID pos player =
        .err e (ascii "it\x27s not " ++ player ++ ascii "\x27s turn")) ∧
    (∀ g, e.games.lookup gameID = some g → g.Status = StatusOngoing →
      player = g.CurrentPlayer →
      ¬ (0 ≤ pos.Row ∧ pos.Row ≤ 2 ∧ 0 ≤ pos.Col ∧ pos.Col ≤ 2) →
      MakeMove e gameID pos player = .err e (ascii "position Invalid is out of bounds")) ∧
    (∀ g, e.games.lookup gameID = some g → g.Status = StatusOngoing →
      player = g.CurrentPlayer →
      (0 ≤ pos.Row ∧ pos.Row ≤ 2 ∧ 0 ≤ pos.Col ∧ pos.Col ≤ 2) →
      Board.Get g.Board pos ≠ .done Empty →
      MakeMove e gameID pos player =
        .err e (ascii "position " ++ pos.String ++ ascii " is already occupied")) := by
  rcases makeMove_cases e gameID pos player with ⟨hl, h⟩ | ⟨g, hl, hs, h⟩ | ⟨g, hl, hs, hp, h⟩ |
    ⟨g, hl, hs, hp, hr, h⟩ | ⟨g, r, c, hl, hs, hp, hr, hc, hcell, h⟩ |
    ⟨g, r, c, hl, hs, hp, hr, hc, hcell, h⟩
  · refine ⟨⟨?_, ?_⟩, fun _ => h, ?_, ?_, ?_, ?_⟩
    · rintro ⟨e', g', h'⟩; rw [h] at h'; cases h'
    · rintro ⟨g, hg, -⟩; rw [hl] at hg; cases hg
    all_goals intro g hg; rw [hl] at hg; cases hg
  · refine ⟨⟨?_, ?_⟩, ?_, ?_, ?_, ?_, ?_⟩
    · rintro ⟨e', g', h'⟩; rw [h] at h'; cases h'
    · rintro ⟨g1, hg, hs1, -⟩
      rw [hl] at hg; cases hg; exact absurd hs1 hs
    · intro hn; rw [hl] at hn; cases hn
    · intro g1 hg _; exact h
    all_goals intro g1 hg hs1; rw [hl] at hg; cases hg; exact absurd hs1 hs
  · refine ⟨⟨?_, ?_⟩, ?_, ?_, ?_, ?_, ?_⟩
    · rintro ⟨e', g', h'⟩; rw [h] at h'; cases h'
    · rintro ⟨g1, hg, -, hp1, -⟩
      rw [hl] at hg; cases hg; exact absurd hp1 hp
    · intro hn; rw [hl] at hn; cases hn
    · intro g1 hg hs1; rw [hl] at hg; cases hg; exact absurd hs hs1
    · intro g1 hg _ _; exact h
    all_goals intro g1 hg _ hp1; rw [hl] at hg; cases hg; exact absurd hp1 hp
  · refine ⟨⟨?_, ?_⟩, ?_, ?_, ?_, ?_, ?_⟩
    · rintro ⟨e', g', h'⟩; rw [h] at h'; cases h'
    · rintro ⟨g1, hg, -, -, hr1, -⟩
      exact absurd hr1 hr
    · intro hn; rw [hl] at hn; cases hn
    · intro g1 hg hs1; rw [hl] at hg; cases hg; exact absurd hs hs1
    · intro g1 hg _ hp1; rw [hl] at hg; cases hg; exact absurd hp hp1
    · intro g1 hg _ _ _; exact h
    · intro g1 hg _ _ hr1; exact absurd hr1 hr
  · have hget := get_of_index3 g.Board pos r c hr hc
    refine ⟨⟨?_, ?_⟩, ?_, ?_, ?_, ?_, ?_⟩
    · rintro ⟨e', g', h'⟩; rw [h] at h'; cases h'
    · rintro ⟨g1, hg, -, -, -, hg1⟩
      rw [hl] at hg; cases hg
      rw [hget] at hg1
      exact absurd (Run.done.inj hg1) hcell
    · intro hn; rw [hl] at hn; cases hn
    · intro g1 hg hs1; rw [hl] at hg; cases hg; exact absurd hs hs1
    · intro g1 hg _ hp1; rw [hl] at hg; cases hg; exact absurd hp hp1
    · intro g1 hg _ _ hr1; exact absurd (inRange_of_index3 pos r c hr hc) hr1
    · intro g1 hg _ _ _ _; exact h
  · have hget := get_of_index3 g.Board pos r c hr hc
    refine ⟨⟨fun _ => ⟨g, hl, hs, hp, inRange_of_index3 pos r c hr hc, ?_⟩, fun _ => ⟨_, _, h⟩⟩,
      ?_, ?_, ?_, ?_, ?_⟩
    · rw [hget, hcell]
    · intro hn; rw [hl] at hn; cases hn
    · intro g1 hg hs1; rw [hl] at hg; cases hg; exact absurd hs hs1
    · intro g1 hg _ hp1; rw [hl] at hg; cases hg; exact absurd hp hp1
    · intro g1 hg _ _ hr1; exact absurd (inRange_of_index3 pos r c hr hc) hr1
    · intro g1 hg _ _ _ hne
      rw [hl] at hg; cases hg
      rw [hget, hcell] at hne
      exact absurd rfl hne

/-- C2: `MakeMove` is atomic with respect to validation: whenever it returns
an error the registry after the call is the registry before it, so every
record is unchanged and no partial move is applied; and it always returns
(an error or a record), never panicking between validation and the update. -/
theorem makeMove_error_atomic (e e' : Engine) (gameID : GoString) (pos : Position)
    (player : Player) (msg : GoString) (h : MakeMove e gameID pos player = .err e' msg) :
    e' = e ∧ (∀ j, e'.games.lookup j = e.games.lookup j) ∧
      MakeMove e gameID pos player ≠ .panic := by
  have hee : e' = e := by
    rcases makeMove_cases e gameID pos player with ⟨-, h1⟩ | ⟨_, -, -, h1⟩ | ⟨_, -, -, -, h1⟩ |
      ⟨_, -, -, -, -, h1⟩ | ⟨_, _, _, -, -, -, -, -, -, h1⟩ | ⟨_, _, _, -, -, -, -, -, -, h1⟩
    all_goals rw [h1] at h
    all_goals cases h
    all_goals rfl
  subst hee
  refine ⟨rfl, fun _ => rfl, ?_⟩
  rw [h]
  intro hx
  cases hx


theorem makeMove_ok (e e' : Engine) (gameID : GoString) (pos : Position) (player : Player)
    (g' : GameState) (h : MakeMove e gameID pos player = .ok e' g') :
    ∃ g r c, e.games.lookup gameID = some g ∧ g.Status = StatusOngoing ∧
      player = g.CurrentPlayer ∧ index3 pos.Row = .done r ∧ index3 pos.Col = .done c ∧
      g.Board r c = Empty ∧ g' = g.moved r c player ∧
      e' = { games := e.games.insert gameID g' } := by
  rcases makeMove_cases e gameID pos player with ⟨-, h1⟩ | ⟨_, -, -, h1⟩ | ⟨_, -, -, -, h1⟩ |
    ⟨_, -, -, -, -, h1⟩ | ⟨_, _, _, -, -, -, -, -, -, h1⟩ | ⟨g, r, c, hl, hs, hp, hr, hc, hcell, h1⟩
  all_goals rw [h1] at h
  all_goals cases h
  exact ⟨g, r, c, hl, hs, hp, hr, hc, hcell, rfl, rfl⟩

/-- C3: placement is append-only. After a successful `MakeMove` the board holds
the player at the position, the cell at the position was empty before, every
other cell holds the value it held before (so no mark is overwritten or
cleared), and `MoveCount` is the previous `MoveCount` plus one (the Go
increment, which is the mathematical successor whenever the counter is below
the largest `int`, in particular in every reachable state). -/
theorem makeMove_placement (e e' : Engine) (gameID : GoString) (pos : Position)
    (player : Player) (g' : GameState) (h : MakeMove e gameID pos player = .ok e' g') :
    ∃ g, e.games.lookup gameID = some g ∧
      e'.games.lookup gameID = some g' ∧
      Board.Get g'.Board pos = .done player ∧
      Board.Get g.Board pos = .done Empty ∧
      (∀ q : Position, q ≠ pos → Board.Get g'.Board q = Board.Get g.Board q) ∧
      (∀ r c, g.Board r c ≠ Empty → g'.Board r c = g.Board r c) ∧
      g'.MoveCount = wrapInt64 (g.MoveCount + 1) ∧
      (-2 ^ 63 ≤ g.MoveCount ∧ g.MoveCount < 2 ^ 63 - 1 → g'.MoveCount = g.MoveCount + 1) ∧
      (Reachable e → g'.MoveCount = g.MoveCount + 1) := by
  obtain ⟨g, r, c, hl, hs, hp, hr, hc, hcell, rfl, rfl⟩ := makeMove_ok e e' gameID pos player g' h
  refine ⟨g, hl, AList.lookup_insert _, ?_, ?_, ?_, ?_, moved_moveCount g r c player, ?_, ?_⟩
  · rw [moved_board]; exact get_put_same _ _ _ _ _ hr hc
  · rw [get_of_index3 _ _ _ _ hr hc, hcell]
  · intro q hq
    rw [moved_board]; exact get_put_other _ _ _ _ _ _ hr hc hq
  · intro r' c' hne
    rw [moved_board, put_apply, if_neg]
    rintro ⟨rfl, rfl⟩
    exact hne hcell
  · intro hb
    rw [moved_moveCount]
    exact wrapInt64_of_small _ (by omega) (by omega)
  · intro hreach
    obtain ⟨l, hinv⟩ := gameInv_of_reachable e hreach gameID g hl
    rw [moved_moveCount]
    have h9 := occupied_le g.Board
    have hc := hinv.count
    exact wrapInt64_of_small _ (by omega) (by omega)

/-- C4: the transition rule of a successful `MakeMove`, read on the board after
placement. If the player fills one of the eight lines the status becomes won,
the winner becomes the player and the current player is unchanged (also when
the move fills the board: won, not draw). Otherwise, if the board has no empty
cell, the status becomes draw and the winner stays as it was (empty in every
reachable state). Otherwise the status stays ongoing, the winner stays as it
was (empty in every reachable state) and the current player flips to the other
mark: X to O, O to X. -/
theorem makeMove_transition (e e' : Engine) (gameID : GoString) (pos : Position)
    (player : Player) (g' : GameState) (h : MakeMove e gameID pos player = .ok e' g') :
    ∃ g, e.games.lookup gameID = some g ∧ g.Status = StatusOngoing ∧
      (FillsLine g'.Board player →
        g'.Status = StatusWon ∧ g'.Status ≠ StatusDraw ∧ g'.Winner = player ∧
          g'.CurrentPlayer = g.CurrentPlayer) ∧
      (¬ FillsLine g'.Board player → (∀ r c, g'.Board r c ≠ Empty) →
        g'.Status = StatusDraw ∧ g'.Winner = g.Winner ∧ (Reachable e → g'.Winner = Empty)) ∧
      (¬ FillsLine g'.Board player → (∃ r c, g'.Board r c = Empty) →
        g'.Status = StatusOngoing ∧ g'.Winner = g.Winner ∧ (Reachable e → g'.Winner = Empty) ∧
          g'.CurrentPlayer = g.NextPlayer ∧
          (player = PlayerX → g'.CurrentPlayer = PlayerO) ∧
          (player = PlayerO → g'.CurrentPlayer = PlayerX)) := by
  obtain ⟨g, r, c, hl, hs, hp, hr, hc, hcell, rfl, rfl⟩ := makeMove_ok e e' gameID pos player g' h
  have hwinner : Reachable e → g.Winner = Empty := by
    intro hreach
    obtain ⟨l, hinv⟩ := gameInv_of_reachable e hreach gameID g hl
    exact (hinv.notWon (by rw [hs]; exact ongoing_ne_won)).1
  refine ⟨g, hl, hs, ?_, ?_, ?_⟩
  · rw [moved_board]
    intro hf
    have hw := (checkWin_iff_fillsLine _ _).2 hf
    simp only [GameState.moved, hw, if_true]
    exact ⟨trivial, draw_ne_won.symm, trivial, trivial⟩
  · rw [moved_board]
    intro hf hfull
    have hw : checkWin (Board.put g.Board r c player) player = false := by
      rw [← Bool.not_eq_true, checkWin_iff_fillsLine]; exact hf
    have hfl := (isFull_iff _).2 hfull
    simp only [GameState.moved, hw, hfl, if_true, Bool.false_eq_true, if_false]
    exact ⟨trivial, trivial, hwinner⟩
  · rw [moved_board]
    intro hf hfull
    have hw : checkWin (Board.put g.Board r c player) player = false := by
      rw [← Bool.not_eq_true, checkWin_iff_fillsLine]; exact hf
    have hfl : Board.IsFull (Board.put g.Board r c player) = false := by
      rw [← Bool.not_eq_true, isFull_iff]
      obtain ⟨r', c', hrc⟩ := hfull
      exact fun hall => hall r' c' hrc
    simp only [GameState.moved, hw, hfl, Bool.false_eq_true, if_false]
    refine ⟨hs, trivial, hwinner, trivial, ?_, ?_⟩
    · intro hx
      rw [hx] at hp
      simp only [GameState.NextPlayer, ← hp, if_true]
    · intro ho
      rw [ho] at hp
      simp only [GameState.NextPlayer, ← hp]
      rw [if_neg playerX_ne_playerO.symm]

/-- C6: in every reachable engine state (any sequence of `CreateGame`,
`MakeMove`, `ResetGame`, `DeleteGame` calls, successful or failing, from
`NewEngine`), the `MoveCount` of every registered record is the number of
non-empty cells of its board. -/
theorem moveCount_eq_occupied (e : Engine) (h : Reachable e) (gameID : GoString)
    (g : GameState) (hg : e.games.lookup gameID = some g) :
    g.MoveCount = (occupied g.Board : Int) := by
  obtain ⟨l, hinv⟩ := gameInv_of_reachable e h gameID g hg
  exact hinv.count


/-- C10: a win is recorded on exactly the move that completes a line and is
attributed to the mover. In every record of every execution from `NewEngine`,
the status is won iff X or O fills one of the eight lines; in that case the
winner is that mark, no other mark of X and O fills a line, and the winner is
the player of the last successful move on the game; when the status is ongoing
or draw neither X nor O fills a line. Example: after X:A1, O:A2, X:B1, O:B2 the
game is ongoing at every step, and X:C1 makes it won with winner X. -/
theorem win_attribution (ops : List Op) (e : Engine) (last : History)
    (hrun : runTrace NewEngine (fun _ => none) ops = some (e, last))
    (gameID : GoString) (g : GameState) (hg : e.games.lookup gameID = some g) :
    runFrom NewEngine ops = some e ∧
    (g.Status = StatusWon ↔ (FillsLine g.Board PlayerX ∨ FillsLine g.Board PlayerO)) ∧
    (g.Status = StatusWon →
      (g.Winner = PlayerX ∨ g.Winner = PlayerO) ∧ FillsLine g.Board g.Winner ∧
      (∀ m, m = PlayerX ∨ m = PlayerO → FillsLine g.Board m → m = g.Winner) ∧
      last gameID = some g.Winner) ∧
    (g.Status = StatusOngoing ∨ g.Status = StatusDraw →
      ¬ FillsLine g.Board PlayerX ∧ ¬ FillsLine g.Board PlayerO) ∧
    (ParsePosition (ascii "A1") = .ok ⟨0, 0⟩ ∧ ParsePosition (ascii "A2") = .ok ⟨1, 0⟩ ∧
      ParsePosition (ascii "B1") = .ok ⟨0, 1⟩ ∧ ParsePosition (ascii "B2") = .ok ⟨1, 1⟩ ∧
      ParsePosition (ascii "C1") = .ok ⟨0, 2⟩ ∧
      runFrom NewEngine rowWinOps = some (engineAfter rowWinOps) ∧
      (∀ k, k < 5 → (gameAfter (rowWinOps.take (k + 1)) demoID).Status = StatusOngoing) ∧
      (engineAfter rowWinOps).games.lookup demoID = some (gameAfter rowWinOps demoID) ∧
      MakeMove (engineAfter rowWinOps) demoID ⟨0, 2⟩ PlayerX =
        .ok (engineAfter rowWinAll)
          (gameAfter rowWinAll demoID) ∧
      (gameAfter rowWinAll demoID).Status = StatusWon ∧
      (gameAfter rowWinAll demoID).Winner = PlayerX) := by
  have hinv := gameInv_of_trace ops e last hrun gameID g hg
  have hfst := runTrace_fst ops NewEngine (fun _ => none)
  rw [hrun] at hfst
  refine ⟨hfst.symm, ⟨?_, ?_⟩, ?_, ?_, rfl, rfl, rfl, rfl, rfl, rfl, by decide, rfl, rfl, rfl, rfl⟩
  · intro hw
    obtain ⟨hwc, hfl, -⟩ := hinv.won hw
    rcases hinv.current with hp | hp
    · left; rw [← hp, ← hwc]; exact hfl
    · right; rw [← hp, ← hwc]; exact hfl
  · intro hf
    by_contra hw
    have := hinv.notWon hw
    rcases hf with hf | hf
    · exact this.2.1 hf
    · exact this.2.2 hf
  · intro hw
    obtain ⟨hwc, hfl, hlast⟩ := hinv.won hw
    have hxo : g.Winner = PlayerX ∨ g.Winner = PlayerO := by rw [hwc]; exact hinv.current
    refine ⟨hxo, hfl, ?_, hlast⟩
    intro m hm hfm
    rcases hm with rfl | rfl <;> rcases hxo with hx | hx
    · exact hx.symm
    · rw [hx] at hfl; exact absurd ⟨hfm, hfl⟩ hinv.oneWinner
    · rw [hx] at hfl; exact absurd ⟨hfl, hfm⟩ hinv.oneWinner
    · exact hx.symm
  · intro hs
    have hnw : g.Status ≠ StatusWon := by
      rcases hs with hs | hs <;> rw [hs]
      · exact ongoing_ne_won
      · exact draw_ne_won
    exact (hinv.notWon hnw).2

/-- Example for C2: after X:A1, O:A2, X:B1, O:B2 a move by O is refused (it is
X's turn) and the registry is unchanged. -/
theorem makeMove_error_atomic_witness :
    MakeMove (engineAfter rowWinOps) demoID ⟨2, 2⟩ PlayerO =
        .err (engineAfter rowWinOps) (ascii "it\x27s not O\x27s turn") ∧
      (engineAfter rowWinOps = engineAfter rowWinOps ∧
        (∀ j, (engineAfter rowWinOps).games.lookup j = (engineAfter rowWinOps).games.lookup j) ∧
        MakeMove (engineAfter rowWinOps) demoID ⟨2, 2⟩ PlayerO ≠ .panic) :=
  ⟨rfl, makeMove_error_atomic (engineAfter rowWinOps) (engineAfter rowWinOps) demoID ⟨2, 2⟩
    PlayerO (ascii "it\x27s not O\x27s turn") rfl⟩

/-- Example for C3: after X:A1, O:A2, X:B1, O:B2 the move X:C1 is accepted; the
cell `C1` then holds X, it was empty before, and the counter goes from 4 to
5. -/
theorem makeMove_placement_witness :
    MakeMove (engineAfter rowWinOps) demoID ⟨0, 2⟩ PlayerX =
        .ok (engineAfter rowWinAll) (gameAfter rowWinAll demoID) ∧
      Board.Get (gameAfter rowWinAll demoID).Board ⟨0, 2⟩ = .done PlayerX ∧
      Board.Get (gameAfter rowWinOps demoID).Board ⟨0, 2⟩ = .done Empty ∧
      (gameAfter rowWinOps demoID).MoveCount = 4 ∧
      (gameAfter rowWinAll demoID).MoveCount = 5 ∧
      ∃ g, (engineAfter rowWinOps).games.lookup demoID = some g ∧
        (engineAfter rowWinAll).games.lookup demoID = some (gameAfter rowWinAll demoID) ∧
        Board.Get (gameAfter rowWinAll demoID).Board ⟨0, 2⟩ = .done PlayerX ∧
        Board.Get g.Board ⟨0, 2⟩ = .done Empty ∧
        (∀ q : Position, q ≠ ⟨0, 2⟩ →
          Board.Get (gameAfter rowWinAll demoID).Board q = Board.Get g.Board q) ∧
        (∀ r c, g.Board r c ≠ Empty → (gameAfter rowWinAll demoID).Board r c = g.Board r c) ∧
        (gameAfter rowWinAll demoID).MoveCount = wrapInt64 (g.MoveCount + 1) ∧
        (-2 ^ 63 ≤ g.MoveCount ∧ g.MoveCount < 2 ^ 63 - 1 →
          (gameAfter rowWinAll demoID).MoveCount = g.MoveCount + 1) ∧
        (Reachable (engineAfter rowWinOps) →
          (gameAfter rowWinAll demoID).MoveCount = g.MoveCount + 1) :=
  ⟨rfl, rfl, rfl, rfl, rfl, makeMove_placement (engineAfter rowWinOps) (engineAfter rowWinAll)
    demoID ⟨0, 2⟩ PlayerX (gameAfter rowWinAll demoID) rfl⟩

/-- Example for C4: after X:A1, O:A2, X:B1, O:B2 the move X:C1 completes row 0
and the game is won by X; a move X:C3 instead would leave it ongoing with O to
move. -/
theorem makeMove_transition_witness :
    MakeMove (engineAfter rowWinOps) demoID ⟨0, 2⟩ PlayerX =
        .ok (engineAfter rowWinAll) (gameAfter rowWinAll demoID) ∧
      (gameAfter rowWinAll demoID).Status = StatusWon ∧
      (gameAfter rowWinAll demoID).Winner = PlayerX ∧
      (gameAfter rowWinAll demoID).CurrentPlayer = PlayerX ∧
      ∃ g, (engineAfter rowWinOps).games.lookup demoID = some g ∧ g.Status = StatusOngoing ∧
        (FillsLine (gameAfter rowWinAll demoID).Board PlayerX →
          (gameAfter rowWinAll demoID).Status = StatusWon ∧
          (gameAfter rowWinAll demoID).Status ≠ StatusDraw ∧
          (gameAfter rowWinAll demoID).Winner = PlayerX ∧
          (gameAfter rowWinAll demoID).CurrentPlayer = g.CurrentPlayer) ∧
        (¬ FillsLine (gameAfter rowWinAll demoID).Board PlayerX →
          (∀ r c, (gameAfter rowWinAll demoID).Board r c ≠ Empty) →
          (gameAfter rowWinAll demoID).Status = StatusDraw ∧
          (gameAfter rowWinAll demoID).Winner = g.Winner ∧
          (Reachable (engineAfter rowWinOps) → (gameAfter rowWinAll demoID).Winner = Empty)) ∧
        (¬ FillsLine (gameAfter rowWinAll demoID).Board PlayerX →
          (∃ r c, (gameAfter rowWinAll demoID).Board r c = Empty) →
          (gameAfter rowWinAll demoID).Status = StatusOngoing ∧
          (gameAfter rowWinAll demoID).Winner = g.Winner ∧
          (Reachable (engineAfter rowWinOps) → (gameAfter rowWinAll demoID).Winner = Empty) ∧
          (gameAfter rowWinAll demoID).CurrentPlayer = g.NextPlayer ∧
          (PlayerX = PlayerX → (gameAfter rowWinAll demoID).CurrentPlayer = PlayerO) ∧
          (PlayerX = PlayerO → (gameAfter rowWinAll demoID).CurrentPlayer = PlayerX)) :=
  ⟨rfl, rfl, rfl, rfl, makeMove_transition (engineAfter rowWinOps) (engineAfter rowWinAll)
    demoID ⟨0, 2⟩ PlayerX (gameAfter rowWinAll demoID) rfl⟩

/-- Example for C6: after X:A1, O:A2, X:B1, O:B2 the counter is 4 and four
cells are occupied. -/
theorem moveCount_eq_occupied_witness :
    Reachable (engineAfter rowWinOps) ∧
      (engineAfter rowWinOps).games.lookup demoID = some (gameAfter rowWinOps demoID) ∧
      (gameAfter rowWinOps demoID).MoveCount = 4 ∧
      (gameAfter rowWinOps demoID).MoveCount = (occupied (gameAfter rowWinOps demoID).Board : Int) :=
  ⟨⟨rowWinOps, rfl⟩, rfl, rfl,
    moveCount_eq_occupied (engineAfter rowWinOps) ⟨rowWinOps, rfl⟩ demoID
      (gameAfter rowWinOps demoID) rfl⟩

/-- Example for C10: the execution X:A1, O:A2, X:B1, O:B2, X:C1 ends with the
game won, X filling a line, and X the last mover. -/
theorem win_attribution_witness :
    runTrace NewEngine (fun _ => none) rowWinAll =
        some (engineAfter rowWinAll, historyAfter rowWinAll) ∧
      (engineAfter rowWinAll).games.lookup demoID = some (gameAfter rowWinAll demoID) ∧
      (gameAfter rowWinAll demoID).Status = StatusWon ∧
      historyAfter rowWinAll demoID = some PlayerX ∧
      FillsLine (gameAfter rowWinAll demoID).Board PlayerX ∧
      ((gameAfter rowWinAll demoID).Status = StatusWon ↔
        (FillsLine (gameAfter rowWinAll demoID).Board PlayerX ∨
          FillsLine (gameAfter rowWinAll demoID).Board PlayerO)) :=
  ⟨rfl, rfl, rfl, rfl, by decide,
    (win_attribution rowWinAll (engineAfter rowWinAll) (historyAfter rowWinAll) rfl demoID
      (gameAfter rowWinAll demoID) rfl).2.1⟩

theorem loop_positions :
    (loopInt3.flatMap fun row => loopInt3.map fun col => Position.mk row col) = allPositions :=
  rfl

theorem allPositions_inRange (p : Position) : p ∈ allPositions ↔ p.InRange := by
  constructor
  · intro h
    simp only [allPositions, List.mem_cons, List.mem_singleton, List.not_mem_nil, or_false] at h
    rcases h with rfl | rfl | rfl | rfl | rfl | rfl | rfl | rfl | rfl <;> decide
  · intro h
    rcases inRange_cases p h with rfl | rfl | rfl | rfl | rfl | rfl | rfl | rfl | rfl <;> decide

theorem isEmpty_eq_cellEmpty (b : Board) (p : Position) (h : p.InRange) :
    Board.IsEmpty b p = .done (cellEmpty b p) := by
  obtain ⟨r, c, hr, hc⟩ := index3_of_inRange p h
  rw [isEmpty_of_index3 b p r c hr hc, cellEmpty, get_of_index3 b p r c hr hc]
  simp only [Run.done.injEq]

theorem foldl_appendIfEmpty (b : Board) (l : List Position) (hl : ∀ p ∈ l, p.InRange)
    (acc : List Position) :
    l.foldl (appendIfEmpty b) (.done acc) = .done (acc ++ l.filter (cellEmpty b)) := by
  induction l generalizing acc with
  | nil => simp
  | cons p l ih =>
    have hp := hl p (List.mem_cons_self _ _)
    have hl' : ∀ q ∈ l, q.InRange := fun q hq => hl q (List.mem_cons_of_mem _ hq)
    simp only [List.foldl_cons, appendIfEmpty, isEmpty_eq_cellEmpty b p hp]
    cases hc : cellEmpty b p
    · simp only [ih hl', List.filter_cons, hc]
      simp
    · simp only [ih hl', List.filter_cons, hc]
      simp

theorem getAvailableMoves_ongoing (e : Engine) (gameID : GoString) (g : GameState)
    (hg : e.games.lookup gameID = some g) (hs : g.Status = StatusOngoing) :
    GetAvailableMoves e gameID = .ok e (allPositions.filter (cellEmpty g.Board)) := by
  simp only [GetAvailableMoves, hg, GameState.IsGameOver, hs, loop_positions,
    foldl_appendIfEmpty g.Board allPositions (fun p hp => (allPositions_inRange p).1 hp)]
  simp

theorem getAvailableMoves_over (e : Engine) (gameID : GoString) (g : GameState)
    (hg : e.games.lookup gameID = some g) (hs : g.Status ≠ StatusOngoing) :
    GetAvailableMoves e gameID = .ok e [] := by
  simp [GetAvailableMoves, hg, GameState.IsGameOver, hs]

theorem getAvailableMoves_absent (e : Engine) (gameID : GoString)
    (hg : e.games.lookup gameID = none) :
    GetAvailableMoves e gameID = .err e (notFound gameID) := by
  simp only [GetAvailableMoves, hg]

theorem cellEmpty_iff (b : Board) (p : Position) :
    cellEmpty b p = true ↔ Board.Get b p = .done Empty := by
  simp only [cellEmpty, decide_eq_true_eq]

theorem inRange_of_get (b : Board) (p : Position) (m : Player) (h : Board.Get b p = .done m) :
    p.InRange := by
  unfold Board.Get at h
  cases hr : index3 p.Row with
  | panic => rw [hr] at h; cases h
  | done r =>
    cases hc : index3 p.Col with
    | panic => rw [hr, hc] at h; cases h
    | done c => exact inRange_of_index3 p r c hr hc

theorem allPositions_nodup : allPositions.Nodup := by decide

theorem position_of_index3 (pos : Position) (r c : Fin 3) (hr : index3 pos.Row = .done r)
    (hc : index3 pos.Col = .done c) : pos = ⟨(r.val : Int), (c.val : Int)⟩ := by
  rw [index3_done_iff] at hr hc
  cases pos
  simp only [Position.mk.injEq]
  simp only at hr hc
  omega

theorem firstMove_status (gameID : GoString) (r c : Fin 3) :
    ((NewGame gameID).moved r c PlayerX).Status = StatusOngoing := by
  fin_cases r <;> fin_cases c <;> rfl

theorem firstMove_filter (gameID : GoString) (r c : Fin 3) :
    allPositions.filter (cellEmpty ((NewGame gameID).moved r c PlayerX).Board) =
      allPositions.filter (fun p => decide (p ≠ ⟨(r.val : Int), (c.val : Int)⟩)) := by
  rw [moved_board]
  fin_cases r <;> fin_cases c <;> rfl

/-- C13: for every registered game `GetAvailableMoves` returns without error.
If the game is ongoing it returns exactly the positions whose cell is empty,
each once, in row-major order: all nine positions on a fresh game, and the
eight other positions after one move. If the game is over (won or draw) it
returns the empty sequence, even when empty cells remain. -/
theorem getAvailableMoves_spec (e : Engine) (gameID : GoString) (g : GameState)
    (hg : e.games.lookup gameID = some g) :
    ∃ moves, GetAvailableMoves e gameID = .ok e moves ∧
      (g.Status = StatusOngoing →
        moves = allPositions.filter (fun p => decide (Board.Get g.Board p = .done Empty)) ∧
        (∀ p, p ∈ moves ↔ Board.Get g.Board p = .done Empty) ∧
        moves.Nodup ∧ List.Sublist moves allPositions) ∧
      (g.Status ≠ StatusOngoing → moves = []) ∧
      (g = NewGame gameID → moves = allPositions) ∧
      (∀ (e0 : Engine) (pos : Position) (e2 : Engine) (g2 : GameState),
        MakeMove { games := e0.games.insert gameID (NewGame gameID) } gameID pos PlayerX =
          .ok e2 g2 →
        GetAvailableMoves e2 gameID = .ok e2 (allPositions.filter fun p => decide (p ≠ pos)) ∧
        (allPositions.filter fun p => decide (p ≠ pos)).length = 8) ∧
      allPositions =
        [⟨0, 0⟩, ⟨0, 1⟩, ⟨0, 2⟩, ⟨1, 0⟩, ⟨1, 1⟩, ⟨1, 2⟩, ⟨2, 0⟩, ⟨2, 1⟩, ⟨2, 2⟩] ∧
      (gameAfter rowWinAll demoID).Status = StatusWon ∧
      Board.Get (gameAfter rowWinAll demoID).Board ⟨2, 2⟩ = .done Empty ∧
      GetAvailableMoves (engineAfter rowWinAll) demoID = .ok (engineAfter rowWinAll) [] := by
  have hfresh : ∀ (e0 : Engine) (pos : Position) (e2 : Engine) (g2 : GameState),
      MakeMove { games := e0.games.insert gameID (NewGame gameID) } gameID pos PlayerX =
        .ok e2 g2 →
      GetAvailableMoves e2 gameID = .ok e2 (allPositions.filter fun p => decide (p ≠ pos)) ∧
      (allPositions.filter fun p => decide (p ≠ pos)).length = 8 := by
    intro e0 pos e2 g2 h
    obtain ⟨g0, r, c, hl, -, -, hr, hc, -, rfl, rfl⟩ := makeMove_ok _ _ _ _ _ _ h
    simp only [AList.lookup_insert, Option.some.injEq] at hl
    subst hl
    have hpos := position_of_index3 pos r c hr hc
    have hmoves := getAvailableMoves_ongoing
      { games := AList.insert gameID ((NewGame gameID).moved r c PlayerX)
          (AList.insert gameID (NewGame gameID) e0.games) } gameID _ (AList.lookup_insert _)
      (firstMove_status gameID r c)
    rw [firstMove_filter, ← hpos] at hmoves
    refine ⟨hmoves, ?_⟩
    rw [hpos]
    fin_cases r <;> fin_cases c <;> rfl
  by_cases hs : g.Status = StatusOngoing
  · refine ⟨_, getAvailableMoves_ongoing e gameID g hg hs, fun _ => ⟨rfl, ?_, ?_, ?_⟩,
      fun h => absurd hs h, ?_, hfresh, rfl, rfl, rfl, rfl⟩
    · intro p
      rw [List.mem_filter, cellEmpty_iff, allPositions_inRange]
      exact ⟨fun h => h.2, fun h => ⟨inRange_of_get _ _ _ h, h⟩⟩
    · exact allPositions_nodup.filter _
    · exact List.filter_sublist _
    · intro hnew
      subst hnew
      rfl
  · refine ⟨[], getAvailableMoves_over e gameID g hg hs, fun h => absurd h hs, fun _ => rfl, ?_,
      hfresh, rfl, rfl, rfl, rfl⟩
    intro hnew
    subst hnew
    exact absurd rfl hs

/-- Example for C13: after X:A1, O:A2, X:B1, O:B2 the free positions are
C1, C2, A3, B3, C3, in this order. -/
theorem getAvailableMoves_spec_witness :
    (engineAfter rowWinOps).games.lookup demoID = some (gameAfter rowWinOps demoID) ∧
      GetAvailableMoves (engineAfter rowWinOps) demoID =
        .ok (engineAfter rowWinOps) [⟨0, 2⟩, ⟨1, 2⟩, ⟨2, 0⟩, ⟨2, 1⟩, ⟨2, 2⟩] ∧
      ∃ moves, GetAvailableMoves (engineAfter rowWinOps) demoID =
          .ok (engineAfter rowWinOps) moves ∧
        ((gameAfter rowWinOps demoID).Status ≠ StatusOngoing → moves = []) :=
  ⟨rfl, rfl, by
    obtain ⟨moves, h1, -, h2, -⟩ := getAvailableMoves_spec (engineAfter rowWinOps) demoID
      (gameAfter rowWinOps demoID) rfl
    exact ⟨moves, h1, h2⟩⟩

/-! ### Lookups, listing and deletion -/

theorem getGame_cases (e : Engine) (gameID : GoString) :
    (e.games.lookup gameID = none ∧ GetGame e gameID = .err e (notFound gameID)) ∨
    (∃ g, e.games.lookup gameID = some g ∧ GetGame e gameID = .ok e g) := by
  cases hl : e.games.lookup gameID with
  | none => left; exact ⟨rfl, by simp only [GetGame, hl]⟩
  | some g => right; exact ⟨g, rfl, by simp only [GetGame, hl]⟩

theorem getAvailableMoves_cases (e : Engine) (gameID : GoString) :
    (e.games.lookup gameID = none ∧ GetAvailableMoves e gameID = .err e (notFound gameID)) ∨
    (∃ g moves, e.games.lookup gameID = some g ∧ GetAvailableMoves e gameID = .ok e moves ∧
      (g.Status = StatusOngoing → moves = allPositions.filter (cellEmpty g.Board)) ∧
      (g.Status ≠ StatusOngoing → moves = [])) := by
  cases hl : e.games.lookup gameID with
  | none => left; exact ⟨rfl, getAvailableMoves_absent e gameID hl⟩
  | some g =>
    right
    by_cases hs : g.Status = StatusOngoing
    · exact ⟨g, _, rfl, getAvailableMoves_ongoing e gameID g hl hs, fun _ => rfl,
        fun h => absurd hs h⟩
    · exact ⟨g, _, rfl, getAvailableMoves_over e gameID g hl hs, fun h => absurd h hs,
        fun _ => rfl⟩

theorem analyzePosition_cases (e : Engine) (gameID : GoString) :
    (e.games.lookup gameID = none ∧ AnalyzePosition e gameID = .err e (notFound gameID)) ∨
    (∃ g, e.games.lookup gameID = some g ∧ g.Status = StatusWon ∧
      AnalyzePosition e gameID = .ok e (ascii "Game over: " ++ g.Winner ++ ascii " wins!")) ∨
    (∃ g, e.games.lookup gameID = some g ∧ g.Status = StatusDraw ∧
      AnalyzePosition e gameID = .ok e (ascii "Game over: It\x27s a draw!")) ∨
    (∃ g moves, e.games.lookup gameID = some g ∧ g.Status ≠ StatusWon ∧
      g.Status ≠ StatusDraw ∧ GetAvailableMoves e gameID = .ok e moves ∧
      AnalyzePosition e gameID = .ok e (msgAnalysis g moves.length)) := by
  cases hl : e.games.lookup gameID with
  | none => left; exact ⟨rfl, by simp only [AnalyzePosition, hl]⟩
  | some g =>
    right
    by_cases hw : g.Status = StatusWon
    · left
      refine ⟨g, rfl, hw, ?_⟩
      have : g.Status ≠ StatusOngoing := by rw [hw]; exact ongoing_ne_won.symm
      simp [AnalyzePosition, hl, GameState.IsGameOver, hw, this]
      intro h; exact absurd h ongoing_ne_won.symm
    · right
      by_cases hd : g.Status = StatusDraw
      · left
        refine ⟨g, rfl, hd, ?_⟩
        have : StatusDraw ≠ StatusOngoing := ongoing_ne_draw.symm
        have h2 : StatusDraw ≠ StatusWon := draw_ne_won
        simp [AnalyzePosition, hl, GameState.IsGameOver, hd, this, h2]
      · right
        rcases getAvailableMoves_cases e gameID with ⟨hn, -⟩ | ⟨g', moves, hg', hm, -, -⟩
        · rw [hl] at hn; cases hn
        · rw [hl] at hg'
          cases hg'
          refine ⟨g, moves, rfl, hw, hd, hm, ?_⟩
          simp [AnalyzePosition, hl, hw, hd, hm, msgAnalysis]

theorem id_infix_notFound (gameID : GoString) : gameID <:+: notFound gameID :=
  ⟨ascii "game with ID ", ascii " not found", rfl⟩

/-- C15: every keyed operation except `CreateGame` fails with the
game-not-found error when the id is not registered. `GetGame`, `ResetGame`,
`DeleteGame`, `GetAvailableMoves` and `AnalyzePosition` return an error iff the
id is absent; `MakeMove` on an absent id returns the not-found error whatever
the position and the player are; in each such failure the registry is
unchanged and the message contains the id. -/
theorem absent_id_not_found (e : Engine) (gameID : GoString) :
    (((∃ e' msg, GetGame e gameID = .err e' msg) ↔ e.games.lookup gameID = none) ∧
      ((∃ e' msg, ResetGame e gameID = .err e' msg) ↔ e.games.lookup gameID = none) ∧
      ((∃ e' msg, DeleteGame e gameID = .err e' msg) ↔ e.games.lookup gameID = none) ∧
      ((∃ e' msg, GetAvailableMoves e gameID = .err e' msg) ↔ e.games.lookup gameID = none) ∧
      ((∃ e' msg, AnalyzePosition e gameID = .err e' msg) ↔ e.games.lookup gameID = none)) ∧
    (e.games.lookup gameID = none →
      GetGame e gameID = .err e (notFound gameID) ∧
      ResetGame e gameID = .err e (notFound gameID) ∧
      DeleteGame e gameID = .err e (notFound gameID) ∧
      GetAvailableMoves e gameID = .err e (notFound gameID) ∧
      AnalyzePosition e gameID = .err e (notFound gameID) ∧
      ∀ pos player, MakeMove e gameID pos player = .err e (notFound gameID)) ∧
    notFound gameID = ascii "game with ID " ++ gameID ++ ascii " not found" ∧
    gameID <:+: notFound gameID := by
  refine ⟨⟨?_, ?_, ?_, ?_, ?_⟩, ?_, rfl, id_infix_notFound gameID⟩
  · rcases getGame_cases e gameID with ⟨hn, h⟩ | ⟨g, hg, h⟩
    · exact ⟨fun _ => hn, fun _ => ⟨_, _, h⟩⟩
    · refine ⟨?_, fun hn => ?_⟩
      · rintro ⟨e', msg, h'⟩; rw [h] at h'; cases h'
      · rw [hg] at hn; cases hn
  · rcases resetGame_cases e gameID with ⟨hn, h⟩ | ⟨g, hg, h⟩
    · exact ⟨fun _ => hn, fun _ => ⟨_, _, h⟩⟩
    · refine ⟨?_, fun hn => ?_⟩
      · rintro ⟨e', msg, h'⟩; rw [h] at h'; cases h'
      · rw [hg] at hn; cases hn
  · rcases deleteGame_cases e gameID with ⟨hn, h⟩ | ⟨g, hg, h⟩
    · exact ⟨fun _ => hn, fun _ => ⟨_, _, h⟩⟩
    · refine ⟨?_, fun hn => ?_⟩
      · rintro ⟨e', msg, h'⟩; rw [h] at h'; cases h'
      · rw [hg] at hn; cases hn
  · rcases getAvailableMoves_cases e gameID with ⟨hn, h⟩ | ⟨g, moves, hg, h, -⟩
    · exact ⟨fun _ => hn, fun _ => ⟨_, _, h⟩⟩
    · refine ⟨?_, fun hn => ?_⟩
      · rintro ⟨e', msg, h'⟩; rw [h] at h'; cases h'
      · rw [hg] at hn; cases hn
  · rcases analyzePosition_cases e gameID with ⟨hn, h⟩ | ⟨g, hg, -, h⟩ | ⟨g, hg, -, h⟩ |
      ⟨g, moves, hg, -, -, -, h⟩
    · exact ⟨fun _ => hn, fun _ => ⟨_, _, h⟩⟩
    all_goals
      refine ⟨?_, fun hn => ?_⟩
      · rintro ⟨e', msg, h'⟩; rw [h] at h'; cases h'
      · rw [hg] at hn; cases hn
  · intro hn
    refine ⟨?_, ?_, ?_, getAvailableMoves_absent e gameID hn, ?_, fun pos player => ?_⟩
    · simp only [GetGame, hn]
    · simp only [ResetGame, hn]
    · simp only [DeleteGame, hn]
    · simp only [AnalyzePosition, hn]
    · simp only [MakeMove, hn]

/-- What one call does to the record registered under `j`: nothing, or the
effect of a creation, a reset, a deletion or an accepted move on `j`. -/
theorem step_lookup (e e' : Engine) (op : Op) (h : step e op = some e') (j : GoString) :
    e'.games.lookup j = e.games.lookup j ∨
    (op = .create j ∧ e'.games.lookup j = some (NewGame j)) ∨
    (op = .reset j ∧ ∃ g, e.games.lookup j = some g ∧ e'.games.lookup j = some g.cleared) ∨
    (op = .delete j ∧ (∃ g, e.games.lookup j = some g) ∧ e'.games.lookup j = none) ∨
    (∃ pos player g r c, op = .move j pos player ∧ e.games.lookup j = some g ∧
      g.Status = StatusOngoing ∧ player = g.CurrentPlayer ∧ index3 pos.Row = .done r ∧
      index3 pos.Col = .done c ∧ g.Board r c = Empty ∧
      e'.games.lookup j = some (g.moved r c player)) := by
  cases op with
  | create i =>
    simp only [step, CreateGame, Outcome.engine, Option.some.injEq] at h
    subst h
    by_cases hji : j = i
    · subst hji
      right; left
      exact ⟨rfl, AList.lookup_insert _⟩
    · left
      exact AList.lookup_insert_ne hji
  | move i pos player =>
    simp only [step] at h
    rcases makeMove_cases e i pos player with ⟨-, h1⟩ | ⟨_, -, -, h1⟩ | ⟨_, -, -, -, h1⟩ |
      ⟨_, -, -, -, -, h1⟩ | ⟨_, _, _, -, -, -, -, -, -, h1⟩ | ⟨g, r, c, hl, hs, hp, hr, hc, hcell, h1⟩
    all_goals rw [h1] at h
    all_goals simp only [Outcome.engine, Option.some.injEq] at h
    all_goals subst h
    · left; rfl
    · left; rfl
    · left; rfl
    · left; rfl
    · left; rfl
    · by_cases hji : j = i
      · subst hji
        right; right; right; right
        exact ⟨pos, player, g, r, c, rfl, hl, hs, hp, hr, hc, hcell, AList.lookup_insert _⟩
      · left
        exact AList.lookup_insert_ne hji
  | reset i =>
    simp only [step] at h
    rcases resetGame_cases e i with ⟨-, h1⟩ | ⟨g, hl, h1⟩
    all_goals rw [h1] at h
    all_goals simp only [Outcome.engine, Option.some.injEq] at h
    all_goals subst h
    · left; rfl
    · by_cases hji : j = i
      · subst hji
        right; right; left
        exact ⟨rfl, g, hl, AList.lookup_insert _⟩
      · left
        exact AList.lookup_insert_ne hji
  | delete i =>
    simp only [step] at h
    rcases deleteGame_cases e i with ⟨-, h1⟩ | ⟨g, hl, h1⟩
    all_goals rw [h1] at h
    all_goals simp only [Outcome.engine, Option.some.injEq] at h
    all_goals subst h
    · left; rfl
    · by_cases hji : j = i
      · subst hji
        right; right; right; left
        exact ⟨rfl, ⟨g, hl⟩, AList.lookup_erase _ _⟩
      · left
        exact AList.lookup_erase_ne hji

theorem mem_games_iff (e : Engine) (j : GoString) :
    j ∈ e.games ↔ ∃ g, e.games.lookup j = some g := by
  rw [← AList.lookup_isSome, Option.isSome_iff_exists]

/-- C16: `DeleteGame` on a registered id succeeds and removes exactly that
record: afterwards `GetGame` fails with not found, `ListGames` does not contain
the id and has one entry fewer, every other record is untouched, and a later
`CreateGame` yields a fresh game. No other operation unregisters an id: a call
after which a registered id is no longer registered is `DeleteGame` on that
id, and the reading operations return the registry as it was. -/
theorem deleteGame_removes (e : Engine) (gameID : GoString) (g : GameState)
    (hg : e.games.lookup gameID = some g) :
    ∃ e', DeleteGame e gameID = .ok e' () ∧
      GetGame e' gameID = .err e' (notFound gameID) ∧
      (∃ ids ids', ListGames e = .ok e ids ∧ ListGames e' = .ok e' ids' ∧
        gameID ∈ ids ∧ gameID ∉ ids' ∧ ids'.length + 1 = ids.length ∧
        ∀ j, j ≠ gameID → (j ∈ ids' ↔ j ∈ ids)) ∧
      (∀ j, j ≠ gameID → e'.games.lookup j = e.games.lookup j) ∧
      (∃ e'', CreateGame e' gameID = .ok e'' (NewGame gameID) ∧
        e''.games.lookup gameID = some (NewGame gameID)) ∧
      (∀ (e1 e2 : Engine) (op : Op) (j : GoString), step e1 op = some e2 →
        j ∈ e1.games → j ∉ e2.games → op = .delete j) ∧
      (∀ (e1 : Engine) (j : GoString), (GetGame e1 j).engine = some e1 ∧
        (ListGames e1).engine = some e1 ∧ (GetAvailableMoves e1 j).engine = some e1 ∧
        (AnalyzePosition e1 j).engine = some e1) := by
  have hmem : gameID ∈ e.games.keys := by
    rw [← AList.mem_keys, mem_games_iff]; exact ⟨g, hg⟩
  refine ⟨{ games := e.games.erase gameID }, ?_, ?_, ?_, ?_, ?_, ?_, ?_⟩
  · simp only [DeleteGame, hg]
  · simp only [GetGame, AList.lookup_erase]
  · refine ⟨e.games.keys, (e.games.erase gameID).keys, rfl, rfl, hmem, ?_, ?_, ?_⟩
    · rw [← AList.mem_keys, AList.mem_erase]
      exact fun h => h.1 rfl
    · rw [AList.keys_erase]
      have hlen := @List.length_erase_of_mem _ instBEqOfDecidableEq _ _ _ hmem
      have := List.length_pos_of_mem hmem
      omega
    · intro j hj
      rw [← AList.mem_keys, ← AList.mem_keys, AList.mem_erase]
      exact ⟨fun h => h.2, fun h => ⟨hj, h⟩⟩
  · intro j hj
    exact AList.lookup_erase_ne hj
  · exact ⟨_, rfl, AList.lookup_insert _⟩
  · intro e1 e2 op j hstep h1 h2
    rw [mem_games_iff] at h1 h2
    obtain ⟨g1, hg1⟩ := h1
    rcases step_lookup e1 e2 op hstep j with h | ⟨-, h⟩ | ⟨-, _, -, h⟩ | ⟨h, -⟩ |
      ⟨_, _, _, _, _, -, -, -, -, -, -, -, h⟩
    · exact absurd ⟨g1, h.trans hg1⟩ h2
    · exact absurd ⟨_, h⟩ h2
    · exact absurd ⟨_, h⟩ h2
    · exact h
    · exact absurd ⟨_, h⟩ h2
  · intro e1 j
    refine ⟨?_, rfl, ?_, ?_⟩
    · rcases getGame_cases e1 j with ⟨-, h⟩ | ⟨_, -, h⟩ <;> rw [h] <;> rfl
    · rcases getAvailableMoves_cases e1 j with ⟨-, h⟩ | ⟨_, _, -, h, -⟩ <;> rw [h] <;> rfl
    · rcases analyzePosition_cases e1 j with ⟨-, h⟩ | ⟨_, -, -, h⟩ | ⟨_, -, -, h⟩ |
        ⟨_, _, -, -, -, -, h⟩ <;> rw [h] <;> rfl

/-- C17: `ListGames` returns each registered id exactly once and nothing else:
its length is the number of registered games, an id is in the result iff
`GetGame` succeeds on it, the result is empty for `NewEngine()`, and after
`CreateGame("game1")` and `CreateGame("game2")` on a new engine it holds
exactly those two ids. -/
theorem listGames_spec (e : Engine) :
    ∃ ids, ListGames e = .ok e ids ∧ ids.Nodup ∧ ids.length = e.games.entries.length ∧
      (∀ gameID, gameID ∈ ids ↔ ∃ g, GetGame e gameID = .ok e g) ∧
      ListGames NewEngine = .ok NewEngine [] ∧
      (∃ ids2, ListGames (engineAfter [.create (ascii "game1"), .create (ascii "game2")]) =
          .ok (engineAfter [.create (ascii "game1"), .create (ascii "game2")]) ids2 ∧
        ids2.length = 2 ∧ ids2.Nodup ∧
        ∀ gameID, gameID ∈ ids2 ↔ gameID = ascii "game1" ∨ gameID = ascii "game2") := by
  refine ⟨e.games.keys, rfl, e.games.keys_nodup, ?_, ?_, rfl,
    ⟨[ascii "game2", ascii "game1"], rfl, rfl, by decide, ?_⟩⟩
  · simp only [AList.keys, List.keys, List.length_map]
  · intro gameID
    rw [← AList.mem_keys, mem_games_iff]
    rcases getGame_cases e gameID with ⟨hn, h⟩ | ⟨g, hg, h⟩
    · rw [hn, h]
      constructor
      · rintro ⟨_, h'⟩; cases h'
      · rintro ⟨_, h'⟩; cases h'
    · rw [hg, h]
      exact ⟨fun _ => ⟨g, rfl⟩, fun _ => ⟨g, rfl⟩⟩
  · intro gameID
    simp only [List.mem_cons, List.mem_singleton, List.not_mem_nil, or_false]
    exact or_comm

/-- Example for C16: after the calls of `TestWinConditions` the game `row-win`
is registered and `DeleteGame` removes it, leaving an empty registry. -/
theorem deleteGame_removes_witness :
    (engineAfter rowWinAll).games.lookup demoID = some (gameAfter rowWinAll demoID) ∧
      DeleteGame (engineAfter rowWinAll) demoID = .ok NewEngine () ∧
      ∃ e', DeleteGame (engineAfter rowWinAll) demoID = .ok e' () ∧
        GetGame e' demoID = .err e' (notFound demoID) :=
  ⟨rfl, rfl, by
    obtain ⟨e', h1, h2, -⟩ := deleteGame_removes (engineAfter rowWinAll) demoID
      (gameAfter rowWinAll demoID) rfl
    exact ⟨e', h1, h2⟩⟩

theorem allPositions_eq_map : allPositions = allCells.map positionOf := rfl

theorem get_positionOf (b : Board) (rc : Fin 3 × Fin 3) :
    Board.Get b (positionOf rc) = .done (b rc.1 rc.2) :=
  get_of_index3 b _ rc.1 rc.2 ((index3_done_iff _ _).2 rfl) ((index3_done_iff _ _).2 rfl)

theorem cellEmpty_positionOf (b : Board) (rc : Fin 3 × Fin 3) :
    cellEmpty b (positionOf rc) = decide (b rc.1 rc.2 = Empty) := by
  simp only [cellEmpty, get_positionOf, Run.done.injEq]

theorem length_filter_cellEmpty (b : Board) :
    (allPositions.filter (cellEmpty b)).length = emptyCells b := by
  have h1 : allPositions.filter (cellEmpty b) =
      (allCells.filter fun rc => decide (b rc.1 rc.2 = Empty)).map positionOf := by
    rw [allPositions_eq_map, List.filter_map]
    congr 1
    apply List.filter_congr
    intro rc _
    exact cellEmpty_positionOf b rc
  have hnodup : allCells.Nodup := by decide
  have huniv : allCells.toFinset = Finset.univ := by decide
  rw [h1, List.length_map, emptyCells, ← huniv,
    ← List.toFinset_card_of_nodup (hnodup.filter _), List.toFinset_filter]
  simp only [decide_eq_true_eq]

theorem emptyCells_add_occupied (b : Board) : emptyCells b + occupied b = 9 := by
  unfold emptyCells occupied
  have := Finset.filter_card_add_filter_neg_card_eq_card (s := (Finset.univ : Finset (Fin 3 × Fin 3)))
    (fun rc : Fin 3 × Fin 3 => b rc.1 rc.2 = Empty)
  simpa using this

/-- C18: `AnalyzePosition` is a read-only view of the record and of
`GetAvailableMoves`. For every registered game it returns, with the registry
unchanged, `Game over: <Winner> wins!` when the status is won, `Game over:
It's a draw!` when it is draw, and otherwise `Current player: <CurrentPlayer>,
Available moves: <k>, Move count: <MoveCount>` where `k` is the length of what
`GetAvailableMoves` returns, which for an ongoing game is the number of empty
cells; in a reachable state a game that is neither won nor draw is ongoing. -/
theorem analyzePosition_spec (e : Engine) (gameID : GoString) (g : GameState)
    (hg : e.games.lookup gameID = some g) :
    (g.Status = StatusWon →
      AnalyzePosition e gameID =
        .ok e (ascii "Game over: " ++ g.Winner ++ ascii " wins!")) ∧
    (g.Status = StatusDraw →
      AnalyzePosition e gameID = .ok e (ascii "Game over: It\x27s a draw!")) ∧
    (g.Status ≠ StatusWon → g.Status ≠ StatusDraw →
      ∃ moves, GetAvailableMoves e gameID = .ok e moves ∧
        AnalyzePosition e gameID =
          .ok e (ascii "Current player: " ++ g.CurrentPlayer ++ ascii ", Available moves: " ++
            fmtInt moves.length ++ ascii ", Move count: " ++ fmtInt g.MoveCount) ∧
        (g.Status = StatusOngoing → moves.length = emptyCells g.Board) ∧
        (Reachable e → g.Status = StatusOngoing)) ∧
    (AnalyzePosition e gameID).engine = some e := by
  rcases analyzePosition_cases e gameID with ⟨hn, -⟩ | ⟨g', hg', hw, h⟩ | ⟨g', hg', hd, h⟩ |
    ⟨g', moves, hg', hw, hd, hm, h⟩
  · rw [hg] at hn; cases hn
  · rw [hg] at hg'; cases hg'
    refine ⟨fun _ => h, fun hd => ?_, fun hnw => absurd hw hnw, by rw [h]; rfl⟩
    rw [hw] at hd
    exact absurd hd draw_ne_won.symm
  · rw [hg] at hg'; cases hg'
    refine ⟨fun hw => ?_, fun _ => h, fun _ hnd => absurd hd hnd, by rw [h]; rfl⟩
    rw [hd] at hw
    exact absurd hw draw_ne_won
  · rw [hg] at hg'; cases hg'
    refine ⟨fun hw' => absurd hw' hw, fun hd' => absurd hd' hd, fun _ _ => ?_, by rw [h]; rfl⟩
    refine ⟨moves, hm, h, ?_, ?_⟩
    · intro hs
      rw [getAvailableMoves_ongoing e gameID g hg hs] at hm
      cases hm
      exact length_filter_cellEmpty g.Board
    · intro hreach
      obtain ⟨l, hinv⟩ := gameInv_of_reachable e hreach gameID g hg
      rcases hinv.status with hs | hs | hs
      · exact hs
      · exact absurd hs hw
      · exact absurd hs hd

set_option maxRecDepth 8000 in
/-- Example for C18: after X:A1, O:A2, X:B1, O:B2 the analysis reads `Current
player: X, Available moves: 5, Move count: 4`; after X:C1 it reads `Game over:
X wins!`. -/
theorem analyzePosition_spec_witness :
    (engineAfter rowWinOps).games.lookup demoID = some (gameAfter rowWinOps demoID) ∧
      AnalyzePosition (engineAfter rowWinOps) demoID =
        .ok (engineAfter rowWinOps)
          (ascii "Current player: X, Available moves: 5, Move count: 4") ∧
      AnalyzePosition (engineAfter rowWinAll) demoID =
        .ok (engineAfter rowWinAll) (ascii "Game over: X wins!") ∧
      (AnalyzePosition (engineAfter rowWinOps) demoID).engine = some (engineAfter rowWinOps) :=
  ⟨rfl, rfl, rfl,
    (analyzePosition_spec (engineAfter rowWinOps) demoID (gameAfter rowWinOps demoID) rfl).2.2.2⟩

/-! ### Error texts of the codec -/

/-- C20 (as the code has it): the error of `ParsePosition` is one of two fixed
texts chosen by the length of the input alone, `position must be 2 characters
(e.g., A1)` when the length is not 2 and `position must be A1-C3` otherwise;
the text does not quote the rejected input. -/
theorem parsePosition_error_text (t msg : GoString) (h : ParsePosition t = .error msg) :
    (t.length ≠ 2 ∧ msg = ascii "position must be 2 characters (e.g., A1)") ∨
    (t.length = 2 ∧ msg = ascii "position must be A1-C3") := by
  unfold ParsePosition at h
  split at h
  · right
    dsimp only at h
    split_ifs at h
    simp only [Except.error.injEq] at h
    exact ⟨rfl, h.symm⟩
  · rename_i hne
    left
    simp only [Except.error.injEq] at h
    refine ⟨?_, h.symm⟩
    intro hlen
    match t, hlen with
    | [b0, b1], _ => exact hne b0 b1 rfl

/-- The inputs `D1` and `A10` are rejected with texts that do not contain
them. -/
theorem parsePosition_error_omits_input :
    ¬ (∀ t msg, ParsePosition t = .error msg → t <:+: msg) ∧
    ParsePosition (ascii "D1") = .error (ascii "position must be A1-C3") ∧
    ¬ (ascii "D1" <:+: ascii "position must be A1-C3") ∧
    ParsePosition (ascii "A10") = .error (ascii "position must be 2 characters (e.g., A1)") ∧
    ¬ (ascii "A10" <:+: ascii "position must be 2 characters (e.g., A1)") := by
  refine ⟨fun h => ?_, rfl, by decide, rfl, by decide⟩
  have h1 := h (ascii "D1") (ascii "position must be A1-C3") rfl
  revert h1
  decide

/-- Example for C20: the text for the rejected input `D1`. -/
theorem parsePosition_error_text_witness :
    ParsePosition (ascii "D1") = .error (ascii "position must be A1-C3") ∧
      (((ascii "D1").length ≠ 2 ∧
          ascii "position must be A1-C3" = ascii "position must be 2 characters (e.g., A1)") ∨
        ((ascii "D1").length = 2 ∧ ascii "position must be A1-C3" = ascii "position must be A1-C3")) :=
  ⟨rfl, parsePosition_error_text (ascii "D1") (ascii "position must be A1-C3") rfl⟩

/-! ### Reachable states, reset and terminal states -/

theorem runFrom_reachable (ops : List Op) (e0 e : Engine) (h0 : Reachable e0)
    (h : runFrom e0 ops = some e) : Reachable e := by
  induction ops generalizing e0 with
  | nil =>
    simp only [runFrom, Option.some.injEq] at h
    subst h
    exact h0
  | cons op ops ih =>
    simp only [runFrom] at h
    cases hs : step e0 op with
    | none => rw [hs] at h; cases h
    | some e1 =>
      rw [hs] at h
      refine ih e1 ?_ h
      obtain ⟨ops0, hops0⟩ := h0
      refine ⟨ops0 ++ [op], ?_⟩
      clear ih h
      generalize NewEngine = s at hops0
      induction ops0 generalizing s with
      | nil =>
        simp only [runFrom, Option.some.injEq] at hops0
        subst hops0
        simp only [List.nil_append, runFrom, hs]
      | cons o os ih2 =>
        simp only [runFrom] at hops0
        simp only [List.cons_append, runFrom]
        cases ho : step s o with
        | none => rw [ho] at hops0; cases hops0
        | some s1 =>
          rw [ho] at hops0
          exact ih2 s1 hops0

theorem reachable_step (e e' : Engine) (op : Op) (h : Reachable e) (hs : step e op = some e') :
    Reachable e' :=
  runFrom_reachable [op] e e' h (by simp only [runFrom, hs])

/-- Induction over the reachable states of the engine. -/
theorem reachable_induction (P : Engine → Prop) (h0 : P NewEngine)
    (hstep : ∀ e op e', Reachable e → P e → step e op = some e' → P e')
    (e : Engine) (h : Reachable e) : P e := by
  obtain ⟨ops, hops⟩ := h
  have key : ∀ (ops : List Op) (e0 : Engine), Reachable e0 → P e0 →
      runFrom e0 ops = some e → P e := by
    intro ops
    induction ops with
    | nil =>
      intro e0 _ hp h
      simp only [runFrom, Option.some.injEq] at h
      subst h
      exact hp
    | cons op ops ih =>
      intro e0 hr hp h
      simp only [runFrom] at h
      cases hs : step e0 op with
      | none => rw [hs] at h; cases h
      | some e1 =>
        rw [hs] at h
        exact ih e1 (reachable_step e0 e1 op hr hs) (hstep e0 op e1 hr hp hs) h
  exact key ops NewEngine ⟨[], rfl⟩ h0 hops

theorem moved_gameID (g : GameState) (r c : Fin 3) (p : Player) :
    (g.moved r c p).GameID = g.GameID := by
  unfold GameState.moved
  dsimp only
  split_ifs <;> rfl

theorem gameID_eq_key (e : Engine) (h : Reachable e) (gameID : GoString) (g : GameState)
    (hg : e.games.lookup gameID = some g) : g.GameID = gameID := by
  revert gameID g
  refine reachable_induction (fun e => ∀ gameID g, e.games.lookup gameID = some g →
    g.GameID = gameID) ?_ ?_ e h
  · intro j g hj
    simp [NewEngine] at hj
  · intro e1 op e2 _ ih hs j g hj
    rcases step_lookup e1 e2 op hs j with h | ⟨-, h⟩ | ⟨-, g0, hg0, h⟩ | ⟨-, -, h⟩ |
      ⟨_, p, g0, r, c, -, hg0, -, -, -, -, -, h⟩
    · rw [h] at hj; exact ih j g hj
    · rw [h] at hj; cases hj; rfl
    · rw [h] at hj; cases hj; exact ih j g0 hg0
    · rw [h] at hj; cases hj
    · rw [h] at hj; cases hj
      rw [moved_gameID]; exact ih j g0 hg0

theorem makeMove_over (e : Engine) (gameID : GoString) (g : GameState) (pos : Position)
    (player : Player) (hg : e.games.lookup gameID = some g) (hs : g.Status ≠ StatusOngoing) :
    MakeMove e gameID pos player = .err e (ascii "game is already over") := by
  simp [MakeMove, hg, validateMove, GameState.IsGameOver, hs]

theorem moved_status (g : GameState) (r c : Fin 3) (p : Player) :
    (g.moved r c p).Status = g.Status ∨ (g.moved r c p).Status = StatusWon ∨
      (g.moved r c p).Status = StatusDraw := by
  unfold GameState.moved
  dsimp only
  split_ifs
  · exact Or.inr (Or.inl rfl)
  · exact Or.inr (Or.inr rfl)
  · exact Or.inl rfl

/-- C19: in every reachable engine state the current player of every
registered record is X or O, never empty, and every board cell is empty, X or
O; so `MakeMove` with any player other than X and O fails, leaving the
registry as it was, and a successful `MakeMove` is by X or O and leaves only
empty, X and O cells. -/
theorem marks_are_X_or_O (e : Engine) (h : Reachable e) :
    (∀ gameID g, e.games.lookup gameID = some g →
      (g.CurrentPlayer = PlayerX ∨ g.CurrentPlayer = PlayerO) ∧ g.CurrentPlayer ≠ Empty ∧
      ∀ r c, g.Board r c = Empty ∨ g.Board r c = PlayerX ∨ g.Board r c = PlayerO) ∧
    (∀ gameID pos player, player ≠ PlayerX → player ≠ PlayerO →
      ∃ msg, MakeMove e gameID pos player = .err e msg) ∧
    (∀ gameID pos player e' g', MakeMove e gameID pos player = .ok e' g' →
      (player = PlayerX ∨ player = PlayerO) ∧
      ∀ r c, g'.Board r c = Empty ∨ g'.Board r c = PlayerX ∨ g'.Board r c = PlayerO) := by
  refine ⟨?_, ?_, ?_⟩
  · intro gameID g hg
    obtain ⟨l, hinv⟩ := gameInv_of_reachable e h gameID g hg
    refine ⟨hinv.current, ?_, hinv.cells⟩
    rcases hinv.current with hp | hp <;> rw [hp]
    · exact playerX_ne_empty
    · exact playerO_ne_empty
  · intro gameID pos player hx ho
    rcases makeMove_cases e gameID pos player with ⟨-, h1⟩ | ⟨_, -, -, h1⟩ | ⟨_, -, -, -, h1⟩ |
      ⟨g, hg, -, hp, -, h1⟩ | ⟨g, _, _, hg, -, hp, -, -, -, h1⟩ | ⟨g, _, _, hg, -, hp, -, -, -, h1⟩
    · exact ⟨_, h1⟩
    · exact ⟨_, h1⟩
    · exact ⟨_, h1⟩
    all_goals
      obtain ⟨l, hinv⟩ := gameInv_of_reachable e h gameID g hg
      rcases hinv.current with hc | hc
      · exact absurd (hp.trans hc) hx
      · exact absurd (hp.trans hc) ho
  · intro gameID pos player e' g' hm
    have hstep : step e (.move gameID pos player) = some e' := by
      simp only [step, hm, Outcome.engine]
    have hreach := reachable_step e e' _ h hstep
    obtain ⟨g, r, c, hg, -, hp, -, -, -, rfl, rfl⟩ := makeMove_ok e e' gameID pos player g' hm
    obtain ⟨l, hinv⟩ := gameInv_of_reachable e h gameID g hg
    obtain ⟨l', hinv'⟩ := gameInv_of_reachable _ hreach gameID _ (AList.lookup_insert _)
    exact ⟨hp ▸ hinv.current, hinv'.cells⟩

/-- Example for C19: the state after X:A1, O:A2, X:B1, O:B2 is reachable, and a
move by a player `Z` is refused there. -/
theorem marks_are_X_or_O_witness :
    Reachable (engineAfter rowWinOps) ∧
      MakeMove (engineAfter rowWinOps) demoID ⟨2, 2⟩ (ascii "Z") =
        .err (engineAfter rowWinOps) (ascii "it\x27s not Z\x27s turn") ∧
      ∃ msg, MakeMove (engineAfter rowWinOps) demoID ⟨2, 2⟩ (ascii "Z") =
        .err (engineAfter rowWinOps) msg :=
  ⟨⟨rowWinOps, rfl⟩, rfl,
    (marks_are_X_or_O (engineAfter rowWinOps) ⟨rowWinOps, rfl⟩).2.1 demoID ⟨2, 2⟩ (ascii "Z")
      (by decide) (by decide)⟩

/-- C14: for every registered id, whatever the state of its record (won and
draw included), `ResetGame` succeeds and leaves the record with all nine cells
empty, X to move, status ongoing, no winner, move count 0 and its `GameID`
unchanged; a following `GetGame` reports status ongoing. In every reachable
state the record then equals `NewGame id` and the registry is the one
`CreateGame` would have produced. -/
theorem resetGame_restores (e : Engine) (gameID : GoString) (g : GameState)
    (hg : e.games.lookup gameID = some g) :
    ∃ e' g', ResetGame e gameID = .ok e' g' ∧ e'.games.lookup gameID = some g' ∧
      (∀ r c, g'.Board r c = Empty) ∧ g'.CurrentPlayer = PlayerX ∧
      g'.Status = StatusOngoing ∧ g'.Winner = Empty ∧ g'.MoveCount = 0 ∧
      g'.GameID = g.GameID ∧
      (∃ g'', GetGame e' gameID = .ok e' g'' ∧ g''.Status = StatusOngoing) ∧
      (Reachable e →
        g' = NewGame gameID ∧ CreateGame e gameID = .ok e' (NewGame gameID)) := by
  refine ⟨{ games := e.games.insert gameID g.cleared }, g.cleared, ?_, AList.lookup_insert _,
    fun _ _ => rfl, rfl, rfl, rfl, rfl, rfl, ⟨g.cleared, ?_, rfl⟩, ?_⟩
  · simp only [ResetGame, hg, GameState.cleared]
  · simp only [GetGame, AList.lookup_insert]
  · intro hreach
    have hid := gameID_eq_key e hreach gameID g hg
    have hnew : g.cleared = NewGame gameID := by
      simp only [GameState.cleared, NewGame, hid]
    refine ⟨hnew, ?_⟩
    simp only [CreateGame, hnew]

/-- Example for C14: the won game of `TestWinConditions` is reset to the fresh
game `NewGame "row-win"`. -/
theorem resetGame_restores_witness :
    (engineAfter rowWinAll).games.lookup demoID = some (gameAfter rowWinAll demoID) ∧
      (gameAfter rowWinAll demoID).Status = StatusWon ∧
      ResetGame (engineAfter rowWinAll) demoID =
        .ok (engineAfter [.create demoID]) (NewGame demoID) ∧
      ∃ e' g', ResetGame (engineAfter rowWinAll) demoID = .ok e' g' ∧
        e'.games.lookup demoID = some g' ∧ g'.Status = StatusOngoing :=
  ⟨rfl, rfl, rfl, by
    obtain ⟨e', g', h1, h2, -, -, h3, -⟩ := resetGame_restores (engineAfter rowWinAll) demoID
      (gameAfter rowWinAll demoID) rfl
    exact ⟨e', g', h1, h2, h3⟩⟩

theorem playMoves_over (e : Engine) (gameID : GoString) (g : GameState)
    (hg : e.games.lookup gameID = some g) (hs : g.Status ≠ StatusOngoing)
    (moves : List (Position × Player)) :
    playMoves e gameID moves =
      List.replicate moves.length (.err e (ascii "game is already over")) := by
  induction moves with
  | nil => rfl
  | cons m rest ih =>
    obtain ⟨pos, player⟩ := m
    simp only [playMoves, makeMove_over e gameID g pos player hg hs, Outcome.engine,
      Option.getD_some, ih, List.length_cons, List.replicate_succ]

/-- C12: won and draw are terminal under move application. From a record whose
status is won or draw, every sequence of `MakeMove` calls on its id, whatever
the positions and players, fails at each call with the game-over error and
leaves the registry as it was. A successful `MakeMove` starts from an ongoing
record and leaves it ongoing, won or draw. A call after which the record is
ongoing again is `ResetGame` or `CreateGame` on its id, and both do return it
to ongoing. -/
theorem over_is_terminal (e : Engine) (gameID : GoString) (g : GameState)
    (hg : e.games.lookup gameID = some g)
    (hover : g.Status = StatusWon ∨ g.Status = StatusDraw) :
    (∀ moves : List (Position × Player),
      (playMoves e gameID moves).length = moves.length ∧
      ∀ out ∈ playMoves e gameID moves, out = .err e (ascii "game is already over")) ∧
    (∀ (e1 e2 : Engine) (j : GoString) (pos : Position) (player : Player) (g2 : GameState),
      MakeMove e1 j pos player = .ok e2 g2 →
      ∃ g1, e1.games.lookup j = some g1 ∧ g1.Status = StatusOngoing ∧
        (g2.Status = StatusOngoing ∨ g2.Status = StatusWon ∨ g2.Status = StatusDraw)) ∧
    (∀ (op : Op) (e' : Engine) (g' : GameState), step e op = some e' →
      e'.games.lookup gameID = some g' → g'.Status = StatusOngoing →
      op = .reset gameID ∨ op = .create gameID) ∧
    (∃ e' g', ResetGame e gameID = .ok e' g' ∧ e'.games.lookup gameID = some g' ∧
      g'.Status = StatusOngoing) ∧
    (∃ e' g', CreateGame e gameID = .ok e' g' ∧ e'.games.lookup gameID = some g' ∧
      g'.Status = StatusOngoing) := by
  have hs : g.Status ≠ StatusOngoing := by
    rcases hover with h | h <;> rw [h]
    · exact ongoing_ne_won.symm
    · exact ongoing_ne_draw.symm
  refine ⟨?_, ?_, ?_, ?_, ?_⟩
  · intro moves
    rw [playMoves_over e gameID g hg hs moves]
    exact ⟨List.length_replicate _ _, fun out hout => List.eq_of_mem_replicate hout⟩
  · intro e1 e2 j pos player g2 hm
    obtain ⟨g1, r, c, hg1, hs1, -, -, -, -, rfl, -⟩ := makeMove_ok e1 e2 j pos player g2 hm
    refine ⟨g1, hg1, hs1, ?_⟩
    rcases moved_status g1 r c player with h | h | h
    · exact Or.inl (h.trans hs1)
    · exact Or.inr (Or.inl h)
    · exact Or.inr (Or.inr h)
  · intro op e' g' hstep hg' hs'
    rcases step_lookup e e' op hstep gameID with h | ⟨h, -⟩ | ⟨h, -⟩ | ⟨-, -, h⟩ |
      ⟨_, _, g0, _, _, -, hg0, hs0, -⟩
    · rw [h, hg] at hg'
      cases hg'
      exact absurd hs' hs
    · exact Or.inr h
    · exact Or.inl h
    · rw [h] at hg'; cases hg'
    · rw [hg] at hg0
      cases hg0
      exact absurd hs0 hs
  · exact ⟨{ games := e.games.insert gameID g.cleared }, g.cleared,
      by simp only [ResetGame, hg, GameState.cleared], AList.lookup_insert _, rfl⟩
  · exact ⟨_, NewGame gameID, rfl, AList.lookup_insert _, rfl⟩

/-- Example for C12: on the won game of `TestWinConditions` the moves O:C3 and
X:C2 are both refused with the game-over error. -/
theorem over_is_terminal_witness :
    (engineAfter rowWinAll).games.lookup demoID = some (gameAfter rowWinAll demoID) ∧
      (gameAfter rowWinAll demoID).Status = StatusWon ∧
      playMoves (engineAfter rowWinAll) demoID [(⟨2, 2⟩, PlayerO), (⟨1, 2⟩, PlayerX)] =
        [.err (engineAfter rowWinAll) (ascii "game is already over"),
          .err (engineAfter rowWinAll) (ascii "game is already over")] ∧
      ∀ out ∈ playMoves (engineAfter rowWinAll) demoID [(⟨2, 2⟩, PlayerO), (⟨1, 2⟩, PlayerX)],
        out = .err (engineAfter rowWinAll) (ascii "game is already over") :=
  ⟨rfl, rfl, rfl,
    ((over_is_terminal (engineAfter rowWinAll) demoID (gameAfter rowWinAll demoID) rfl
      (Or.inl rfl)).1 [(⟨2, 2⟩, PlayerO), (⟨1, 2⟩, PlayerX)]).2⟩

theorem index3_cell (p : Position) (h : p.InRange) :
    index3 p.Row = .done p.cell.1 ∧ index3 p.Col = .done p.cell.2 := by
  obtain ⟨h1, h2, h3, h4⟩ := h
  constructor <;>
    · rw [index3_done_iff]
      simp only [Position.cell]
      omega

theorem cell_inj (p q : Position) (hp : p.InRange) (hq : q.InRange) (h : p.cell = q.cell) :
    p = q := by
  have h1 := position_of_index3 p _ _ (index3_cell p hp).1 (index3_cell p hp).2
  have h2 := position_of_index3 q _ _ (index3_cell q hq).1 (index3_cell q hq).2
  rw [h1, h2, h]

theorem altPlayer_cases (i : Nat) : altPlayer i = PlayerX ∨ altPlayer i = PlayerO := by
  unfold altPlayer
  split_ifs
  · exact Or.inl rfl
  · exact Or.inr rfl

theorem altPlayer_ne_empty (i : Nat) : altPlayer i ≠ Empty := by
  rcases altPlayer_cases i with h | h <;> rw [h]
  · exact playerX_ne_empty
  · exact playerO_ne_empty

theorem altPlayer_succ (i : Nat) :
    (if altPlayer i = PlayerX then PlayerO else PlayerX) = altPlayer (i + 1) := by
  unfold altPlayer
  by_cases h : i % 2 = 0
  · have h' : ¬ (i + 1) % 2 = 0 := by omega
    simp only [h, h', if_true, if_false]
  · have h' : (i + 1) % 2 = 0 := by omega
    simp only [h, h', if_true, if_false]
    rw [if_neg playerX_ne_playerO.symm]

theorem fillsLine_put_mono (b : Board) (r c : Fin 3) (p m : Player) (hb : b r c = Empty)
    (hm : m ≠ Empty) (h : FillsLine b m) : FillsLine (Board.put b r c p) m := by
  obtain ⟨l, hl, hall⟩ := h
  refine ⟨l, hl, fun rc hrc => ?_⟩
  rw [put_apply, if_neg]
  · exact hall rc hrc
  · rintro ⟨h1, h2⟩
    have := hall rc hrc
    rw [h1, h2, hb] at this
    exact hm this.symm

theorem fillsLine_placeAll_mono (ps : List Position) (b : Board) (i : Nat) (m : Player)
    (hm : m ≠ Empty) (hempty : ∀ p ∈ ps, b p.cell.1 p.cell.2 = Empty)
    (hnodup : (ps.map Position.cell).Nodup) (h : FillsLine b m) :
    FillsLine (placeAll b i ps) m := by
  induction ps generalizing b i with
  | nil => exact h
  | cons p rest ih =>
    simp only [List.map_cons, List.nodup_cons] at hnodup
    simp only [placeAll]
    apply ih
    · intro q hq
      rw [put_apply, if_neg]
      · exact hempty q (List.mem_cons_of_mem _ hq)
      · rintro ⟨h1, h2⟩
        apply hnodup.1
        have : q.cell = p.cell := Prod.ext h1 h2
        rw [← this]
        exact List.mem_map_of_mem _ hq
    · exact hnodup.2
    · exact fillsLine_put_mono b _ _ _ m (hempty p (List.mem_cons_self _ _)) hm h

theorem isFull_iff_occupied (b : Board) : Board.IsFull b = true ↔ occupied b = 9 := by
  rw [isFull_iff]
  unfold occupied
  have hcard : (Finset.univ : Finset (Fin 3 × Fin 3)).card = 9 := by decide
  rw [← hcard, Finset.card_filter_eq_iff]
  constructor
  · intro h rc _
    exact h rc.1 rc.2
  · intro h r c
    exact h (r, c) (Finset.mem_univ _)

theorem moved_currentPlayer_of_ongoing (g : GameState) (r c : Fin 3) (p : Player)
    (h : (g.moved r c p).Status = StatusOngoing) :
    (g.moved r c p).CurrentPlayer = g.NextPlayer := by
  unfold GameState.moved at h ⊢
  dsimp only at h ⊢
  split_ifs at h ⊢ with h1 h2
  · exact absurd h ongoing_ne_won.symm
  · exact absurd h ongoing_ne_draw.symm
  · rfl

/-- Alternating moves on distinct empty cells that fill the board without
completing a line are all accepted; the game stays ongoing until the last one,
which makes it a draw. -/
theorem play_alternating (gameID : GoString) (ps : List Position) :
    ∀ (e : Engine) (g : GameState) (i : Nat), e.games.lookup gameID = some g →
      g.Status = StatusOngoing → g.CurrentPlayer = altPlayer i →
      g.MoveCount = (occupied g.Board : Int) →
      (∀ p ∈ ps, p.InRange) → (∀ p ∈ ps, g.Board p.cell.1 p.cell.2 = Empty) →
      (ps.map Position.cell).Nodup →
      ¬ FillsLine (placeAll g.Board i ps) PlayerX →
      ¬ FillsLine (placeAll g.Board i ps) PlayerO →
      occupied g.Board + ps.length = 9 →
      ∀ k, k < ps.length → ∃ e' g',
        (playMoves e gameID (alternating i ps))[k]? = some (.ok e' g') ∧
        (k + 1 < ps.length → g'.Status = StatusOngoing) ∧
        (k + 1 = ps.length →
          g'.Status = StatusDraw ∧ g'.Winner = g.Winner ∧ g'.MoveCount = 9 ∧
          g'.Board = placeAll g.Board i ps) := by
  induction ps with
  | nil => intro e g i _ _ _ _ _ _ _ _ _ _ k hk; exact absurd hk (Nat.not_lt_zero _)
  | cons p rest ih =>
    intro e g i hg hs hcur hcount hrange hempty hnodup hX hO hocc k hk
    have hp := hrange p (List.mem_cons_self _ _)
    obtain ⟨hr, hc⟩ := index3_cell p hp
    have hcell := hempty p (List.mem_cons_self _ _)
    simp only [List.map_cons, List.nodup_cons] at hnodup
    simp only [List.length_cons] at hocc hk
    have hrest_empty : ∀ q ∈ rest,
        Board.put g.Board p.cell.1 p.cell.2 (altPlayer i) q.cell.1 q.cell.2 = Empty := by
      intro q hq
      rw [put_apply, if_neg]
      · exact hempty q (List.mem_cons_of_mem _ hq)
      · rintro ⟨h1, h2⟩
        apply hnodup.1
        have : q.cell = p.cell := Prod.ext h1 h2
        rw [← this]
        exact List.mem_map_of_mem _ hq
    -- the move is accepted
    have hmove : MakeMove e gameID p (altPlayer i) =
        .ok { games := e.games.insert gameID (g.moved p.cell.1 p.cell.2 (altPlayer i)) }
          (g.moved p.cell.1 p.cell.2 (altPlayer i)) := by
      rcases makeMove_cases e gameID p (altPlayer i) with ⟨hl, -⟩ | ⟨g1, hl, hs1, -⟩ |
        ⟨g1, hl, -, hp1, -⟩ | ⟨g1, hl, -, -, hr1, -⟩ |
        ⟨g1, r, c, hl, -, -, hr1, hc1, hcell1, -⟩ | ⟨g1, r, c, hl, -, -, hr1, hc1, -, h1⟩
      · rw [hg] at hl; cases hl
      · rw [hg] at hl; cases hl; exact absurd hs hs1
      · rw [hg] at hl; cases hl; exact absurd hcur.symm hp1
      · exact absurd hp hr1
      · rw [hg] at hl; cases hl
        rw [hr] at hr1; rw [hc] at hc1
        cases hr1; cases hc1
        exact absurd hcell hcell1
      · rw [hg] at hl; cases hl
        rw [hr] at hr1; rw [hc] at hc1
        cases hr1; cases hc1
        exact h1
    -- no line is completed by the move
    have hmono : ∀ m, m ≠ Empty →
        FillsLine (Board.put g.Board p.cell.1 p.cell.2 (altPlayer i)) m →
        FillsLine (placeAll g.Board i (p :: rest)) m := by
      intro m hm hf
      exact fillsLine_placeAll_mono rest _ (i + 1) m hm hrest_empty hnodup.2 hf
    have hwin : checkWin (Board.put g.Board p.cell.1 p.cell.2 (altPlayer i)) (altPlayer i) =
        false := by
      rw [← Bool.not_eq_true, checkWin_iff_fillsLine]
      intro hf
      have := hmono _ (altPlayer_ne_empty i) hf
      rcases altPlayer_cases i with hx | hx <;> rw [hx] at this
      · exact hX this
      · exact hO this
    have hocc' : occupied (Board.put g.Board p.cell.1 p.cell.2 (altPlayer i)) =
        occupied g.Board + 1 := occupied_put _ _ _ _ hcell (altPlayer_ne_empty i)
    have hcount' : wrapInt64 (g.MoveCount + 1) = (occupied g.Board : Int) + 1 := by
      rw [hcount]
      exact wrapInt64_of_small _ (by omega) (by omega)
    simp only [alternating, playMoves, hmove, Outcome.engine, Option.getD_some]
    by_cases hlast : rest = []
    · -- the last move fills the board
      subst hlast
      simp only [List.length_nil] at hocc hk
      have hk0 : k = 0 := by omega
      subst hk0
      have hfull : Board.IsFull (Board.put g.Board p.cell.1 p.cell.2 (altPlayer i)) = true := by
        rw [isFull_iff_occupied, hocc']; omega
      refine ⟨_, _, rfl, fun h => absurd h (by simp), fun _ => ?_⟩
      simp only [GameState.moved, hwin, hfull, Bool.false_eq_true, if_false, if_true, hcount']
      refine ⟨trivial, trivial, ?_, rfl⟩
      have : (occupied g.Board : Int) = 8 := by omega
      rw [this]; rfl
    · have hlen : 0 < rest.length := List.length_pos.2 hlast
      have hfull : Board.IsFull (Board.put g.Board p.cell.1 p.cell.2 (altPlayer i)) = false := by
        rw [← Bool.not_eq_true, isFull_iff_occupied, hocc']; omega
      have hstatus : (g.moved p.cell.1 p.cell.2 (altPlayer i)).Status = StatusOngoing := by
        simp only [GameState.moved, hwin, hfull, Bool.false_eq_true, if_false, hs]
      have hwinner : (g.moved p.cell.1 p.cell.2 (altPlayer i)).Winner = g.Winner := by
        simp only [GameState.moved, hwin, hfull, Bool.false_eq_true, if_false]
      cases k with
      | zero =>
        refine ⟨_, _, List.getElem?_cons_zero, fun _ => hstatus, fun h => ?_⟩
        simp only [List.length_cons] at h
        omega
      | succ k' =>
        have hk' : k' < rest.length := by omega
        obtain ⟨e', g', h1, h2, h3⟩ := ih
          { games := e.games.insert gameID (g.moved p.cell.1 p.cell.2 (altPlayer i)) }
          (g.moved p.cell.1 p.cell.2 (altPlayer i)) (i + 1) (AList.lookup_insert _) hstatus
          (by
            rw [moved_currentPlayer_of_ongoing _ _ _ _ hstatus, GameState.NextPlayer, hcur]
            exact altPlayer_succ i)
          (by rw [moved_moveCount, moved_board, hcount', hocc']; push_cast; rfl)
          (fun q hq => hrange q (List.mem_cons_of_mem _ hq))
          (by rw [moved_board]; exact hrest_empty)
          hnodup.2
          (by rw [moved_board]; exact hX)
          (by rw [moved_board]; exact hO)
          (by rw [moved_board, hocc']; omega)
          k' hk'
        refine ⟨e', g', ?_, ?_, ?_⟩
        · simpa only [List.getElem?_cons_succ] using h1
        · intro h; exact h2 (by simpa only [List.length_cons, Nat.add_lt_add_iff_right] using h)
        · intro h
          obtain ⟨h4, h5, h6, h7⟩ :=
            h3 (by simpa only [List.length_cons, Nat.add_right_cancel_iff] using h)
          refine ⟨h4, h5.trans hwinner, h6, ?_⟩
          rw [h7, moved_board]
          rfl

theorem alternating_fst (ps : List Position) (i : Nat) :
    (alternating i ps).map Prod.fst = ps := by
  induction ps generalizing i with
  | nil => rfl
  | cons p rest ih => simp only [alternating, List.map_cons, ih]

theorem alternating_snd_nine (ps : List Position) (h : ps.length = 9) :
    (alternating 0 ps).map Prod.snd =
      [PlayerX, PlayerO, PlayerX, PlayerO, PlayerX, PlayerO, PlayerX, PlayerO, PlayerX] := by
  match ps, h with
  | [_, _, _, _, _, _, _, _, _], _ => rfl

/-- C11: nine moves on a freshly created game, alternating X, O, X, ... on nine
distinct in-range cells, such that the final board has no row, column or
diagonal filled by one mark: all nine `MakeMove` calls succeed, the status
after each of the first eight is ongoing (never won), and after the ninth the
status is draw with no winner and move count 9, the board being the final
board. -/
theorem nine_moves_draw (e0 : Engine) (gameID : GoString) (ps : List Position)
    (hlen : ps.length = 9) (hrange : ∀ p ∈ ps, p.InRange) (hnodup : ps.Nodup)
    (hX : ¬ FillsLine (placeAll NewBoard 0 ps) PlayerX)
    (hO : ¬ FillsLine (placeAll NewBoard 0 ps) PlayerO) :
    ∃ e1, CreateGame e0 gameID = .ok e1 (NewGame gameID) ∧
      (alternating 0 ps).map Prod.fst = ps ∧
      (alternating 0 ps).map Prod.snd =
        [PlayerX, PlayerO, PlayerX, PlayerO, PlayerX, PlayerO, PlayerX, PlayerO, PlayerX] ∧
      ∀ k, k < 9 → ∃ e' g',
        (playMoves e1 gameID (alternating 0 ps))[k]? = some (.ok e' g') ∧
        (k < 8 → g'.Status = StatusOngoing ∧ g'.Status ≠ StatusWon) ∧
        (k = 8 → g'.Status = StatusDraw ∧ g'.Winner = Empty ∧ g'.MoveCount = 9 ∧
          g'.Board = placeAll NewBoard 0 ps) := by
  refine ⟨{ games := e0.games.insert gameID (NewGame gameID) }, rfl, alternating_fst ps 0,
    alternating_snd_nine ps hlen, ?_⟩
  intro k hk
  have hcells : (ps.map Position.cell).Nodup := by
    apply List.Nodup.map_on _ hnodup
    intro p hp q hq hpq
    exact cell_inj p q (hrange p hp) (hrange q hq) hpq
  obtain ⟨e', g', h1, h2, h3⟩ := play_alternating gameID ps
    { games := e0.games.insert gameID (NewGame gameID) } (NewGame gameID) 0
    (AList.lookup_insert _) rfl rfl (by simp [NewGame, occupied_newBoard]) hrange
    (fun _ _ => rfl) hcells hX hO (by rw [hlen]; simp [NewGame, occupied_newBoard]) k
    (by omega)
  refine ⟨e', g', h1, fun hk8 => ?_, fun hk8 => h3 (by omega)⟩
  have := h2 (by omega)
  exact ⟨this, by rw [this]; exact ongoing_ne_won⟩

/-- Example for C11: the nine moves of `TestDraw`, X:A1, O:A2, X:A3, O:B1, X:C1,
O:B2, X:B3, O:C3, X:C2, leave the game ongoing eight times and then draw. -/
theorem nine_moves_draw_witness :
    (drawPositions.length = 9 ∧ (∀ p ∈ drawPositions, p.InRange) ∧ drawPositions.Nodup ∧
      ¬ FillsLine (placeAll NewBoard 0 drawPositions) PlayerX ∧
      ¬ FillsLine (placeAll NewBoard 0 drawPositions) PlayerO) ∧
    drawPositions.map Position.String =
      [ascii "A1", ascii "A2", ascii "A3", ascii "B1", ascii "C1", ascii "B2", ascii "B3",
        ascii "C3", ascii "C2"] ∧
    (playMoves (engineAfter [.create drawID]) drawID (alternating 0 drawPositions)).map
        Outcome.status =
      [some StatusOngoing, some StatusOngoing, some StatusOngoing, some StatusOngoing,
        some StatusOngoing, some StatusOngoing, some StatusOngoing, some StatusOngoing,
        some StatusDraw] ∧
    ∃ e1, CreateGame NewEngine drawID = .ok e1 (NewGame drawID) ∧
      (alternating 0 drawPositions).map Prod.fst = drawPositions ∧
      (alternating 0 drawPositions).map Prod.snd =
        [PlayerX, PlayerO, PlayerX, PlayerO, PlayerX, PlayerO, PlayerX, PlayerO, PlayerX] ∧
      ∀ k, k < 9 → ∃ e' g',
        (playMoves e1 drawID (alternating 0 drawPositions))[k]? = some (.ok e' g') ∧
        (k < 8 → g'.Status = StatusOngoing ∧ g'.Status ≠ StatusWon) ∧
        (k = 8 → g'.Status = StatusDraw ∧ g'.Winner = Empty ∧ g'.MoveCount = 9 ∧
          g'.Board = placeAll NewBoard 0 drawPositions) :=
  ⟨⟨rfl, by decide, by decide, by decide, by decide⟩, rfl, rfl,
    nine_moves_draw NewEngine drawID drawPositions rfl (by decide) (by decide) (by decide)
      (by decide)⟩

/-! ### No panic, the text of a position, and the frame of the operations -/

theorem validateMove_ne_panic (game : GameState) (pos : Position) (player : Player) :
    validateMove game pos player ≠ .panic := by
  unfold validateMove
  split_ifs with h1 h2 h3
  · intro h; cases h
  · intro h; cases h
  · intro h; cases h
  · have hr : pos.InRange := by
      simp only [Position.InRange]; omega
    rw [isEmpty_eq_cellEmpty game.Board pos hr]
    cases cellEmpty game.Board pos <;> intro h <;> cases h

theorem makeMove_ne_panic (e : Engine) (gameID : GoString) (pos : Position) (player : Player) :
    MakeMove e gameID pos player ≠ .panic := by
  rcases makeMove_cases e gameID pos player with ⟨-, h1⟩ | ⟨_, -, -, h1⟩ | ⟨_, -, -, -, h1⟩ |
    ⟨_, -, -, -, -, h1⟩ | ⟨_, _, _, -, -, -, -, -, -, h1⟩ | ⟨_, _, _, -, -, -, -, -, -, h1⟩
  all_goals rw [h1]
  all_goals intro h
  all_goals cases h

/-- C21: the engine never panics on an illegal move. For every engine state,
id, player and position, negative or too large coordinates included,
`MakeMove` returns a record or an error: `validateMove` does not panic, and
when it accepts the move the position is in range, so `Board.Set` does not
panic either. An out-of-range position on an ongoing game with the right
player gives the out-of-bounds error, the registry unchanged. -/
theorem makeMove_never_panics (e : Engine) (gameID : GoString) (pos : Position)
    (player : Player) :
    MakeMove e gameID pos player ≠ .panic ∧
    ((∃ e' g', MakeMove e gameID pos player = .ok e' g') ∨
      (∃ msg, MakeMove e gameID pos player = .err e msg)) ∧
    (∀ game, validateMove game pos player ≠ .panic) ∧
    (∀ game, validateMove game pos player = .done none →
      pos.InRange ∧ ∃ b, Board.Set game.Board pos player = .done b) ∧
    (∀ g, e.games.lookup gameID = some g → g.Status = StatusOngoing →
      player = g.CurrentPlayer →
      (pos.Row < 0 ∨ pos.Row > 2 ∨ pos.Col < 0 ∨ pos.Col > 2) →
      MakeMove e gameID pos player = .err e (ascii "position Invalid is out of bounds")) ∧
    ((pos.Row < 0 ∨ pos.Row > 2 ∨ pos.Col < 0 ∨ pos.Col > 2) →
      Board.Get NewBoard pos = .panic ∧ Board.IsEmpty NewBoard pos = .panic ∧
      Board.Set NewBoard pos player = .panic) := by
  refine ⟨makeMove_ne_panic e gameID pos player, ?_, fun game =>
    validateMove_ne_panic game pos player, ?_, ?_, ?_⟩
  · rcases makeMove_cases e gameID pos player with ⟨-, h1⟩ | ⟨_, -, -, h1⟩ | ⟨_, -, -, -, h1⟩ |
      ⟨_, -, -, -, -, h1⟩ | ⟨_, _, _, -, -, -, -, -, -, h1⟩ | ⟨_, _, _, -, -, -, -, -, -, h1⟩
    · exact Or.inr ⟨_, h1⟩
    · exact Or.inr ⟨_, h1⟩
    · exact Or.inr ⟨_, h1⟩
    · exact Or.inr ⟨_, h1⟩
    · exact Or.inr ⟨_, h1⟩
    · exact Or.inl ⟨_, _, h1⟩
  · intro game hv
    unfold validateMove at hv
    split_ifs at hv with h1 h2 h3
    · cases hv
    · cases hv
    · cases hv
    · have hr : pos.InRange := by
        simp only [Position.InRange]; omega
      obtain ⟨r, c, hr', hc'⟩ := index3_of_inRange pos hr
      exact ⟨hr, _, set_of_index3 game.Board pos player r c hr' hc'⟩
  · intro g hg hs hp hout
    rcases makeMove_cases e gameID pos player with ⟨hl, -⟩ | ⟨g1, hl, hs1, -⟩ |
      ⟨g1, hl, -, hp1, -⟩ | ⟨g1, hl, -, -, -, h1⟩ |
      ⟨g1, r, c, hl, -, -, hr1, hc1, -, -⟩ | ⟨g1, r, c, hl, -, -, hr1, hc1, -, -⟩
    · rw [hg] at hl; cases hl
    · rw [hg] at hl; cases hl; exact absurd hs hs1
    · rw [hg] at hl; cases hl; exact absurd hp hp1
    · exact h1
    · have := inRange_of_index3 pos r c hr1 hc1
      simp only [Position.InRange] at this
      omega
    · have := inRange_of_index3 pos r c hr1 hc1
      simp only [Position.InRange] at this
      omega
  · intro hout
    have hpanic : index3 pos.Row = .panic ∨ index3 pos.Col = .panic := by
      simp only [index3_panic_iff]
      omega
    rcases hpanic with h | h
    · simp only [Board.Get, Board.IsEmpty, Board.Set, h, and_self]
    · cases hr : index3 pos.Row <;> simp only [Board.Get, Board.IsEmpty, Board.Set, h, hr, and_self]

/-- C23: `Position.String` is total. For a position with `Row` and `Col` in
`0..2` it returns the two-character text made of the letter `A` + `Col` and the
digit `Row` + 1 (column 2, row 0 gives `C1`), never `Invalid`; for every other
position, negative coordinates included, it returns exactly `Invalid`. -/
theorem position_string_spec (p : Position) :
    (p.InRange →
      p.String = [Fin.ofNat (65 + p.Col.toNat), Fin.ofNat (49 + p.Row.toNat)] ∧
      p.String ≠ ascii "Invalid" ∧ p.String.length = 2) ∧
    (¬ p.InRange → p.String = ascii "Invalid") ∧
    (Position.String ⟨0, 2⟩ = ascii "C1" ∧ Position.String ⟨2, 0⟩ = ascii "A3" ∧
      Position.String ⟨-1, 0⟩ = ascii "Invalid" ∧ Position.String ⟨0, 3⟩ = ascii "Invalid") := by
  refine ⟨fun h => ?_, fun h => ?_, rfl, rfl, rfl, rfl⟩
  · rcases inRange_cases p h with rfl | rfl | rfl | rfl | rfl | rfl | rfl | rfl | rfl <;>
      exact ⟨rfl, by decide, rfl⟩
  · have : p.Row < 0 ∨ p.Row > 2 ∨ p.Col < 0 ∨ p.Col > 2 := by
      simp only [Position.InRange] at h; omega
    simp only [Position.String, this, if_true]

theorem makeMove_engine_cases (e : Engine) (gameID : GoString) (pos : Position)
    (player : Player) :
    (MakeMove e gameID pos player).engine = some e ∨
    ∃ g g', e.games.lookup gameID = some g ∧
      (MakeMove e gameID pos player).engine = some { games := e.games.insert gameID g' } := by
  rcases makeMove_cases e gameID pos player with ⟨-, h1⟩ | ⟨_, -, -, h1⟩ | ⟨_, -, -, -, h1⟩ |
    ⟨_, -, -, -, -, h1⟩ | ⟨_, _, _, -, -, -, -, -, -, h1⟩ | ⟨g, _, _, hg, -, -, -, -, -, h1⟩
  all_goals rw [h1]
  · exact Or.inl rfl
  · exact Or.inl rfl
  · exact Or.inl rfl
  · exact Or.inl rfl
  · exact Or.inl rfl
  · exact Or.inr ⟨g, _, hg, rfl⟩

theorem resetGame_engine_cases (e : Engine) (gameID : GoString) :
    (ResetGame e gameID).engine = some e ∨
    ∃ g g', e.games.lookup gameID = some g ∧
      (ResetGame e gameID).engine = some { games := e.games.insert gameID g' } := by
  rcases resetGame_cases e gameID with ⟨-, h1⟩ | ⟨g, hg, h1⟩
  all_goals rw [h1]
  · exact Or.inl rfl
  · exact Or.inr ⟨g, _, hg, rfl⟩

theorem mem_insert_of_registered (e : Engine) (gameID j : GoString) (g g' : GameState)
    (hg : e.games.lookup gameID = some g) :
    j ∈ e.games.insert gameID g' ↔ j ∈ e.games := by
  rw [AList.mem_insert]
  constructor
  · rintro (rfl | h)
    · rw [mem_games_iff]; exact ⟨g, hg⟩
    · exact h
  · exact fun h => Or.inr h

/-- C25: the registry operations touch only the record they are keyed by.
`CreateGame`, `MakeMove`, `ResetGame` and `DeleteGame` on an id, successful or
failing, leave the record of every other id as it was, registered or not;
`MakeMove` and `ResetGame` never change the set of registered ids; and in
every reachable state the `GameID` of a record is the key it is registered
under. -/
theorem operations_frame (e : Engine) (gameID : GoString) :
    (∀ e', (CreateGame e gameID).engine = some e' →
      ∀ j, j ≠ gameID → e'.games.lookup j = e.games.lookup j ∧ (j ∈ e'.games ↔ j ∈ e.games)) ∧
    (∀ pos player e', (MakeMove e gameID pos player).engine = some e' →
      (∀ j, j ≠ gameID → e'.games.lookup j = e.games.lookup j) ∧
      ∀ j, j ∈ e'.games ↔ j ∈ e.games) ∧
    (∀ e', (ResetGame e gameID).engine = some e' →
      (∀ j, j ≠ gameID → e'.games.lookup j = e.games.lookup j) ∧
      ∀ j, j ∈ e'.games ↔ j ∈ e.games) ∧
    (∀ e', (DeleteGame e gameID).engine = some e' →
      ∀ j, j ≠ gameID → e'.games.lookup j = e.games.lookup j ∧ (j ∈ e'.games ↔ j ∈ e.games)) ∧
    (∃ e', (CreateGame e gameID).engine = some e') ∧
    (∀ pos player, ∃ e', (MakeMove e gameID pos player).engine = some e') ∧
    (∃ e', (ResetGame e gameID).engine = some e') ∧
    (∃ e', (DeleteGame e gameID).engine = some e') ∧
    (Reachable e → ∀ j g, e.games.lookup j = some g → g.GameID = j) := by
  refine ⟨?_, ?_, ?_, ?_, ⟨_, rfl⟩, ?_, ?_, ?_, fun h j g hg => gameID_eq_key e h j g hg⟩
  · intro e' he' j hj
    simp only [CreateGame, Outcome.engine, Option.some.injEq] at he'
    subst he'
    refine ⟨AList.lookup_insert_ne hj, ?_⟩
    rw [AList.mem_insert]
    exact ⟨fun h => h.resolve_left hj, fun h => Or.inr h⟩
  · intro pos player e' he'
    rcases makeMove_engine_cases e gameID pos player with h | ⟨g, g', hg, h⟩
    · rw [h] at he'; cases he'
      exact ⟨fun _ _ => rfl, fun _ => Iff.rfl⟩
    · rw [h] at he'; cases he'
      exact ⟨fun j hj => AList.lookup_insert_ne hj,
        fun j => mem_insert_of_registered e gameID j g g' hg⟩
  · intro e' he'
    rcases resetGame_engine_cases e gameID with h | ⟨g, g', hg, h⟩
    · rw [h] at he'; cases he'
      exact ⟨fun _ _ => rfl, fun _ => Iff.rfl⟩
    · rw [h] at he'; cases he'
      exact ⟨fun j hj => AList.lookup_insert_ne hj,
        fun j => mem_insert_of_registered e gameID j g g' hg⟩
  · intro e' he' j hj
    rcases deleteGame_cases e gameID with ⟨-, h⟩ | ⟨g, -, h⟩
    · rw [h] at he'
      simp only [Outcome.engine, Option.some.injEq] at he'
      subst he'
      exact ⟨rfl, Iff.rfl⟩
    · rw [h] at he'
      simp only [Outcome.engine, Option.some.injEq] at he'
      subst he'
      refine ⟨AList.lookup_erase_ne hj, ?_⟩
      rw [AList.mem_erase]
      exact ⟨fun h => h.2, fun h => ⟨hj, h⟩⟩
  · intro pos player
    rcases makeMove_engine_cases e gameID pos player with h | ⟨_, _, -, h⟩ <;> exact ⟨_, h⟩
  · rcases resetGame_engine_cases e gameID with h | ⟨_, _, -, h⟩ <;> exact ⟨_, h⟩
  · rcases deleteGame_cases e gameID with ⟨-, h⟩ | ⟨_, -, h⟩ <;> rw [h] <;> exact ⟨_, rfl⟩

/-! ### Alternation of the turns and length of a game -/

theorem countMark_put (b : Board) (r c : Fin 3) (p m : Player) (hb : b r c = Empty)
    (hm : m ≠ Empty) :
    countMark (Board.put b r c p) m = countMark b m + if p = m then 1 else 0 := by
  unfold countMark
  by_cases hpm : p = m
  · subst hpm
    have hset : (Finset.univ.filter fun rc : Fin 3 × Fin 3 => Board.put b r c p rc.1 rc.2 = p) =
        insert (r, c) (Finset.univ.filter fun rc : Fin 3 × Fin 3 => b rc.1 rc.2 = p) := by
      ext ⟨r', c'⟩
      simp only [Finset.mem_filter, Finset.mem_univ, true_and, Finset.mem_insert, Prod.mk.injEq,
        put_apply]
      by_cases hrc : r' = r ∧ c' = c
      · simp only [hrc, and_self, if_true, true_or]
      · simp only [hrc, if_false, false_or]
    rw [hset, Finset.card_insert_of_not_mem, if_pos rfl]
    simp only [Finset.mem_filter, Finset.mem_univ, true_and, hb]
    exact fun h => hm h.symm
  · have hset : (Finset.univ.filter fun rc : Fin 3 × Fin 3 => Board.put b r c p rc.1 rc.2 = m) =
        (Finset.univ.filter fun rc : Fin 3 × Fin 3 => b rc.1 rc.2 = m) := by
      ext ⟨r', c'⟩
      simp only [Finset.mem_filter, Finset.mem_univ, true_and, put_apply]
      by_cases hrc : r' = r ∧ c' = c
      · obtain ⟨rfl, rfl⟩ := hrc
        simp only [and_self, if_true, hb]
        exact ⟨fun h => absurd h hpm, fun h => absurd h.symm hm⟩
      · simp only [hrc, if_false]
    rw [hset, if_neg hpm, Nat.add_zero]

theorem countMark_newBoard_X : countMark NewBoard PlayerX = 0 := by decide

theorem countMark_newBoard_O : countMark NewBoard PlayerO = 0 := by decide

theorem three_le_countMark (b : Board) (m : Player) (h : FillsLine b m) : 3 ≤ countMark b m := by
  obtain ⟨l, hl, hall⟩ := h
  have hsub : l.toFinset ⊆ Finset.univ.filter fun rc : Fin 3 × Fin 3 => b rc.1 rc.2 = m := by
    intro rc hrc
    simp only [Finset.mem_filter, Finset.mem_univ, true_and]
    exact hall rc (List.mem_toFinset.1 hrc)
  have hcard : l.toFinset.card = 3 := by
    simp only [lines, List.mem_cons, List.mem_singleton, List.not_mem_nil, or_false] at hl
    rcases hl with rfl | rfl | rfl | rfl | rfl | rfl | rfl | rfl <;> decide
  unfold countMark
  have := Finset.card_le_card hsub
  omega

theorem altPlayer_eq_X_iff (n : Nat) : altPlayer n = PlayerX ↔ n % 2 = 0 := by
  unfold altPlayer
  split_ifs with h
  · exact ⟨fun _ => h, fun _ => rfl⟩
  · exact ⟨fun hx => absurd hx playerX_ne_playerO.symm, fun h' => absurd h' h⟩

theorem moved_currentPlayer_of_over (g : GameState) (r c : Fin 3) (p : Player)
    (hs : g.Status = StatusOngoing) (h : (g.moved r c p).Status ≠ StatusOngoing) :
    (g.moved r c p).CurrentPlayer = g.CurrentPlayer := by
  unfold GameState.moved at h ⊢
  dsimp only at h ⊢
  split_ifs at h ⊢ with h1 h2
  · rfl
  · rfl
  · exact absurd hs h

theorem turnInv_newGame (gameID : GoString) : TurnInv (NewGame gameID) none where
  base := gameInv_newGame gameID
  xs := by
    show countMark NewBoard PlayerX = (occupied NewBoard + 1) / 2
    rw [countMark_newBoard_X, occupied_newBoard]
  os := by
    show countMark NewBoard PlayerO = occupied NewBoard / 2
    rw [countMark_newBoard_O, occupied_newBoard]
  turn := fun _ => by
    show PlayerX = altPlayer (occupied NewBoard)
    rw [occupied_newBoard]; rfl
  lastMove := fun h => absurd rfl h

theorem turnInv_cleared (g : GameState) : TurnInv g.cleared none where
  base := gameInv_cleared g
  xs := by
    show countMark NewBoard PlayerX = (occupied NewBoard + 1) / 2
    rw [countMark_newBoard_X, occupied_newBoard]
  os := by
    show countMark NewBoard PlayerO = occupied NewBoard / 2
    rw [countMark_newBoard_O, occupied_newBoard]
  turn := fun _ => by
    show PlayerX = altPlayer (occupied NewBoard)
    rw [occupied_newBoard]; rfl
  lastMove := fun h => absurd rfl h

theorem turnInv_moved (g : GameState) (l : Option Player) (r c : Fin 3) (h : TurnInv g l)
    (hs : g.Status = StatusOngoing) (hc : g.Board r c = Empty) :
    TurnInv (g.moved r c g.CurrentPlayer) (some g.CurrentPlayer) := by
  have hturn := h.turn hs
  have hocc : occupied (Board.put g.Board r c g.CurrentPlayer) = occupied g.Board + 1 := by
    apply occupied_put _ _ _ _ hc
    rw [hturn]; exact altPlayer_ne_empty _
  have hX := countMark_put g.Board r c g.CurrentPlayer PlayerX hc playerX_ne_empty
  have hO := countMark_put g.Board r c g.CurrentPlayer PlayerO hc playerO_ne_empty
  have hxs := h.xs
  have hos := h.os
  refine ⟨gameInv_moved g l r c h.base hs hc, ?_, ?_, ?_, ?_⟩
  · rw [moved_board, hocc, hX, hxs]
    by_cases hp : g.CurrentPlayer = PlayerX
    · have := (altPlayer_eq_X_iff _).1 (hturn.symm.trans hp)
      rw [if_pos hp]; omega
    · have : ¬ occupied g.Board % 2 = 0 := fun h0 =>
        hp (hturn.trans ((altPlayer_eq_X_iff _).2 h0))
      rw [if_neg hp]; omega
  · rw [moved_board, hocc, hO, hos]
    by_cases hp : g.CurrentPlayer = PlayerX
    · have := (altPlayer_eq_X_iff _).1 (hturn.symm.trans hp)
      rw [if_neg (by rw [hp]; exact playerX_ne_playerO)]; omega
    · have hodd : ¬ occupied g.Board % 2 = 0 := fun h0 =>
        hp (hturn.trans ((altPlayer_eq_X_iff _).2 h0))
      have hpo : g.CurrentPlayer = PlayerO := by
        rcases altPlayer_cases (occupied g.Board) with hx | ho
        · exact absurd (hturn.trans hx) hp
        · exact hturn.trans ho
      rw [if_pos hpo]; omega
  · intro hs'
    rw [moved_currentPlayer_of_ongoing _ _ _ _ hs', moved_board, hocc, GameState.NextPlayer,
      hturn]
    exact altPlayer_succ _
  · intro hs'
    rw [moved_currentPlayer_of_over _ _ _ _ hs hs']

theorem turnInv_of_trace (ops : List Op) (e : Engine) (last : History)
    (hrun : runTrace NewEngine (fun _ => none) ops = some (e, last))
    (gameID : GoString) (g : GameState) (hg : e.games.lookup gameID = some g) :
    TurnInv g (last gameID) :=
  trace_induction TurnInv turnInv_newGame (fun g _ _ => turnInv_cleared g)
    (fun g l r c h hs hc => turnInv_moved g l r c h hs hc) ops NewEngine (fun _ => none)
    (fun j g hj => by simp [NewEngine] at hj) e last hrun gameID g hg

theorem turnInv_of_reachable (e : Engine) (h : Reachable e) (gameID : GoString)
    (g : GameState) (hg : e.games.lookup gameID = some g) : ∃ l, TurnInv g l := by
  obtain ⟨ops, last, hrun⟩ := reachable_trace e h
  exact ⟨_, turnInv_of_trace ops e last hrun gameID g hg⟩

/-- C26: turns alternate strictly, starting with X. In every record of every
execution from `NewEngine`, with `MoveCount` n, the board holds ceil(n/2) marks
X and floor(n/2) marks O; while the status is ongoing the current player is X
iff n is even; and when the status is won or draw the current player is the
player who made the last move (the turn is not flipped on a terminating
move). -/
theorem turns_alternate (ops : List Op) (e : Engine) (last : History)
    (hrun : runTrace NewEngine (fun _ => none) ops = some (e, last))
    (gameID : GoString) (g : GameState) (hg : e.games.lookup gameID = some g) :
    runFrom NewEngine ops = some e ∧
    ∃ n : Nat, g.MoveCount = (n : Int) ∧
      countMark g.Board PlayerX = (n + 1) / 2 ∧
      countMark g.Board PlayerO = n / 2 ∧
      countMark g.Board PlayerX + countMark g.Board PlayerO = n ∧
      (g.Status = StatusOngoing →
        (g.CurrentPlayer = PlayerX ↔ n % 2 = 0) ∧ (g.CurrentPlayer = PlayerO ↔ n % 2 = 1)) ∧
      (g.Status = StatusWon ∨ g.Status = StatusDraw → last gameID = some g.CurrentPlayer) := by
  have hinv := turnInv_of_trace ops e last hrun gameID g hg
  have hfst := runTrace_fst ops NewEngine (fun _ => none)
  rw [hrun] at hfst
  refine ⟨hfst.symm, occupied g.Board, hinv.base.count, hinv.xs, hinv.os, ?_, ?_, ?_⟩
  · rw [hinv.xs, hinv.os]; omega
  · intro hs
    have hturn := hinv.turn hs
    refine ⟨by rw [hturn]; exact altPlayer_eq_X_iff _, ?_⟩
    rw [hturn]
    constructor
    · intro ho
      by_contra hne
      have h0 : occupied g.Board % 2 = 0 := by omega
      have := (altPlayer_eq_X_iff _).2 h0
      rw [ho] at this
      exact playerX_ne_playerO this.symm
    · intro h1
      rcases altPlayer_cases (occupied g.Board) with hx | ho
      · have := (altPlayer_eq_X_iff _).1 hx
        omega
      · exact ho
  · intro hs
    apply hinv.lastMove
    rcases hs with hs | hs <;> rw [hs]
    · exact ongoing_ne_won.symm
    · exact ongoing_ne_draw.symm

set_option maxRecDepth 8000 in
/-- Example for C26: after X:A1, O:A2, X:B1, O:B2, X:C1 the game is won, the
board holds three X and two O, and the current player is still X, the last
mover. -/
theorem turns_alternate_witness :
    runTrace NewEngine (fun _ => none) rowWinAll =
        some (engineAfter rowWinAll, historyAfter rowWinAll) ∧
      (engineAfter rowWinAll).games.lookup demoID = some (gameAfter rowWinAll demoID) ∧
      (gameAfter rowWinAll demoID).MoveCount = 5 ∧
      countMark (gameAfter rowWinAll demoID).Board PlayerX = 3 ∧
      countMark (gameAfter rowWinAll demoID).Board PlayerO = 2 ∧
      (gameAfter rowWinAll demoID).CurrentPlayer = PlayerX ∧
      historyAfter rowWinAll demoID = some PlayerX ∧
      runFrom NewEngine rowWinAll = some (engineAfter rowWinAll) :=
  ⟨rfl, rfl, rfl, by decide, by decide, rfl, rfl,
    (turns_alternate rowWinAll (engineAfter rowWinAll) (historyAfter rowWinAll) rfl demoID
      (gameAfter rowWinAll demoID) rfl).1⟩

/-- C27: every game ends within nine moves and an ongoing game always has a
legal move. In every reachable record `MoveCount` is at most 9; if the status
is ongoing, `MoveCount` is at most 8 and `GetAvailableMoves` returns exactly
9 - `MoveCount` positions, at least one, each of which `MakeMove` accepts for
the current player; if the status is draw, `MoveCount` is 9; if it is won,
`MoveCount` is between 5 and 9. Hence `GetAvailableMoves` returns the empty
sequence iff the game is over. -/
theorem game_length (e : Engine) (h : Reachable e) (gameID : GoString) (g : GameState)
    (hg : e.games.lookup gameID = some g) :
    (0 ≤ g.MoveCount ∧ g.MoveCount ≤ 9) ∧
    (g.Status = StatusOngoing →
      g.MoveCount ≤ 8 ∧
      ∃ moves, GetAvailableMoves e gameID = .ok e moves ∧
        (moves.length : Int) = 9 - g.MoveCount ∧ 1 ≤ moves.length ∧
        ∀ p ∈ moves, ∃ e' g', MakeMove e gameID p g.CurrentPlayer = .ok e' g') ∧
    (g.Status = StatusDraw → g.MoveCount = 9) ∧
    (g.Status = StatusWon → 5 ≤ g.MoveCount ∧ g.MoveCount ≤ 9) ∧
    (∃ moves, GetAvailableMoves e gameID = .ok e moves ∧
      (moves = [] ↔ g.Status ≠ StatusOngoing) ∧
      (moves = [] ↔ g.Status = StatusWon ∨ g.Status = StatusDraw)) := by
  obtain ⟨l, hinv⟩ := turnInv_of_reachable e h gameID g hg
  have hcount := hinv.base.count
  have h9 := occupied_le g.Board
  have hongoing : g.Status = StatusOngoing → occupied g.Board ≤ 8 := by
    intro hs
    have hnf := hinv.base.ongoing hs
    have : ¬ occupied g.Board = 9 := by
      rw [← isFull_iff_occupied, hnf]; exact Bool.false_ne_true
    omega
  have hmoves : g.Status = StatusOngoing →
      (allPositions.filter (cellEmpty g.Board)).length + occupied g.Board = 9 := by
    intro _
    rw [length_filter_cellEmpty]
    exact emptyCells_add_occupied g.Board
  refine ⟨⟨by omega, by omega⟩, ?_, ?_, ?_, ?_⟩
  · intro hs
    have h8 := hongoing hs
    have hm := hmoves hs
    refine ⟨by omega, _, getAvailableMoves_ongoing e gameID g hg hs, by omega, by omega, ?_⟩
    intro p hp
    rw [List.mem_filter, cellEmpty_iff, allPositions_inRange] at hp
    obtain ⟨hr, hget⟩ := hp
    obtain ⟨r, c, hr', hc'⟩ := index3_of_inRange p hr
    rw [get_of_index3 _ _ _ _ hr' hc'] at hget
    have hcell : g.Board r c = Empty := Run.done.inj hget
    rcases makeMove_cases e gameID p g.CurrentPlayer with ⟨hl, -⟩ | ⟨g1, hl, hs1, -⟩ |
      ⟨g1, hl, -, hp1, -⟩ | ⟨g1, hl, -, -, hr1, -⟩ |
      ⟨g1, r1, c1, hl, -, -, hr1, hc1, hcell1, -⟩ | ⟨g1, r1, c1, hl, -, -, hr1, hc1, -, h1⟩
    · rw [hg] at hl; cases hl
    · rw [hg] at hl; cases hl; exact absurd hs hs1
    · rw [hg] at hl; cases hl; exact absurd rfl hp1
    · exact absurd hr hr1
    · rw [hg] at hl; cases hl
      rw [hr'] at hr1; rw [hc'] at hc1
      cases hr1; cases hc1
      exact absurd hcell hcell1
    · exact ⟨_, _, h1⟩
  · intro hd
    have := (isFull_iff_occupied _).1 (hinv.base.draw hd)
    omega
  · intro hw
    obtain ⟨hwc, hfl, -⟩ := hinv.base.won hw
    have h3 := three_le_countMark _ _ hfl
    have hxs := hinv.xs
    have hos := hinv.os
    rcases hinv.base.current with hp | hp
    · rw [hwc, hp] at h3
      omega
    · rw [hwc, hp] at h3
      omega
  · by_cases hs : g.Status = StatusOngoing
    · have h8 := hongoing hs
      have hm := hmoves hs
      refine ⟨_, getAvailableMoves_ongoing e gameID g hg hs, ?_, ?_⟩
      · constructor
        · intro hnil
          rw [hnil] at hm
          simp only [List.length_nil] at hm
          omega
        · intro hne; exact absurd hs hne
      · constructor
        · intro hnil
          rw [hnil] at hm
          simp only [List.length_nil] at hm
          omega
        · rintro (hw | hd)
          · rw [hs] at hw; exact absurd hw ongoing_ne_won
          · rw [hs] at hd; exact absurd hd ongoing_ne_draw
    · refine ⟨[], getAvailableMoves_over e gameID g hg hs, ⟨fun _ => hs, fun _ => rfl⟩,
        ⟨fun _ => ?_, fun _ => rfl⟩⟩
      rcases hinv.base.status with h1 | h1 | h1
      · exact absurd h1 hs
      · exact Or.inl h1
      · exact Or.inr h1

/-- Example for C27: after X:A1, O:A2, X:B1, O:B2 four moves are made, the game
is ongoing and five moves are available. -/
theorem game_length_witness :
    Reachable (engineAfter rowWinOps) ∧
      (engineAfter rowWinOps).games.lookup demoID = some (gameAfter rowWinOps demoID) ∧
      (gameAfter rowWinOps demoID).MoveCount = 4 ∧
      (0 ≤ (gameAfter rowWinOps demoID).MoveCount ∧ (gameAfter rowWinOps demoID).MoveCount ≤ 9) :=
  ⟨⟨rowWinOps, rfl⟩, rfl, rfl,
    (game_length (engineAfter rowWinOps) ⟨rowWinOps, rfl⟩ demoID (gameAfter rowWinOps demoID)
      rfl).1⟩

/-! ### The `make_move` adapter -/

theorem makeMove_err_engine (e e' : Engine) (gameID : GoString) (pos : Position)
    (player : Player) (msg : GoString) (h : MakeMove e gameID pos player = .err e' msg) :
    e' = e := by
  rcases makeMove_cases e gameID pos player with ⟨-, h1⟩ | ⟨_, -, -, h1⟩ | ⟨_, -, -, -, h1⟩ |
    ⟨_, -, -, -, -, h1⟩ | ⟨_, _, _, -, -, -, -, -, -, h1⟩ | ⟨_, _, _, -, -, -, -, -, -, h1⟩
  all_goals rw [h1] at h
  all_goals cases h
  all_goals rfl

theorem makeMoveAs_err (e e' : Engine) (gameID positionStr : GoString) (position : Position)
    (player : Player) (msg : GoString) (h : MakeMove e gameID position player = .err e' msg) :
    makeMoveAs e gameID positionStr position player =
      .done ⟨e, NewToolResultError (ascii "Move failed: " ++ msg), none⟩ := by
  have := makeMove_err_engine e e' gameID position player msg h
  subst this
  simp only [makeMoveAs, h]

theorem successful_infix (a b : GoString) :
    ascii "Move successful" <:+: ascii "Move successful: " ++ a ++ b := by
  refine ⟨[], ascii ": " ++ a ++ b, ?_⟩
  simp only [List.nil_append, List.append_assoc]
  rfl

theorem nextPlayer_infix (r c : GoString) :
    ascii "Next player: " ++ c <:+: r ++ ascii "\nNext player: " ++ c := by
  refine ⟨r ++ ascii "\n", [], ?_⟩
  simp only [List.append_nil, List.append_assoc]
  rfl

theorem makeMoveAs_ok (e e' : Engine) (gameID positionStr : GoString) (position : Position)
    (player : Player) (g' : GameState) (h : MakeMove e gameID position player = .ok e' g') :
    ∃ text, makeMoveAs e gameID positionStr position player =
        .done ⟨e', NewToolResultText text, none⟩ ∧
      ascii "Move successful" <:+: text ∧
      (g'.Status = StatusOngoing →
        text = ascii "Move successful: " ++ player ++ ascii " placed " ++ player ++
          ascii " at " ++ positionStr ++ ascii "\n\nUpdated board:\n" ++
          Board.String g'.Board ++ ascii "\nNext player: " ++ g'.CurrentPlayer ∧
        ascii "Next player: " ++ g'.CurrentPlayer <:+: text) := by
  simp only [makeMoveAs, h]
  refine ⟨_, rfl, ?_, ?_⟩
  · split_ifs
    all_goals simp only [List.append_assoc]
    all_goals exact successful_infix [] _
  · intro hs
    have hover : g'.IsGameOver = false := by
      simp [GameState.IsGameOver, hs]
    simp only [hover, Bool.false_eq_true, if_false, true_and]
    exact nextPlayer_infix _ _

theorem makeMoveAs_done (e : Engine) (gameID positionStr : GoString) (position : Position)
    (player : Player) :
    ∃ ret, makeMoveAs e gameID positionStr position player = .done ret ∧ ret.err = none := by
  rcases hm : MakeMove e gameID position player with ⟨e', g'⟩ | ⟨e', msg⟩ | _
  · obtain ⟨text, h, -⟩ := makeMoveAs_ok e e' gameID positionStr position player g' hm
    exact ⟨_, h, rfl⟩
  · exact ⟨_, makeMoveAs_err e e' gameID positionStr position player msg hm, rfl⟩
  · exact absurd hm (makeMove_ne_panic e gameID position player)

set_option maxRecDepth 8000 in
/-- The calls of `TestMakeMoveTool`: on a fresh `test-game`
the move A1 by X is answered by a text that ends with `Next player: O`; the
move A2 by X that follows is answered by an error result, the registry
unchanged. -/
theorem handleMakeMove_spec_example :
    handleMakeMove asciiUpper testEngine (moveRequest (ascii "A1") (ascii "X")) =
      .done ⟨testEngineMoved, NewToolResultText (ascii "Move successful: X placed X at A1" ++
        ascii "\n\nUpdated board:\n" ++ Board.String (gameAfter
          [.create (ascii "test-game"), .move (ascii "test-game") ⟨0, 0⟩ PlayerX]
          (ascii "test-game")).Board ++ ascii "\nNext player: O"), none⟩ ∧
    handleMakeMove asciiUpper testEngineMoved (moveRequest (ascii "A2") (ascii "X")) =
      .done ⟨testEngineMoved, NewToolResultError (ascii "Move failed: it\x27s not X\x27s turn"),
        none⟩ ∧
    handleMakeMove asciiUpper testEngineMoved (moveRequest (ascii "A2") (ascii "o")) =
      .done ⟨engineAfter [.create (ascii "test-game"), .move (ascii "test-game") ⟨0, 0⟩ PlayerX,
          .move (ascii "test-game") ⟨1, 0⟩ PlayerO],
        NewToolResultText (ascii "Move successful: O placed O at A2" ++
          ascii "\n\nUpdated board:\n" ++ Board.String (gameAfter
            [.create (ascii "test-game"), .move (ascii "test-game") ⟨0, 0⟩ PlayerX,
              .move (ascii "test-game") ⟨1, 0⟩ PlayerO] (ascii "test-game")).Board ++
          ascii "\nNext player: X"), none⟩ :=
  ⟨rfl, rfl, rfl⟩

/-- C24: the `make_move` adapter never surfaces an engine or argument error as
a handler failure. For every request `handleMakeMove` returns a nil Go error
(and does not panic). When `game_id`, `position` or `player` is missing, the
position text is rejected by `ParsePosition`, the upper-cased player is neither
`X` nor `O`, or `MakeMove` rejects the move, the result is an error result
with a message and the registry is unchanged. When the move is accepted the
result is a non-error text containing `Move successful` and, if the game
continues, `Next player:` followed by the other mark. In `TestMakeMoveTool`, X
moving twice in a row gets an error result the second time. -/
theorem handleMakeMove_spec (upper : GoString → GoString) (e : Engine)
    (request : CallToolRequest) :
    (∃ ret, handleMakeMove upper e request = .done ret ∧ ret.err = none) ∧
    (request.RequireString (ascii "game_id") = none →
      handleMakeMove upper e request =
        .done ⟨e, NewToolResultError (ascii "game_id is required"), none⟩) ∧
    (∀ gameID, request.RequireString (ascii "game_id") = some gameID →
      (request.RequireString (ascii "position") = none →
        handleMakeMove upper e request =
          .done ⟨e, NewToolResultError (ascii "position is required"), none⟩) ∧
      ∀ positionStr, request.RequireString (ascii "position") = some positionStr →
        (request.RequireString (ascii "player") = none →
          handleMakeMove upper e request =
            .done ⟨e, NewToolResultError (ascii "player is required"), none⟩) ∧
        ∀ playerStr, request.RequireString (ascii "player") = some playerStr →
          (∀ msg, ParsePosition positionStr = .error msg →
            handleMakeMove upper e request =
              .done ⟨e, NewToolResultError (ascii "Invalid position: " ++ msg), none⟩) ∧
          ∀ position, ParsePosition positionStr = .ok position →
            (upper playerStr ≠ ascii "X" → upper playerStr ≠ ascii "O" →
              handleMakeMove upper e request =
                .done ⟨e, NewToolResultError (ascii "Player must be \x27X\x27 or \x27O\x27"),
                  none⟩) ∧
            ∀ player, (upper playerStr = ascii "X" ∧ player = PlayerX) ∨
                (upper playerStr = ascii "O" ∧ player = PlayerO) →
              (∀ e' msg, MakeMove e gameID position player = .err e' msg →
                handleMakeMove upper e request =
                  .done ⟨e, NewToolResultError (ascii "Move failed: " ++ msg), none⟩) ∧
              (∀ e' g', MakeMove e gameID position player = .ok e' g' →
                ∃ text, handleMakeMove upper e request =
                    .done ⟨e', NewToolResultText text, none⟩ ∧
                  ascii "Move successful" <:+: text ∧
                  (g'.Status = StatusOngoing →
                    g'.CurrentPlayer = (if player = PlayerX then PlayerO else PlayerX) ∧
                    ascii "Next player: " ++ g'.CurrentPlayer <:+: text))) ∧
    (∀ text, (NewToolResultError text).IsError = true ∧ (NewToolResultError text).Text = text ∧
      (NewToolResultText text).IsError = false ∧ (NewToolResultText text).Text = text) ∧
    (∃ ret, handleMakeMove asciiUpper testEngineMoved (moveRequest (ascii "A2") (ascii "X")) =
        .done ret ∧ ret.result.IsError = true ∧ ret.engine = testEngineMoved ∧
      ret.err = none) := by
  refine ⟨?_, ?_, ?_, fun text => ⟨rfl, rfl, rfl, rfl⟩,
    ⟨_, handleMakeMove_spec_example.2.1, rfl, rfl, rfl⟩⟩
  · unfold handleMakeMove
    split
    · exact ⟨_, rfl, rfl⟩
    · split
      · exact ⟨_, rfl, rfl⟩
      · split
        · exact ⟨_, rfl, rfl⟩
        · split
          · exact ⟨_, rfl, rfl⟩
          · split_ifs
            · exact makeMoveAs_done _ _ _ _ _
            · exact makeMoveAs_done _ _ _ _ _
            · exact ⟨_, rfl, rfl⟩
  · intro h
    simp only [handleMakeMove, h]
  · intro gameID hid
    refine ⟨fun h => by simp only [handleMakeMove, hid, h], fun positionStr hpos => ?_⟩
    refine ⟨fun h => by simp only [handleMakeMove, hid, hpos, h], fun playerStr hpl => ?_⟩
    refine ⟨fun msg h => by simp only [handleMakeMove, hid, hpos, hpl, h], fun position hp => ?_⟩
    refine ⟨fun hx ho => by simp only [handleMakeMove, hid, hpos, hpl, hp, hx, ho, if_false],
      fun player hplayer => ?_⟩
    have hcall : handleMakeMove upper e request =
        makeMoveAs e gameID positionStr position player := by
      rcases hplayer with ⟨hu, rfl⟩ | ⟨hu, rfl⟩
      · simp only [handleMakeMove, hid, hpos, hpl, hp, hu, if_true]
      · have hne : ascii "O" ≠ ascii "X" := by decide
        simp only [handleMakeMove, hid, hpos, hpl, hp, hu, hne, if_true, if_false]
    refine ⟨fun e' msg h => ?_, fun e' g' h => ?_⟩
    · rw [hcall]
      exact makeMoveAs_err e e' gameID positionStr position player msg h
    · rw [hcall]
      obtain ⟨text, h1, h2, h3⟩ := makeMoveAs_ok e e' gameID positionStr position player g' h
      refine ⟨text, h1, h2, fun hs => ⟨?_, (h3 hs).2⟩⟩
      obtain ⟨g, r, c, -, -, hcur, -, -, -, rfl, -⟩ :=
        makeMove_ok e e' gameID position player g' h
      rw [moved_currentPlayer_of_ongoing _ _ _ _ hs, GameState.NextPlayer, ← hcur]

/-! ### The lock of the registry -/

/-- C22 fails on the code: on a registered ongoing game, a call of
`AnalyzePosition` that has taken its read lock and a call of `MakeMove` that
then starts to wait for the write lock block each other for ever. The inner
`GetAvailableMoves` waits behind the waiting writer, and the writer waits for
the read lock `AnalyzePosition` holds: no goroutine can step and neither call
has returned. The same two callers with `GetAvailableMoves` in place of
`AnalyzePosition` return under that schedule. -/
theorem analyzePosition_deadlock :
    reachesInnerCall testEngine (ascii "test-game") = true ∧
    lockOps testEngine (.analyzePosition (ascii "test-game")) =
      [.RLock, .RLock, .RUnlock, .RUnlock] ∧
    (Sched.start testEngine [.analyzePosition (ascii "test-game"),
      .makeMove (ascii "test-game") ⟨0, 0⟩ PlayerX]).run [0, 1] = some stuckState ∧
    stuckState.Deadlocked ∧
    stuckState.step 0 = none ∧ stuckState.step 1 = none ∧ ¬ stuckState.Finished ∧
    (∃ s, (Sched.start testEngine [.getAvailableMoves (ascii "test-game"),
      .makeMove (ascii "test-game") ⟨0, 0⟩ PlayerX]).run [0, 1, 0, 1, 1] = some s ∧
      s.Finished) := by
  refine ⟨by decide, by decide, by decide, by decide, by decide, by decide, by decide,
    ⟨_, rfl, by decide⟩⟩

end TicTacToe
